import Mathlib

/-!
# Simple-Calculator: lexer, parser and evaluator of `main.cpp`

A shallow embedding of the calculator of `src/main.cpp` and theorems about it.

Modelling conventions.

* A C++ exception is a value of `Exception`; a function that can throw returns
  `Except Exception _`. `std::runtime_error` carries the message the source gives
  it. `std::out_of_range` (thrown by `std::unordered_map::at` and by `std::stoi`)
  and `std::invalid_argument` (thrown by `std::stoi`) are thrown by the standard
  library with a text of the library's choosing, which holds neither the key nor
  the digits, so they carry nothing here.
* `int` is a 32-bit two's complement integer. Values are `Int`; every arithmetic
  result goes through `wrap_int`. Signed overflow is undefined in C++; for `+`,
  `-` and `*` the model takes the wrapped value, which is what the compiled
  program computes, and the theorems that speak of mathematical results assume
  the results are in range, where nothing is undefined. The one division that
  overflows, `INT_MIN / -1`, raises the signal `SIGFPE` in the compiled program,
  which kills the process; the model gives `Exception.SIGFPE` as the outcome.
* `Env` is an association list with unique keys: `env_at` is `Env::at`,
  `env_set` is `operator[]` followed by assignment.
* `eval` mutates the environment through a reference, so the model returns the
  environment next to the result, also when the result is an exception.
* C++ leaves the order in which the two operands of the built-in `+`, `-`, `*`
  are evaluated unspecified; `OperandOrder` records the choice of the compiler
  for the three expressions concerned. The compiled program evaluates the left
  operand first, which is the order `left_to_right`. The theorems hold for
  every choice, except those about the order itself, which are stated for
  `left_to_right`.
* The source text is a `String`, read as its list of characters. `isdigit`,
  `isalpha` and `isspace` are those of the C locale; a character outside ASCII
  is in none of the three classes.
* The recursive descent parser is mutually recursive; the model recurses on a
  budget `fuel` and returns `none` when it is used up. `parse` supplies a budget
  that `parse_total` proves sufficient for every token sequence.
-/

namespace Calc

/-! ## Exceptions and machine integers -/

/-- The ways a call ends without returning: the three exceptions the program can
throw, and `SIGFPE`, the signal raised by the division `INT_MIN / -1`. `SIGFPE` is
not a C++ exception: no `catch` sees it and it kills the process; like an
exception it ends every enclosing call at once, and it is kept in this type for
that reason. -/
inductive Exception where
  | runtime_error (what : String)
  | out_of_range
  | invalid_argument
  | SIGFPE
  deriving DecidableEq, Repr

/-- Equality of results with exceptions is decidable. -/
instance instDecidableEqExcept {ε α : Type} [DecidableEq ε] [DecidableEq α] :
    DecidableEq (Except ε α) := fun a b =>
  match a, b with
  | .ok x, .ok y =>
    if h : x = y then isTrue (by rw [h]) else isFalse (fun h1 => h (Except.ok.inj h1))
  | .error x, .error y =>
    if h : x = y then isTrue (by rw [h]) else isFalse (fun h1 => h (Except.error.inj h1))
  | .ok _, .error _ => isFalse (fun h1 => Except.noConfusion h1)
  | .error _, .ok _ => isFalse (fun h1 => Except.noConfusion h1)

/-- Largest value of `int`. -/
def INT_MAX : Int := 2147483647

/-- Smallest value of `int`. -/
def INT_MIN : Int := -2147483648

/-- Reduction of a mathematical integer to the `int` congruent to it modulo `2^32`. -/
def wrap_int (x : Int) : Int := (x + 2147483648) % 4294967296 - 2147483648

/-- The values an `int` can hold. -/
def in_int_range (x : Int) : Prop := INT_MIN ≤ x ∧ x ≤ INT_MAX

instance (x : Int) : Decidable (in_int_range x) := by
  unfold in_int_range; exact inferInstance

/-! ## Environment -/

/-- `using Env = std::unordered_map<std::string, int>`. -/
abbrev Env := List (String × Int)

/-- The entry of `name`, if there is one (`Env::find`). -/
def env_find : Env → String → Option Int
  | [], _ => none
  | (k, v) :: rest, name => if k = name then some v else env_find rest name

/-- `env.at(name)`: the value of `name`, or `std::out_of_range`. -/
def env_at (env : Env) (name : String) : Except Exception Int :=
  match env_find env name with
  | some v => .ok v
  | none => .error .out_of_range

/-- `env[name] = v`: overwrite the entry of `name`, or create it. -/
def env_set : Env → String → Int → Env
  | [], name, v => [(name, v)]
  | (k, w) :: rest, name, v =>
    if k = name then (k, v) :: rest else (k, w) :: env_set rest name v

/-! ## Expressions and their evaluation -/

/-- The classes derived from `Expr`. -/
inductive Expr where
  | Num (val : Int)
  | Addition (left right : Expr)
  | Subtraction (left right : Expr)
  | Multiplication (left right : Expr)
  | Division (left right : Expr)
  | Assignment (name : String) (val : Expr)
  | Variable (name : String)
  | Seq (left right : Expr)
  deriving DecidableEq, Repr

/-- Which operand the compiled program evaluates first in the three expressions
`left->eval(env) + right->eval(env)`, `... - ...` and `... * ...`. -/
structure OperandOrder where
  addition_right_first : Bool
  subtraction_right_first : Bool
  multiplication_right_first : Bool
  deriving DecidableEq, Repr

/-- The order in which operands are written: the left operand first. It is the
order of the compiled program. -/
def left_to_right : OperandOrder := ⟨false, false, false⟩

/-- Evaluation of the two operands of a built-in binary operator, in the order
given; an exception of the operand evaluated first leaves the other one
unevaluated. The pair returned is (value of left, value of right). -/
def eval_operands (right_first : Bool)
    (l r : Env → Except Exception Int × Env) (env : Env) :
    Except Exception (Int × Int) × Env :=
  if right_first then
    match r env with
    | (.error e, env1) => (.error e, env1)
    | (.ok b, env1) =>
      match l env1 with
      | (.error e, env2) => (.error e, env2)
      | (.ok a, env2) => (.ok (a, b), env2)
  else
    match l env with
    | (.error e, env1) => (.error e, env1)
    | (.ok a, env1) =>
      match r env1 with
      | (.error e, env2) => (.error e, env2)
      | (.ok b, env2) => (.ok (a, b), env2)

/-- The exception of `Division::eval`. -/
def DivisionByZero : Exception := .runtime_error "Error: Cannot divide by 0"

/-- The method `eval` of the eight classes. In `Division::eval` only `r == 0` is
guarded: `l / r` with `l = INT_MIN` and `r = -1` overflows and raises `SIGFPE`. -/
def eval (o : OperandOrder) : Expr → Env → Except Exception Int × Env
  | .Num val, env => (.ok val, env)
  | .Addition left right, env =>
    match eval_operands o.addition_right_first (eval o left) (eval o right) env with
    | (.error e, env1) => (.error e, env1)
    | (.ok (a, b), env1) => (.ok (wrap_int (a + b)), env1)
  | .Subtraction left right, env =>
    match eval_operands o.subtraction_right_first (eval o left) (eval o right) env with
    | (.error e, env1) => (.error e, env1)
    | (.ok (a, b), env1) => (.ok (wrap_int (a - b)), env1)
  | .Multiplication left right, env =>
    match eval_operands o.multiplication_right_first (eval o left) (eval o right) env with
    | (.error e, env1) => (.error e, env1)
    | (.ok (a, b), env1) => (.ok (wrap_int (a * b)), env1)
  | .Division left right, env =>
    match eval o left env with
    | (.error e, env1) => (.error e, env1)
    | (.ok l, env1) =>
      match eval o right env1 with
      | (.error e, env2) => (.error e, env2)
      | (.ok r, env2) =>
        if r = 0 then (.error DivisionByZero, env2)
        else if l = INT_MIN ∧ r = -1 then (.error .SIGFPE, env2)
        else (.ok (wrap_int (Int.tdiv l r)), env2)
  | .Assignment name val, env =>
    match eval o val env with
    | (.error e, env1) => (.error e, env1)
    | (.ok v, env1) => (.ok v, env_set env1 name v)
  | .Variable name, env => (env_at env name, env)
  | .Seq left right, env =>
    match eval o left env with
    | (.error e, env1) => (.error e, env1)
    | (.ok _, env1) => eval o right env1

/-! ## Tokens and the lexer -/

/-- `enum class Kind`. -/
inductive Kind where
  | Number | LParen | RParen | Plus | Minus | Mult | Div | Assign | Name | Semicolon
  deriving DecidableEq, Repr

/-- `struct Token`. -/
structure Token where
  kind : Kind
  lexeme : String
  deriving DecidableEq, Repr

/-- `std::isdigit` in the C locale. -/
def isdigit (c : Char) : Bool := decide (48 ≤ c.toNat ∧ c.toNat ≤ 57)

/-- `std::isalpha` in the C locale. -/
def isalpha (c : Char) : Bool :=
  decide ((65 ≤ c.toNat ∧ c.toNat ≤ 90) ∨ (97 ≤ c.toNat ∧ c.toNat ≤ 122))

/-- `std::isspace` in the C locale: space, `\t`, `\n`, `\v`, `\f`, `\r`. -/
def isspace (c : Char) : Bool := decide (c.toNat = 32 ∨ (9 ≤ c.toNat ∧ c.toNat ≤ 13))

/-- The inner loops `while (curr < end && p(source[curr]))` of `lex`: append the
characters to the lexeme while they satisfy `p`; returns the lexeme and the
input from the first character that does not. -/
def lex_run (p : Char → Bool) : List Char → String → String × List Char
  | [], acc => (acc, [])
  | c :: cs, acc => if p c then lex_run p cs (acc.push c) else (acc, c :: cs)

/-- The token of a character of the `switch` of `lex`, if it has a case. -/
def single_token (c : Char) : Option Token :=
  if c = '+' then some ⟨.Plus, "+"⟩
  else if c = '(' then some ⟨.LParen, "("⟩
  else if c = ')' then some ⟨.RParen, ")"⟩
  else if c = '*' then some ⟨.Mult, "*"⟩
  else if c = '-' then some ⟨.Minus, "-"⟩
  else if c = '/' then some ⟨.Div, "/"⟩
  else if c = '=' then some ⟨.Assign, "="⟩
  else if c = ';' then some ⟨.Semicolon, ";"⟩
  else none

/-- The exception of the `default` case of `lex`. -/
def unknown_character (c : Char) : Exception :=
  .runtime_error ("Unknown character: ".push c)

/-- The outer loop of `lex` from the current position on: `cs` is the input from
`curr` to the end, `tokens` the tokens pushed so far. -/
def lex_loop (cs : List Char) (tokens : List Token) : Except Exception (List Token) :=
  match cs with
  | [] => .ok tokens
  | c :: rest =>
    if _h : isdigit c = true then
      lex_loop (lex_run isdigit (c :: rest) "").2
        (tokens ++ [⟨.Number, (lex_run isdigit (c :: rest) "").1⟩])
    else if _h : isalpha c = true then
      lex_loop (lex_run isalpha (c :: rest) "").2
        (tokens ++ [⟨.Name, (lex_run isalpha (c :: rest) "").1⟩])
    else if isspace c then
      lex_loop rest tokens
    else
      match single_token c with
      | some tok => lex_loop rest (tokens ++ [tok])
      | none => .error (unknown_character c)
termination_by cs.length
decreasing_by
  all_goals simp_wf
  all_goals
    have shorter : ∀ (p : Char → Bool) (l : List Char) (acc : String),
        (lex_run p l acc).2.length ≤ l.length := by
      intro p l
      induction l with
      | nil => intro _; simp [lex_run]
      | cons d l ih =>
        intro acc
        simp only [lex_run]
        split
        · exact Nat.le_succ_of_le (ih _)
        · exact Nat.le_refl _
    simp only [lex_run, _h, if_true]
    exact Nat.lt_succ_of_le (shorter _ _ _)

/-- `std::vector<Token> lex(const std::string& source)`. -/
def lex (source : String) : Except Exception (List Token) :=
  lex_loop source.toList []

/-! ## The parser -/

/-- The number a sequence of decimal digits denotes. -/
def decimal_value (digits : List Char) : Nat :=
  digits.foldl (fun n c => 10 * n + (c.toNat - 48)) 0

/-- `std::stoi(str)`: skips leading white space, reads an optional sign and the
longest run of decimal digits; `std::invalid_argument` when there is no digit,
`std::out_of_range` when the value is not an `int`. -/
def stoi (str : String) : Except Exception Int :=
  let s := str.toList.dropWhile isspace
  let negative := decide (s.head? = some '-')
  let s := if s.head? = some '-' ∨ s.head? = some '+' then s.tail else s
  let digits := s.takeWhile isdigit
  if digits = [] then .error .invalid_argument
  else
    let v : Int :=
      if negative then - (decimal_value digits : Int) else (decimal_value digits : Int)
    if v < INT_MIN ∨ INT_MAX < v then .error .out_of_range else .ok v

/-- `bool past_end(int curr, const std::vector<Token> tokens)`. -/
def past_end (curr : Nat) (tokens : List Token) : Bool := decide (curr ≥ tokens.length)

/-- The exception of `parse_term` for a missing or wrong first token. -/
def expected_term : Exception := .runtime_error "Expected number or parenthesis"

/-- The exception of `parse_term` for a missing `)`. -/
def unclosed_parenthesis : Exception := .runtime_error "Unclosed parenthesis"

/-- What a parsing function gives: `none` when the recursion budget is used up,
otherwise the exception thrown or the expression built with the new value of the
cursor `curr`. -/
abbrev ParseResult := Option (Except Exception (Expr × Nat))

/-- Sequencing of a call with the statements after it: an exception of the call
(or its exhausted budget) leaves the function at once; otherwise the statements
`k` run with the expression returned and the cursor as the call left it. -/
def and_then (x : ParseResult) (k : Expr → Nat → ParseResult) : ParseResult :=
  match x with
  | none => none
  | some (.error e) => some (.error e)
  | some (.ok (expr, curr)) => k expr curr

mutual

/-- `parse_term(curr, tokens)`. Reading `tokens[curr]?` as `none` is
`past_end(curr, tokens)`. -/
def parse_term : Nat → Nat → List Token → ParseResult
  | 0, _, _ => none
  | fuel + 1, curr, tokens =>
    match tokens[curr]? with
    | none => some (.error expected_term)
    | some tok =>
      match tok.kind with
      | .Number =>
        match stoi tok.lexeme with
        | .error e => some (.error e)
        | .ok n => some (.ok (.Num n, curr + 1))
      | .LParen =>
        and_then (parse_expr fuel (curr + 1) tokens) fun expr curr1 =>
          match tokens[curr1]? with
          | none => some (.error unclosed_parenthesis)
          | some tok1 =>
            if tok1.kind ≠ .RParen then some (.error unclosed_parenthesis)
            else some (.ok (expr, curr1 + 1))
      | .Name => some (.ok (.Variable tok.lexeme, curr + 1))
      | _ => some (.error expected_term)
termination_by structural fuel => fuel

/-- The part of `parse_multiplication` after `left` has been parsed: the test
`past_end`, the fetch of `curr_tok` and the `while` loop, whose body ends with the
same test and fetch. -/
def parse_multiplication_loop : Nat → Expr → Nat → List Token → ParseResult
  | 0, _, _, _ => none
  | fuel + 1, left, curr, tokens =>
    match tokens[curr]? with
    | none => some (.ok (left, curr))
    | some curr_tok =>
      if curr_tok.kind = .Mult ∨ curr_tok.kind = .Div then
        and_then (parse_term fuel (curr + 1) tokens) fun right curr1 =>
          if curr_tok.kind = .Mult then
            parse_multiplication_loop fuel (.Multiplication left right) curr1 tokens
          else
            parse_multiplication_loop fuel (.Division left right) curr1 tokens
      else some (.ok (left, curr))
termination_by structural fuel => fuel

/-- `parse_multiplication(curr, tokens)`. -/
def parse_multiplication : Nat → Nat → List Token → ParseResult
  | 0, _, _ => none
  | fuel + 1, curr, tokens =>
    and_then (parse_term fuel curr tokens) fun left curr1 =>
      parse_multiplication_loop fuel left curr1 tokens
termination_by structural fuel => fuel

/-- The part of `parse_addition` after `left` has been parsed. -/
def parse_addition_loop : Nat → Expr → Nat → List Token → ParseResult
  | 0, _, _, _ => none
  | fuel + 1, left, curr, tokens =>
    match tokens[curr]? with
    | none => some (.ok (left, curr))
    | some curr_tok =>
      if curr_tok.kind = .Plus ∨ curr_tok.kind = .Minus then
        and_then (parse_multiplication fuel (curr + 1) tokens) fun right curr1 =>
          if curr_tok.kind = .Plus then
            parse_addition_loop fuel (.Addition left right) curr1 tokens
          else
            parse_addition_loop fuel (.Subtraction left right) curr1 tokens
      else some (.ok (left, curr))
termination_by structural fuel => fuel

/-- `parse_addition(curr, tokens)`. -/
def parse_addition : Nat → Nat → List Token → ParseResult
  | 0, _, _ => none
  | fuel + 1, curr, tokens =>
    and_then (parse_multiplication fuel curr tokens) fun left curr1 =>
      parse_addition_loop fuel left curr1 tokens
termination_by structural fuel => fuel

/-- `parse_assign(curr, tokens)`. The two tests `past_end(curr, tokens)` and
`past_end(curr+1, tokens)` are the two reads being `none`. -/
def parse_assign : Nat → Nat → List Token → ParseResult
  | 0, _, _ => none
  | fuel + 1, curr, tokens =>
    match tokens[curr]?, tokens[curr + 1]? with
    | some curr_tok, some next_tok =>
      if curr_tok.kind = .Name ∧ next_tok.kind = .Assign then
        and_then (parse_addition fuel (curr + 2) tokens) fun right curr1 =>
          some (.ok (.Assignment curr_tok.lexeme right, curr1))
      else parse_addition fuel curr tokens
    | _, _ => parse_addition fuel curr tokens
termination_by structural fuel => fuel

/-- The part of `parse_seq` after `left` has been parsed. -/
def parse_seq_loop : Nat → Expr → Nat → List Token → ParseResult
  | 0, _, _, _ => none
  | fuel + 1, left, curr, tokens =>
    match tokens[curr]? with
    | none => some (.ok (left, curr))
    | some curr_tok =>
      if curr_tok.kind = .Semicolon then
        and_then (parse_assign fuel (curr + 1) tokens) fun right curr1 =>
          parse_seq_loop fuel (.Seq left right) curr1 tokens
      else some (.ok (left, curr))
termination_by structural fuel => fuel

/-- `parse_seq(curr, tokens)`. -/
def parse_seq : Nat → Nat → List Token → ParseResult
  | 0, _, _ => none
  | fuel + 1, curr, tokens =>
    and_then (parse_assign fuel curr tokens) fun left curr1 =>
      parse_seq_loop fuel left curr1 tokens
termination_by structural fuel => fuel

/-- `parse_expr(curr, tokens)`. -/
def parse_expr : Nat → Nat → List Token → ParseResult
  | 0, _, _ => none
  | fuel + 1, curr, tokens => parse_seq fuel curr tokens
termination_by structural fuel => fuel

end

/-- The recursion budget `parse` starts with. -/
def parse_fuel (tokens : List Token) : Nat := 6 * tokens.length + 6

/-- `parse(tokens)`: `parse_expr` from `curr = 0`; the final cursor is dropped. -/
def parse (tokens : List Token) : Option (Except Exception Expr) :=
  match parse_expr (parse_fuel tokens) 0 tokens with
  | none => none
  | some (.error e) => some (.error e)
  | some (.ok (expr, _)) => some (.ok expr)

/-- `parse(lex(source))`, the first two calls of the `try` block of `main`. -/
def parse_source (source : String) : Option (Except Exception Expr) :=
  match lex source with
  | .error e => some (.error e)
  | .ok tokens => parse tokens

/-- The `try`/`catch` statement in the loop of `main` for the line `source`:
evaluation of `parse(lex(source))` in `env`. Gives the result printed, or the
exception caught (whose text is printed), and the environment as the statement
leaves it, which is the one the next line starts with. The loop runs it for
every line other than `end`. When the outcome is `SIGFPE` nothing is caught or
printed: the process is killed and there is no next line. `none` stands for an
exhausted parser budget. -/
def main_try (o : OperandOrder) (env : Env) (source : String) :
    Option (Except Exception Int × Env) :=
  match parse_source source with
  | none => none
  | some (.error e) => some (.error e, env)
  | some (.ok expr) => some (eval o expr env)

/-- The number a string of decimal digits denotes. -/
def literal_value (s : String) : Int := (decimal_value s.toList : Int)

/-! ## Definitions used in the statements and in the proofs -/

/-- The nine parsing functions give with budget `fuel + 1` what they give with
budget `fuel`, when that is a result. -/
def StepMono (fuel : Nat) : Prop :=
  (∀ curr tokens r, parse_term fuel curr tokens = some r →
    parse_term (fuel + 1) curr tokens = some r) ∧
  (∀ left curr tokens r, parse_multiplication_loop fuel left curr tokens = some r →
    parse_multiplication_loop (fuel + 1) left curr tokens = some r) ∧
  (∀ curr tokens r, parse_multiplication fuel curr tokens = some r →
    parse_multiplication (fuel + 1) curr tokens = some r) ∧
  (∀ left curr tokens r, parse_addition_loop fuel left curr tokens = some r →
    parse_addition_loop (fuel + 1) left curr tokens = some r) ∧
  (∀ curr tokens r, parse_addition fuel curr tokens = some r →
    parse_addition (fuel + 1) curr tokens = some r) ∧
  (∀ curr tokens r, parse_assign fuel curr tokens = some r →
    parse_assign (fuel + 1) curr tokens = some r) ∧
  (∀ left curr tokens r, parse_seq_loop fuel left curr tokens = some r →
    parse_seq_loop (fuel + 1) left curr tokens = some r) ∧
  (∀ curr tokens r, parse_seq fuel curr tokens = some r →
    parse_seq (fuel + 1) curr tokens = some r) ∧
  (∀ curr tokens r, parse_expr fuel curr tokens = some r →
    parse_expr (fuel + 1) curr tokens = some r)

/-- The call `x` returns (the budget was enough), and when it returns an
expression the cursor it leaves satisfies `P`. -/
def Advances (P : Nat → Prop) (x : ParseResult) : Prop :=
  ∃ r, x = some r ∧ ∀ e c, r = .ok (e, c) → P c

/-- With a budget of six units for each token from `curr` on, and one to six more
according to the function, the nine parsing functions return, and the cursor
moves forward (the three loops may leave it where it is). -/
def Total (fuel : Nat) : Prop :=
  (∀ curr tokens, 6 * (tokens.length - curr) + 1 ≤ fuel →
    Advances (fun c => curr < c) (parse_term fuel curr tokens)) ∧
  (∀ left curr tokens, 6 * (tokens.length - curr) + 1 ≤ fuel →
    Advances (fun c => curr ≤ c) (parse_multiplication_loop fuel left curr tokens)) ∧
  (∀ curr tokens, 6 * (tokens.length - curr) + 2 ≤ fuel →
    Advances (fun c => curr < c) (parse_multiplication fuel curr tokens)) ∧
  (∀ left curr tokens, 6 * (tokens.length - curr) + 2 ≤ fuel →
    Advances (fun c => curr ≤ c) (parse_addition_loop fuel left curr tokens)) ∧
  (∀ curr tokens, 6 * (tokens.length - curr) + 3 ≤ fuel →
    Advances (fun c => curr < c) (parse_addition fuel curr tokens)) ∧
  (∀ curr tokens, 6 * (tokens.length - curr) + 4 ≤ fuel →
    Advances (fun c => curr < c) (parse_assign fuel curr tokens)) ∧
  (∀ left curr tokens, 6 * (tokens.length - curr) + 4 ≤ fuel →
    Advances (fun c => curr ≤ c) (parse_seq_loop fuel left curr tokens)) ∧
  (∀ curr tokens, 6 * (tokens.length - curr) + 5 ≤ fuel →
    Advances (fun c => curr < c) (parse_seq fuel curr tokens)) ∧
  (∀ curr tokens, 6 * (tokens.length - curr) + 6 ≤ fuel →
    Advances (fun c => curr < c) (parse_expr fuel curr tokens))

/-- The call `f`, given a large enough budget, returns `r`. -/
def Returns (f : Nat → ParseResult) (r : Except Exception (Expr × Nat)) : Prop :=
  ∃ fuel, f fuel = some r

/-- A result of `f` is kept when the budget grows by one. -/
def Steady (f : Nat → ParseResult) : Prop :=
  ∀ fuel r, f fuel = some r → f (fuel + 1) = some r

/-- The test of `parse_assign`: the token at `curr` is a `Name` and the next one
is `Assign`. -/
def assign_ahead (tokens : List Token) (curr : Nat) : Bool :=
  match tokens[curr]?, tokens[curr + 1]? with
  | some curr_tok, some next_tok =>
    decide (curr_tok.kind = .Name ∧ next_tok.kind = .Assign)
  | _, _ => false

/-- A non-empty string of decimal digits. -/
def is_number_literal (s : String) : Prop := s.toList ≠ [] ∧ ∀ c ∈ s.toList, isdigit c = true

/-- A non-empty string of letters. -/
def is_name (s : String) : Prop := s.toList ≠ [] ∧ ∀ c ∈ s.toList, isalpha c = true

instance (s : String) : Decidable (is_number_literal s) := by
  unfold is_number_literal; exact inferInstance

instance (s : String) : Decidable (is_name s) := by
  unfold is_name; exact inferInstance

/-- The token is one `lex` can produce: a `Number` of digits, a `Name` of letters,
or one of the eight single characters with its own kind. -/
def token_ok (t : Token) : Prop :=
  (t.kind = .Number ∧ is_number_literal t.lexeme) ∨
  (t.kind = .Name ∧ is_name t.lexeme) ∨
  (∃ c, single_token c = some t ∧ t.lexeme.toList = [c])

/-- No two neighbours are both `Number` or both `Name` (written one after the
other they would be read as one token). -/
def separated : List Token → Prop
  | [] => True
  | [_] => True
  | t :: u :: rest =>
    ¬ (t.kind = .Number ∧ u.kind = .Number) ∧ ¬ (t.kind = .Name ∧ u.kind = .Name) ∧
      separated (u :: rest)

/-- The source text of a token sequence: the lexemes one after the other. -/
def source_of (tokens : List Token) : List Char :=
  match tokens with
  | [] => []
  | t :: rest => t.lexeme.toList ++ source_of rest

/-- The character is a decimal digit, alphabetic, white space or one of
`+ - * / ( ) = ;`. -/
def recognized (c : Char) : Bool :=
  isdigit c || isalpha c || isspace c ||
    decide (c ∈ ['+', '-', '*', '/', '(', ')', '=', ';'])

/-- The names that are the target of some `Assignment` node of the tree. -/
def assigned_names : Expr → List String
  | .Num _ => []
  | .Addition left right => assigned_names left ++ assigned_names right
  | .Subtraction left right => assigned_names left ++ assigned_names right
  | .Multiplication left right => assigned_names left ++ assigned_names right
  | .Division left right => assigned_names left ++ assigned_names right
  | .Assignment name val => name :: assigned_names val
  | .Variable _ => []
  | .Seq left right => assigned_names left ++ assigned_names right

/-- The string `source` is lexed into `tokens`, and `parse` throws on them. -/
def lexes_but_fails_to_parse (source : String) (tokens : List Token) : Prop :=
  lex source = .ok tokens ∧ ∃ e, parse tokens = some (.error e)

/-! ## Unfolding of the parser -/

/-- The test `past_end(curr, tokens)` is the read `tokens[curr]?` giving nothing. -/
theorem past_end_iff (curr : Nat) (tokens : List Token) :
    past_end curr tokens = true ↔ tokens[curr]? = none := by
  simp [past_end]

theorem parse_term_succ (fuel curr : Nat) (tokens : List Token) :
    parse_term (fuel + 1) curr tokens =
      match tokens[curr]? with
      | none => some (.error expected_term)
      | some tok =>
        match tok.kind with
        | .Number =>
          match stoi tok.lexeme with
          | .error e => some (.error e)
          | .ok n => some (.ok (.Num n, curr + 1))
        | .LParen =>
          and_then (parse_expr fuel (curr + 1) tokens) fun expr curr1 =>
            match tokens[curr1]? with
            | none => some (.error unclosed_parenthesis)
            | some tok1 =>
              if tok1.kind ≠ .RParen then some (.error unclosed_parenthesis)
              else some (.ok (expr, curr1 + 1))
        | .Name => some (.ok (.Variable tok.lexeme, curr + 1))
        | _ => some (.error expected_term) := rfl

theorem parse_multiplication_loop_succ (fuel : Nat) (left : Expr) (curr : Nat)
    (tokens : List Token) :
    parse_multiplication_loop (fuel + 1) left curr tokens =
      match tokens[curr]? with
      | none => some (.ok (left, curr))
      | some curr_tok =>
        if curr_tok.kind = .Mult ∨ curr_tok.kind = .Div then
          and_then (parse_term fuel (curr + 1) tokens) fun right curr1 =>
            if curr_tok.kind = .Mult then
              parse_multiplication_loop fuel (.Multiplication left right) curr1 tokens
            else
              parse_multiplication_loop fuel (.Division left right) curr1 tokens
        else some (.ok (left, curr)) := rfl

theorem parse_multiplication_succ (fuel curr : Nat) (tokens : List Token) :
    parse_multiplication (fuel + 1) curr tokens =
      and_then (parse_term fuel curr tokens) fun left curr1 =>
        parse_multiplication_loop fuel left curr1 tokens := rfl

theorem parse_addition_loop_succ (fuel : Nat) (left : Expr) (curr : Nat)
    (tokens : List Token) :
    parse_addition_loop (fuel + 1) left curr tokens =
      match tokens[curr]? with
      | none => some (.ok (left, curr))
      | some curr_tok =>
        if curr_tok.kind = .Plus ∨ curr_tok.kind = .Minus then
          and_then (parse_multiplication fuel (curr + 1) tokens) fun right curr1 =>
            if curr_tok.kind = .Plus then
              parse_addition_loop fuel (.Addition left right) curr1 tokens
            else
              parse_addition_loop fuel (.Subtraction left right) curr1 tokens
        else some (.ok (left, curr)) := rfl

theorem parse_addition_succ (fuel curr : Nat) (tokens : List Token) :
    parse_addition (fuel + 1) curr tokens =
      and_then (parse_multiplication fuel curr tokens) fun left curr1 =>
        parse_addition_loop fuel left curr1 tokens := rfl

theorem parse_assign_succ (fuel curr : Nat) (tokens : List Token) :
    parse_assign (fuel + 1) curr tokens =
      match tokens[curr]?, tokens[curr + 1]? with
      | some curr_tok, some next_tok =>
        if curr_tok.kind = .Name ∧ next_tok.kind = .Assign then
          and_then (parse_addition fuel (curr + 2) tokens) fun right curr1 =>
            some (.ok (.Assignment curr_tok.lexeme right, curr1))
        else parse_addition fuel curr tokens
      | _, _ => parse_addition fuel curr tokens := rfl

theorem parse_seq_loop_succ (fuel : Nat) (left : Expr) (curr : Nat)
    (tokens : List Token) :
    parse_seq_loop (fuel + 1) left curr tokens =
      match tokens[curr]? with
      | none => some (.ok (left, curr))
      | some curr_tok =>
        if curr_tok.kind = .Semicolon then
          and_then (parse_assign fuel (curr + 1) tokens) fun right curr1 =>
            parse_seq_loop fuel (.Seq left right) curr1 tokens
        else some (.ok (left, curr)) := rfl

theorem parse_seq_succ (fuel curr : Nat) (tokens : List Token) :
    parse_seq (fuel + 1) curr tokens =
      and_then (parse_assign fuel curr tokens) fun left curr1 =>
        parse_seq_loop fuel left curr1 tokens := rfl

theorem parse_expr_succ (fuel curr : Nat) (tokens : List Token) :
    parse_expr (fuel + 1) curr tokens = parse_seq fuel curr tokens := rfl

/-! ## The budget only matters when it is too small -/

theorem and_then_mono {x x1 : ParseResult} {k k1 : Expr → Nat → ParseResult}
    {r : Except Exception (Expr × Nat)}
    (hx : ∀ v, x = some v → x1 = some v)
    (hk : ∀ a c, k a c = some r → k1 a c = some r)
    (h : and_then x k = some r) : and_then x1 k1 = some r := by
  cases x with
  | none => simp [and_then] at h
  | some v =>
    rw [hx v rfl]
    cases v with
    | error e => simpa [and_then] using h
    | ok p =>
      obtain ⟨a, c⟩ := p
      exact hk a c (by simpa [and_then] using h)

theorem step_mono : ∀ fuel, StepMono fuel := by
  intro fuel
  induction fuel with
  | zero =>
    refine ⟨?_, ?_, ?_, ?_, ?_, ?_, ?_, ?_, ?_⟩ <;> intros <;> rename_i h <;> cases h
  | succ fuel ih =>
    obtain ⟨iT, iML, iM, iAL, iA, iAs, iSL, iS, iE⟩ := ih
    refine ⟨?_, ?_, ?_, ?_, ?_, ?_, ?_, ?_, ?_⟩
    · intro curr tokens r h
      rw [parse_term_succ] at h ⊢
      cases ht : tokens[curr]? with
      | none => simpa only [ht] using h
      | some tok =>
        simp only [ht] at h ⊢
        cases hk : tok.kind <;> simp only [hk] at h ⊢ <;> first
          | exact h
          | exact and_then_mono (fun v hv => iE _ _ _ hv) (fun _ _ hh => hh) h
    · intro left curr tokens r h
      rw [parse_multiplication_loop_succ] at h ⊢
      cases ht : tokens[curr]? with
      | none => simpa only [ht] using h
      | some tok =>
        simp only [ht] at h ⊢
        split at h
        · rename_i hc
          rw [if_pos hc]
          refine and_then_mono (fun v hv => iT _ _ _ hv) (fun a c hh => ?_) h
          split at hh
          · rename_i hm; rw [if_pos hm]; exact iML _ _ _ _ hh
          · rename_i hm; rw [if_neg hm]; exact iML _ _ _ _ hh
        · rename_i hc
          rw [if_neg hc]; exact h
    · intro curr tokens r h
      rw [parse_multiplication_succ] at h ⊢
      exact and_then_mono (fun v hv => iT _ _ _ hv) (fun a c hh => iML _ _ _ _ hh) h
    · intro left curr tokens r h
      rw [parse_addition_loop_succ] at h ⊢
      cases ht : tokens[curr]? with
      | none => simpa only [ht] using h
      | some tok =>
        simp only [ht] at h ⊢
        split at h
        · rename_i hc
          rw [if_pos hc]
          refine and_then_mono (fun v hv => iM _ _ _ hv) (fun a c hh => ?_) h
          split at hh
          · rename_i hm; rw [if_pos hm]; exact iAL _ _ _ _ hh
          · rename_i hm; rw [if_neg hm]; exact iAL _ _ _ _ hh
        · rename_i hc
          rw [if_neg hc]; exact h
    · intro curr tokens r h
      rw [parse_addition_succ] at h ⊢
      exact and_then_mono (fun v hv => iM _ _ _ hv) (fun a c hh => iAL _ _ _ _ hh) h
    · intro curr tokens r h
      rw [parse_assign_succ] at h ⊢
      split at h
      · split at h
        · rename_i hc
          rw [if_pos hc]
          exact and_then_mono (fun v hv => iA _ _ _ hv) (fun a c hh => hh) h
        · rename_i hc
          rw [if_neg hc]; exact iA _ _ _ h
      · exact iA _ _ _ h
    · intro left curr tokens r h
      rw [parse_seq_loop_succ] at h ⊢
      cases ht : tokens[curr]? with
      | none => simpa only [ht] using h
      | some tok =>
        simp only [ht] at h ⊢
        split at h
        · rename_i hc
          rw [if_pos hc]
          exact and_then_mono (fun v hv => iAs _ _ _ hv) (fun a c hh => iSL _ _ _ _ hh) h
        · rename_i hc
          rw [if_neg hc]; exact h
    · intro curr tokens r h
      rw [parse_seq_succ] at h ⊢
      exact and_then_mono (fun v hv => iAs _ _ _ hv) (fun a c hh => iSL _ _ _ _ hh) h
    · intro curr tokens r h
      rw [parse_expr_succ] at h ⊢
      exact iS _ _ _ h

theorem advances_error (P : Nat → Prop) (e : Exception) : Advances P (some (.error e)) :=
  ⟨_, rfl, fun _ _ h => by cases h⟩

theorem advances_ok {P : Nat → Prop} (e : Expr) {c : Nat} (h : P c) :
    Advances P (some (.ok (e, c))) :=
  ⟨_, rfl, fun _ _ h1 => by cases h1; exact h⟩

theorem and_then_advances {x : ParseResult} {k : Expr → Nat → ParseResult}
    {P Q : Nat → Prop} (hx : Advances Q x) (hk : ∀ a c, Q c → Advances P (k a c)) :
    Advances P (and_then x k) := by
  obtain ⟨r, rfl, hr⟩ := hx
  cases r with
  | error e => exact advances_error P e
  | ok p =>
    obtain ⟨a, c⟩ := p
    exact hk a c (hr a c rfl)

theorem lt_length_of_getElem? {tokens : List Token} {curr : Nat} {tok : Token}
    (h : tokens[curr]? = some tok) : curr < tokens.length := by
  rcases Nat.lt_or_ge curr tokens.length with hlt | hge
  · exact hlt
  · rw [List.getElem?_eq_none hge] at h; cases h

theorem total : ∀ fuel, Total fuel := by
  intro fuel
  induction fuel with
  | zero =>
    refine ⟨?_, ?_, ?_, ?_, ?_, ?_, ?_, ?_, ?_⟩ <;> intros <;> omega
  | succ fuel ih =>
    obtain ⟨iT, iML, iM, iAL, iA, iAs, iSL, iS, iE⟩ := ih
    refine ⟨?_, ?_, ?_, ?_, ?_, ?_, ?_, ?_, ?_⟩
    · intro curr tokens hf
      rw [parse_term_succ]
      cases ht : tokens[curr]? with
      | none => exact advances_error _ _
      | some tok =>
        have hlt := lt_length_of_getElem? ht
        simp only []
        cases hk : tok.kind <;> simp only [] <;> try exact advances_error _ _
        · cases stoi tok.lexeme with
          | error e => exact advances_error _ _
          | ok n => exact advances_ok _ (Nat.lt_succ_self _)
        · refine and_then_advances (iE (curr + 1) tokens (by omega)) (fun a c hc => ?_)
          cases tokens[c]? with
          | none => exact advances_error _ _
          | some tok1 =>
            simp only []
            split
            · exact advances_error _ _
            · exact advances_ok _ (by omega)
        · exact advances_ok _ (Nat.lt_succ_self _)
    · intro left curr tokens hf
      rw [parse_multiplication_loop_succ]
      cases ht : tokens[curr]? with
      | none => exact advances_ok _ (Nat.le_refl _)
      | some tok =>
        have hlt := lt_length_of_getElem? ht
        simp only []
        split
        · refine and_then_advances (iT (curr + 1) tokens (by omega)) (fun a c hc => ?_)
          have hl := fun l => iML l c tokens (by omega)
          split
          · obtain ⟨r, hr, hp⟩ := hl (.Multiplication left a)
            exact ⟨r, hr, fun e c1 h1 => by have := hp e c1 h1; omega⟩
          · obtain ⟨r, hr, hp⟩ := hl (.Division left a)
            exact ⟨r, hr, fun e c1 h1 => by have := hp e c1 h1; omega⟩
        · exact advances_ok _ (Nat.le_refl _)
    · intro curr tokens hf
      rw [parse_multiplication_succ]
      refine and_then_advances (iT curr tokens (by omega)) (fun a c hc => ?_)
      obtain ⟨r, hr, hp⟩ := iML a c tokens (by omega)
      exact ⟨r, hr, fun e c1 h1 => by have := hp e c1 h1; omega⟩
    · intro left curr tokens hf
      rw [parse_addition_loop_succ]
      cases ht : tokens[curr]? with
      | none => exact advances_ok _ (Nat.le_refl _)
      | some tok =>
        have hlt := lt_length_of_getElem? ht
        simp only []
        split
        · refine and_then_advances (iM (curr + 1) tokens (by omega)) (fun a c hc => ?_)
          have hl := fun l => iAL l c tokens (by omega)
          split
          · obtain ⟨r, hr, hp⟩ := hl (.Addition left a)
            exact ⟨r, hr, fun e c1 h1 => by have := hp e c1 h1; omega⟩
          · obtain ⟨r, hr, hp⟩ := hl (.Subtraction left a)
            exact ⟨r, hr, fun e c1 h1 => by have := hp e c1 h1; omega⟩
        · exact advances_ok _ (Nat.le_refl _)
    · intro curr tokens hf
      rw [parse_addition_succ]
      refine and_then_advances (iM curr tokens (by omega)) (fun a c hc => ?_)
      obtain ⟨r, hr, hp⟩ := iAL a c tokens (by omega)
      exact ⟨r, hr, fun e c1 h1 => by have := hp e c1 h1; omega⟩
    · intro curr tokens hf
      rw [parse_assign_succ]
      split
      · split
        · refine and_then_advances (iA (curr + 2) tokens (by omega)) (fun a c hc => ?_)
          exact advances_ok _ (by omega)
        · exact iA curr tokens (by omega)
      · exact iA curr tokens (by omega)
    · intro left curr tokens hf
      rw [parse_seq_loop_succ]
      cases ht : tokens[curr]? with
      | none => exact advances_ok _ (Nat.le_refl _)
      | some tok =>
        have hlt := lt_length_of_getElem? ht
        simp only []
        split
        · refine and_then_advances (iAs (curr + 1) tokens (by omega)) (fun a c hc => ?_)
          obtain ⟨r, hr, hp⟩ := iSL (.Seq left a) c tokens (by omega)
          exact ⟨r, hr, fun e c1 h1 => by have := hp e c1 h1; omega⟩
        · exact advances_ok _ (Nat.le_refl _)
    · intro curr tokens hf
      rw [parse_seq_succ]
      refine and_then_advances (iAs curr tokens (by omega)) (fun a c hc => ?_)
      obtain ⟨r, hr, hp⟩ := iSL a c tokens (by omega)
      exact ⟨r, hr, fun e c1 h1 => by have := hp e c1 h1; omega⟩
    · intro curr tokens hf
      rw [parse_expr_succ]
      exact iS curr tokens (by omega)

/-! ## Results of the parser, without the budget -/

theorem steady_le {f : Nat → ParseResult} (hf : Steady f) {n m : Nat} (hle : n ≤ m)
    {r : Except Exception (Expr × Nat)} (h : f n = some r) : f m = some r := by
  induction hle with
  | refl => exact h
  | step _ ih => exact hf _ _ ih

theorem returns_unique {f : Nat → ParseResult} (hf : Steady f)
    {r1 r2 : Except Exception (Expr × Nat)} (h1 : Returns f r1) (h2 : Returns f r2) :
    r1 = r2 := by
  obtain ⟨n1, h1⟩ := h1
  obtain ⟨n2, h2⟩ := h2
  have e1 := steady_le hf (Nat.le_max_left n1 n2) h1
  have e2 := steady_le hf (Nat.le_max_right n1 n2) h2
  rw [e1] at e2
  exact Option.some.inj e2

theorem returns_both {f g : Nat → ParseResult} (hf : Steady f) (hg : Steady g)
    {r1 r2 : Except Exception (Expr × Nat)} (h1 : Returns f r1) (h2 : Returns g r2) :
    ∃ fuel, f fuel = some r1 ∧ g fuel = some r2 := by
  obtain ⟨n1, h1⟩ := h1
  obtain ⟨n2, h2⟩ := h2
  exact ⟨max n1 n2, steady_le hf (Nat.le_max_left n1 n2) h1,
    steady_le hg (Nat.le_max_right n1 n2) h2⟩

theorem steady_term (curr : Nat) (tokens : List Token) :
    Steady (fun fuel => parse_term fuel curr tokens) :=
  fun fuel r h => (step_mono fuel).1 curr tokens r h

theorem steady_multiplication_loop (left : Expr) (curr : Nat) (tokens : List Token) :
    Steady (fun fuel => parse_multiplication_loop fuel left curr tokens) :=
  fun fuel r h => (step_mono fuel).2.1 left curr tokens r h

theorem steady_multiplication (curr : Nat) (tokens : List Token) :
    Steady (fun fuel => parse_multiplication fuel curr tokens) :=
  fun fuel r h => (step_mono fuel).2.2.1 curr tokens r h

theorem steady_addition_loop (left : Expr) (curr : Nat) (tokens : List Token) :
    Steady (fun fuel => parse_addition_loop fuel left curr tokens) :=
  fun fuel r h => (step_mono fuel).2.2.2.1 left curr tokens r h

theorem steady_addition (curr : Nat) (tokens : List Token) :
    Steady (fun fuel => parse_addition fuel curr tokens) :=
  fun fuel r h => (step_mono fuel).2.2.2.2.1 curr tokens r h

theorem steady_assign (curr : Nat) (tokens : List Token) :
    Steady (fun fuel => parse_assign fuel curr tokens) :=
  fun fuel r h => (step_mono fuel).2.2.2.2.2.1 curr tokens r h

theorem steady_seq_loop (left : Expr) (curr : Nat) (tokens : List Token) :
    Steady (fun fuel => parse_seq_loop fuel left curr tokens) :=
  fun fuel r h => (step_mono fuel).2.2.2.2.2.2.1 left curr tokens r h

theorem steady_seq (curr : Nat) (tokens : List Token) :
    Steady (fun fuel => parse_seq fuel curr tokens) :=
  fun fuel r h => (step_mono fuel).2.2.2.2.2.2.2.1 curr tokens r h

theorem steady_expr (curr : Nat) (tokens : List Token) :
    Steady (fun fuel => parse_expr fuel curr tokens) :=
  fun fuel r h => (step_mono fuel).2.2.2.2.2.2.2.2 curr tokens r h

/-- The budget of `parse` is enough: `parse_expr` returns from every position. -/
theorem parse_expr_returns (curr : Nat) (tokens : List Token) :
    ∃ r, parse_expr (6 * (tokens.length - curr) + 6) curr tokens = some r := by
  obtain ⟨r, hr, _⟩ := (total _).2.2.2.2.2.2.2.2 curr tokens (Nat.le_refl _)
  exact ⟨r, hr⟩

/-- `parse` never exhausts its budget: it returns an expression or throws. -/
theorem parse_total (tokens : List Token) : ∃ r, parse tokens = some r := by
  obtain ⟨r, hr⟩ := parse_expr_returns 0 tokens
  have hr1 : parse_expr (parse_fuel tokens) 0 tokens = some r := hr
  unfold parse
  rw [hr1]
  cases r with
  | error e => exact ⟨_, rfl⟩
  | ok p => exact ⟨_, rfl⟩

theorem parse_of_returns {tokens : List Token} {r : Except Exception (Expr × Nat)}
    (h : Returns (fun fuel => parse_expr fuel 0 tokens) r) :
    parse_expr (parse_fuel tokens) 0 tokens = some r := by
  obtain ⟨r1, hr1⟩ := parse_expr_returns 0 tokens
  have hr2 : parse_expr (parse_fuel tokens) 0 tokens = some r1 := hr1
  have := returns_unique (steady_expr 0 tokens) h ⟨_, hr2⟩
  rw [this]; exact hr2

theorem parse_ok_of_returns {tokens : List Token} {expr : Expr} {curr : Nat}
    (h : Returns (fun fuel => parse_expr fuel 0 tokens) (.ok (expr, curr))) :
    parse tokens = some (.ok expr) := by
  unfold parse
  rw [parse_of_returns h]

theorem parse_error_of_returns {tokens : List Token} {e : Exception}
    (h : Returns (fun fuel => parse_expr fuel 0 tokens) (.error e)) :
    parse tokens = some (.error e) := by
  unfold parse
  rw [parse_of_returns h]

/-! ### Rules for expressions that parse -/

theorem term_number {tokens : List Token} {curr : Nat} {tok : Token} {n : Int}
    (ht : tokens[curr]? = some tok) (hk : tok.kind = .Number)
    (hs : stoi tok.lexeme = .ok n) :
    Returns (fun fuel => parse_term fuel curr tokens) (.ok (.Num n, curr + 1)) :=
  ⟨1, by beta_reduce; rw [parse_term_succ]; simp only [ht, hk, hs]⟩

theorem term_number_error {tokens : List Token} {curr : Nat} {tok : Token}
    {e : Exception} (ht : tokens[curr]? = some tok) (hk : tok.kind = .Number)
    (hs : stoi tok.lexeme = .error e) :
    Returns (fun fuel => parse_term fuel curr tokens) (.error e) :=
  ⟨1, by beta_reduce; rw [parse_term_succ]; simp only [ht, hk, hs]⟩

theorem term_name {tokens : List Token} {curr : Nat} {tok : Token}
    (ht : tokens[curr]? = some tok) (hk : tok.kind = .Name) :
    Returns (fun fuel => parse_term fuel curr tokens)
      (.ok (.Variable tok.lexeme, curr + 1)) :=
  ⟨1, by beta_reduce; rw [parse_term_succ]; simp only [ht, hk]⟩

theorem term_paren {tokens : List Token} {curr curr1 : Nat} {tok tok1 : Token}
    {expr : Expr} (ht : tokens[curr]? = some tok) (hk : tok.kind = .LParen)
    (he : Returns (fun fuel => parse_expr fuel (curr + 1) tokens) (.ok (expr, curr1)))
    (ht1 : tokens[curr1]? = some tok1) (hk1 : tok1.kind = .RParen) :
    Returns (fun fuel => parse_term fuel curr tokens) (.ok (expr, curr1 + 1)) := by
  obtain ⟨fuel, he⟩ := he
  beta_reduce at he
  exact ⟨fuel + 1, by
    beta_reduce; rw [parse_term_succ]; simp [ht, hk, he, and_then, ht1, hk1]⟩

theorem multiplication_loop_end {tokens : List Token} {curr : Nat} (left : Expr)
    (ht : tokens[curr]? = none) :
    Returns (fun fuel => parse_multiplication_loop fuel left curr tokens)
      (.ok (left, curr)) :=
  ⟨1, by beta_reduce; rw [parse_multiplication_loop_succ]; simp only [ht]⟩

theorem multiplication_loop_other {tokens : List Token} {curr : Nat} {tok : Token}
    (left : Expr) (ht : tokens[curr]? = some tok)
    (hk : decide (tok.kind = .Mult ∨ tok.kind = .Div) = false) :
    Returns (fun fuel => parse_multiplication_loop fuel left curr tokens)
      (.ok (left, curr)) :=
  ⟨1, by
    beta_reduce; rw [parse_multiplication_loop_succ]
    simp only [ht, if_neg (of_decide_eq_false hk)]⟩

theorem multiplication_loop_mult {tokens : List Token} {curr curr1 : Nat} {tok : Token}
    {left right : Expr} {r : Except Exception (Expr × Nat)}
    (ht : tokens[curr]? = some tok) (hk : tok.kind = .Mult)
    (hr : Returns (fun fuel => parse_term fuel (curr + 1) tokens) (.ok (right, curr1)))
    (hl : Returns (fun fuel => parse_multiplication_loop fuel
      (.Multiplication left right) curr1 tokens) r) :
    Returns (fun fuel => parse_multiplication_loop fuel left curr tokens) r := by
  obtain ⟨fuel, h1, h2⟩ := returns_both (steady_term _ _)
    (steady_multiplication_loop _ _ _) hr hl
  exact ⟨fuel + 1, by
    beta_reduce; rw [parse_multiplication_loop_succ]
    simp [ht, hk, and_then, h1, h2]⟩

theorem multiplication_loop_div {tokens : List Token} {curr curr1 : Nat} {tok : Token}
    {left right : Expr} {r : Except Exception (Expr × Nat)}
    (ht : tokens[curr]? = some tok) (hk : tok.kind = .Div)
    (hr : Returns (fun fuel => parse_term fuel (curr + 1) tokens) (.ok (right, curr1)))
    (hl : Returns (fun fuel => parse_multiplication_loop fuel
      (.Division left right) curr1 tokens) r) :
    Returns (fun fuel => parse_multiplication_loop fuel left curr tokens) r := by
  obtain ⟨fuel, h1, h2⟩ := returns_both (steady_term _ _)
    (steady_multiplication_loop _ _ _) hr hl
  exact ⟨fuel + 1, by
    beta_reduce; rw [parse_multiplication_loop_succ]
    simp [ht, hk, and_then, h1, h2]⟩

theorem multiplication_of {tokens : List Token} {curr curr1 : Nat} {left : Expr}
    {r : Except Exception (Expr × Nat)}
    (hl : Returns (fun fuel => parse_term fuel curr tokens) (.ok (left, curr1)))
    (hr : Returns (fun fuel => parse_multiplication_loop fuel left curr1 tokens) r) :
    Returns (fun fuel => parse_multiplication fuel curr tokens) r := by
  obtain ⟨fuel, h1, h2⟩ := returns_both (steady_term _ _)
    (steady_multiplication_loop _ _ _) hl hr
  exact ⟨fuel + 1, by
    beta_reduce; rw [parse_multiplication_succ]; simp [and_then, h1, h2]⟩

theorem multiplication_error {tokens : List Token} {curr : Nat} {e : Exception}
    (hl : Returns (fun fuel => parse_term fuel curr tokens) (.error e)) :
    Returns (fun fuel => parse_multiplication fuel curr tokens) (.error e) := by
  obtain ⟨fuel, h1⟩ := hl
  beta_reduce at h1
  exact ⟨fuel + 1, by
    beta_reduce; rw [parse_multiplication_succ]; simp [and_then, h1]⟩

theorem addition_loop_end {tokens : List Token} {curr : Nat} (left : Expr)
    (ht : tokens[curr]? = none) :
    Returns (fun fuel => parse_addition_loop fuel left curr tokens)
      (.ok (left, curr)) :=
  ⟨1, by beta_reduce; rw [parse_addition_loop_succ]; simp only [ht]⟩

theorem addition_loop_other {tokens : List Token} {curr : Nat} {tok : Token}
    (left : Expr) (ht : tokens[curr]? = some tok)
    (hk : decide (tok.kind = .Plus ∨ tok.kind = .Minus) = false) :
    Returns (fun fuel => parse_addition_loop fuel left curr tokens)
      (.ok (left, curr)) :=
  ⟨1, by
    beta_reduce; rw [parse_addition_loop_succ]
    simp only [ht, if_neg (of_decide_eq_false hk)]⟩

theorem addition_loop_plus {tokens : List Token} {curr curr1 : Nat} {tok : Token}
    {left right : Expr} {r : Except Exception (Expr × Nat)}
    (ht : tokens[curr]? = some tok) (hk : tok.kind = .Plus)
    (hr : Returns (fun fuel => parse_multiplication fuel (curr + 1) tokens)
      (.ok (right, curr1)))
    (hl : Returns (fun fuel => parse_addition_loop fuel
      (.Addition left right) curr1 tokens) r) :
    Returns (fun fuel => parse_addition_loop fuel left curr tokens) r := by
  obtain ⟨fuel, h1, h2⟩ := returns_both (steady_multiplication _ _)
    (steady_addition_loop _ _ _) hr hl
  exact ⟨fuel + 1, by
    beta_reduce; rw [parse_addition_loop_succ]
    simp [ht, hk, and_then, h1, h2]⟩

theorem addition_loop_minus {tokens : List Token} {curr curr1 : Nat} {tok : Token}
    {left right : Expr} {r : Except Exception (Expr × Nat)}
    (ht : tokens[curr]? = some tok) (hk : tok.kind = .Minus)
    (hr : Returns (fun fuel => parse_multiplication fuel (curr + 1) tokens)
      (.ok (right, curr1)))
    (hl : Returns (fun fuel => parse_addition_loop fuel
      (.Subtraction left right) curr1 tokens) r) :
    Returns (fun fuel => parse_addition_loop fuel left curr tokens) r := by
  obtain ⟨fuel, h1, h2⟩ := returns_both (steady_multiplication _ _)
    (steady_addition_loop _ _ _) hr hl
  exact ⟨fuel + 1, by
    beta_reduce; rw [parse_addition_loop_succ]
    simp [ht, hk, and_then, h1, h2]⟩

theorem addition_of {tokens : List Token} {curr curr1 : Nat} {left : Expr}
    {r : Except Exception (Expr × Nat)}
    (hl : Returns (fun fuel => parse_multiplication fuel curr tokens) (.ok (left, curr1)))
    (hr : Returns (fun fuel => parse_addition_loop fuel left curr1 tokens) r) :
    Returns (fun fuel => parse_addition fuel curr tokens) r := by
  obtain ⟨fuel, h1, h2⟩ := returns_both (steady_multiplication _ _)
    (steady_addition_loop _ _ _) hl hr
  exact ⟨fuel + 1, by
    beta_reduce; rw [parse_addition_succ]; simp [and_then, h1, h2]⟩

theorem addition_error {tokens : List Token} {curr : Nat} {e : Exception}
    (hl : Returns (fun fuel => parse_multiplication fuel curr tokens) (.error e)) :
    Returns (fun fuel => parse_addition fuel curr tokens) (.error e) := by
  obtain ⟨fuel, h1⟩ := hl
  beta_reduce at h1
  exact ⟨fuel + 1, by
    beta_reduce; rw [parse_addition_succ]; simp [and_then, h1]⟩

theorem assign_name {tokens : List Token} {curr curr1 : Nat} {tok tok1 : Token}
    {right : Expr} (ht : tokens[curr]? = some tok) (ht1 : tokens[curr + 1]? = some tok1)
    (hk : tok.kind = .Name) (hk1 : tok1.kind = .Assign)
    (hr : Returns (fun fuel => parse_addition fuel (curr + 2) tokens) (.ok (right, curr1))) :
    Returns (fun fuel => parse_assign fuel curr tokens)
      (.ok (.Assignment tok.lexeme right, curr1)) := by
  obtain ⟨fuel, h1⟩ := hr
  beta_reduce at h1
  exact ⟨fuel + 1, by
    beta_reduce; rw [parse_assign_succ]; simp [ht, ht1, hk, hk1, and_then, h1]⟩

theorem assign_other {tokens : List Token} {curr : Nat}
    {r : Except Exception (Expr × Nat)} (hno : assign_ahead tokens curr = false)
    (hr : Returns (fun fuel => parse_addition fuel curr tokens) r) :
    Returns (fun fuel => parse_assign fuel curr tokens) r := by
  obtain ⟨fuel, h1⟩ := hr
  beta_reduce at h1
  refine ⟨fuel + 1, ?_⟩
  beta_reduce
  rw [parse_assign_succ]
  unfold assign_ahead at hno
  split
  · rename_i t0 t1 h0 h1
    simp only [h0, h1, decide_eq_false_iff_not] at hno
    rw [if_neg hno]; assumption
  · exact h1

theorem seq_loop_end {tokens : List Token} {curr : Nat} (left : Expr)
    (ht : tokens[curr]? = none) :
    Returns (fun fuel => parse_seq_loop fuel left curr tokens) (.ok (left, curr)) :=
  ⟨1, by beta_reduce; rw [parse_seq_loop_succ]; simp only [ht]⟩

theorem seq_loop_other {tokens : List Token} {curr : Nat} {tok : Token}
    (left : Expr) (ht : tokens[curr]? = some tok)
    (hk : decide (tok.kind = .Semicolon) = false) :
    Returns (fun fuel => parse_seq_loop fuel left curr tokens) (.ok (left, curr)) :=
  ⟨1, by
    beta_reduce; rw [parse_seq_loop_succ]
    simp only [ht, if_neg (of_decide_eq_false hk)]⟩

theorem seq_loop_semicolon {tokens : List Token} {curr curr1 : Nat} {tok : Token}
    {left right : Expr} {r : Except Exception (Expr × Nat)}
    (ht : tokens[curr]? = some tok) (hk : tok.kind = .Semicolon)
    (hr : Returns (fun fuel => parse_assign fuel (curr + 1) tokens) (.ok (right, curr1)))
    (hl : Returns (fun fuel => parse_seq_loop fuel (.Seq left right) curr1 tokens) r) :
    Returns (fun fuel => parse_seq_loop fuel left curr tokens) r := by
  obtain ⟨fuel, h1, h2⟩ := returns_both (steady_assign _ _) (steady_seq_loop _ _ _) hr hl
  exact ⟨fuel + 1, by
    beta_reduce; rw [parse_seq_loop_succ]; simp [ht, hk, and_then, h1, h2]⟩

theorem seq_of {tokens : List Token} {curr curr1 : Nat} {left : Expr}
    {r : Except Exception (Expr × Nat)}
    (hl : Returns (fun fuel => parse_assign fuel curr tokens) (.ok (left, curr1)))
    (hr : Returns (fun fuel => parse_seq_loop fuel left curr1 tokens) r) :
    Returns (fun fuel => parse_seq fuel curr tokens) r := by
  obtain ⟨fuel, h1, h2⟩ := returns_both (steady_assign _ _) (steady_seq_loop _ _ _) hl hr
  exact ⟨fuel + 1, by beta_reduce; rw [parse_seq_succ]; simp [and_then, h1, h2]⟩

theorem seq_error {tokens : List Token} {curr : Nat} {e : Exception}
    (hl : Returns (fun fuel => parse_assign fuel curr tokens) (.error e)) :
    Returns (fun fuel => parse_seq fuel curr tokens) (.error e) := by
  obtain ⟨fuel, h1⟩ := hl
  beta_reduce at h1
  exact ⟨fuel + 1, by beta_reduce; rw [parse_seq_succ]; simp [and_then, h1]⟩

theorem expr_of {tokens : List Token} {curr : Nat} {r : Except Exception (Expr × Nat)}
    (h : Returns (fun fuel => parse_seq fuel curr tokens) r) :
    Returns (fun fuel => parse_expr fuel curr tokens) r := by
  obtain ⟨fuel, h1⟩ := h
  exact ⟨fuel + 1, h1⟩

/-! ## Facts about the lexer -/

theorem lex_run_length (p : Char → Bool) (cs : List Char) (acc : String) :
    (lex_run p cs acc).2.length ≤ cs.length := by
  induction cs generalizing acc with
  | nil => simp [lex_run]
  | cons c cs ih =>
    simp only [lex_run]
    split
    · exact Nat.le_succ_of_le (ih _)
    · exact Nat.le_refl _

theorem lex_run_length_lt (p : Char → Bool) (c : Char) (cs : List Char) (acc : String)
    (h : p c = true) : (lex_run p (c :: cs) acc).2.length < (c :: cs).length := by
  simp only [lex_run, h, if_true, List.length_cons]
  exact Nat.lt_succ_of_le (lex_run_length _ _ _)

theorem lex_run_eq (p : Char → Bool) (cs : List Char) (acc : String) :
    lex_run p cs acc = (⟨acc.data ++ cs.takeWhile p⟩, cs.dropWhile p) := by
  induction cs generalizing acc with
  | nil => simp [lex_run]
  | cons c cs ih =>
    by_cases hc : p c = true
    · simp [lex_run, hc, ih, String.push, List.takeWhile, List.dropWhile]
    · simp [lex_run, hc, List.takeWhile, List.dropWhile]

theorem span_run (p : Char → Bool) (run rest : List Char)
    (hrun : ∀ c ∈ run, p c = true) (hrest : ∀ c, rest.head? = some c → p c = false) :
    (run ++ rest).takeWhile p = run ∧ (run ++ rest).dropWhile p = rest := by
  induction run with
  | nil =>
    cases rest with
    | nil => exact ⟨rfl, rfl⟩
    | cons c cs =>
      have := hrest c rfl
      simp [List.takeWhile, List.dropWhile, this]
  | cons d ds ih =>
    have hd := hrun d (List.mem_cons_self _ _)
    have := ih (fun c hc => hrun c (List.mem_cons_of_mem _ hc))
    simp [List.takeWhile, List.dropWhile, hd, this.1, this.2]

/-- The characters of `run` satisfy `p` and `rest` does not start with one that does:
the inner loop of `lex` started on `run ++ rest` stops exactly at `rest`. -/
theorem lex_run_append (p : Char → Bool) (run rest : List Char)
    (hrun : ∀ c ∈ run, p c = true) (hrest : ∀ c, rest.head? = some c → p c = false) :
    lex_run p (run ++ rest) "" = (⟨run⟩, rest) := by
  rw [lex_run_eq, (span_run p run rest hrun hrest).1, (span_run p run rest hrun hrest).2]
  rfl

theorem isalpha_not_isdigit {c : Char} (h : isalpha c = true) : isdigit c = false := by
  simp only [isalpha, isdigit, decide_eq_true_eq, decide_eq_false_iff_not] at *
  omega

theorem isspace_not_isdigit {c : Char} (h : isspace c = true) : isdigit c = false := by
  simp only [isspace, isdigit, decide_eq_true_eq, decide_eq_false_iff_not] at *
  omega

theorem isspace_not_isalpha {c : Char} (h : isspace c = true) : isalpha c = false := by
  simp only [isspace, isalpha, decide_eq_true_eq, decide_eq_false_iff_not] at *
  omega

/-- The characters of the `switch` of `lex` are in none of the three classes. -/
theorem single_token_classes {c : Char} {tok : Token} (h : single_token c = some tok) :
    isdigit c = false ∧ isalpha c = false ∧ isspace c = false := by
  unfold single_token at h
  split_ifs at h <;> subst_vars <;> decide

theorem lex_loop_nil (tokens : List Token) : lex_loop [] tokens = .ok tokens := by
  rw [lex_loop]

/-- A maximal run of digits becomes one `Number` token. -/
theorem lex_loop_number (run rest : List Char) (tokens : List Token)
    (hne : run ≠ []) (hrun : ∀ c ∈ run, isdigit c = true)
    (hrest : ∀ c, rest.head? = some c → isdigit c = false) :
    lex_loop (run ++ rest) tokens = lex_loop rest (tokens ++ [⟨.Number, ⟨run⟩⟩]) := by
  cases run with
  | nil => exact absurd rfl hne
  | cons d ds =>
    have hd := hrun d (List.mem_cons_self _ _)
    have hr := lex_run_append isdigit (d :: ds) rest hrun hrest
    rw [List.cons_append] at hr ⊢
    rw [lex_loop]
    simp only [hd, dite_true, hr]

/-- A maximal run of letters becomes one `Name` token. -/
theorem lex_loop_name (run rest : List Char) (tokens : List Token)
    (hne : run ≠ []) (hrun : ∀ c ∈ run, isalpha c = true)
    (hrest : ∀ c, rest.head? = some c → isalpha c = false) :
    lex_loop (run ++ rest) tokens = lex_loop rest (tokens ++ [⟨.Name, ⟨run⟩⟩]) := by
  cases run with
  | nil => exact absurd rfl hne
  | cons d ds =>
    have hd := hrun d (List.mem_cons_self _ _)
    have hnd := isalpha_not_isdigit hd
    have hr := lex_run_append isalpha (d :: ds) rest hrun hrest
    rw [List.cons_append] at hr ⊢
    rw [lex_loop]
    simp [hd, hnd, hr]

/-- White space produces no token. -/
theorem lex_loop_space (c : Char) (rest : List Char) (tokens : List Token)
    (hc : isspace c = true) : lex_loop (c :: rest) tokens = lex_loop rest tokens := by
  rw [lex_loop]
  simp [hc, isspace_not_isdigit hc, isspace_not_isalpha hc]

/-- Each character of the `switch` becomes its token. -/
theorem lex_loop_single (c : Char) (rest : List Char) (tokens : List Token) (tok : Token)
    (hc : single_token c = some tok) :
    lex_loop (c :: rest) tokens = lex_loop rest (tokens ++ [tok]) := by
  obtain ⟨h1, h2, h3⟩ := single_token_classes hc
  rw [lex_loop]
  simp [h1, h2, h3, hc]

/-- Any other character aborts `lex`. -/
theorem lex_loop_unknown (c : Char) (rest : List Char) (tokens : List Token)
    (h1 : isdigit c = false) (h2 : isalpha c = false) (h3 : isspace c = false)
    (hc : single_token c = none) :
    lex_loop (c :: rest) tokens = .error (unknown_character c) := by
  rw [lex_loop]
  simp [h1, h2, h3, hc]

/-! ## Number literals -/

theorem decimal_value_append (ds : List Char) (d : Char) :
    decimal_value (ds ++ [d]) = 10 * decimal_value ds + (d.toNat - 48) := by
  simp [decimal_value, List.foldl_append]

/-- On a non-empty sequence of digits `std::stoi` gives the number they denote,
or `std::out_of_range` when it exceeds `INT_MAX`. -/
theorem stoi_digits (ds : List Char) (hne : ds ≠ []) (hds : ∀ c ∈ ds, isdigit c = true) :
    stoi ⟨ds⟩ = if (decimal_value ds : Int) ≤ INT_MAX then .ok (decimal_value ds : Int)
      else .error .out_of_range := by
  cases ds with
  | nil => exact absurd rfl hne
  | cons d tl =>
    have hd := hds d (List.mem_cons_self _ _)
    have hsp : isspace d = false := by
      cases h : isspace d
      · rfl
      · rw [isspace_not_isdigit h] at hd; cases hd
    have hminus : d ≠ '-' := by rintro rfl; exact absurd hd (by decide)
    have hplus : d ≠ '+' := by rintro rfl; exact absurd hd (by decide)
    have htake : (d :: tl).takeWhile isdigit = d :: tl := by
      have := (span_run isdigit (d :: tl) [] hds (fun c hc => by cases hc)).1
      simpa using this
    have hnn : ¬ ((decimal_value (d :: tl) : Int) < INT_MIN) := by
      have : (0 : Int) ≤ (decimal_value (d :: tl) : Int) := Int.ofNat_nonneg _
      simp only [INT_MIN]; omega
    unfold stoi
    simp only [String.toList, List.dropWhile, hsp, List.head?, Option.some.injEq, hminus,
      hplus, or_self, if_false, htake, decide_False, Bool.false_eq_true, hnn, false_or,
      not_lt, reduceCtorEq]
    split_ifs <;> first | rfl | omega


theorem digitChar_spec : ∀ k < 10, isdigit (Nat.digitChar k) = true ∧
    (Nat.digitChar k).toNat - 48 = k := by decide

theorem toDigitsCore_spec (fuel : Nat) : ∀ (n : Nat) (ds : List Char), n < fuel →
    ∃ l, Nat.toDigitsCore 10 fuel n ds = l ++ ds ∧ l ≠ [] ∧
      (∀ c ∈ l, isdigit c = true) ∧ decimal_value l = n := by
  induction fuel with
  | zero => intro n ds h; omega
  | succ fuel ih =>
    intro n ds h
    have hd := digitChar_spec (n % 10) (Nat.mod_lt _ (by decide))
    simp only [Nat.toDigitsCore]
    split
    · rename_i h0
      refine ⟨[Nat.digitChar (n % 10)], rfl, by simp, ?_, ?_⟩
      · intro c hc
        simp only [List.mem_singleton] at hc
        rw [hc]; exact hd.1
      · simp only [decimal_value, List.foldl, hd.2]
        omega
    · rename_i h0
      obtain ⟨l, hl, hne, hall, hval⟩ :=
        ih (n / 10) (Nat.digitChar (n % 10) :: ds) (by omega)
      refine ⟨l ++ [Nat.digitChar (n % 10)], by rw [hl]; simp, by simp, ?_, ?_⟩
      · intro c hc
        rcases List.mem_append.1 hc with h1 | h1
        · exact hall c h1
        · simp only [List.mem_singleton] at h1
          rw [h1]; exact hd.1
      · rw [decimal_value_append, hval, hd.2]
        omega

/-- The decimal digits of a natural number, as `toString` writes them: a
non-empty sequence of digits that denotes the number. -/
theorem toString_digits (a : Nat) :
    (toString a).toList ≠ [] ∧ (∀ c ∈ (toString a).toList, isdigit c = true) ∧
      decimal_value (toString a).toList = a := by
  obtain ⟨l, hl, hne, hall, hval⟩ := toDigitsCore_spec (a + 1) a [] (Nat.lt_succ_self a)
  have : (toString a).toList = l := by
    show (Nat.repr a).toList = l
    simp only [Nat.repr, Nat.toDigits, hl, List.append_nil, List.asString, String.toList]
  rw [this]
  exact ⟨hne, hall, hval⟩

/-! ## Lexing a source written token by token -/

theorem single_token_kind {c : Char} {t : Token} (h : single_token c = some t) :
    t.kind ≠ .Number ∧ t.kind ≠ .Name := by
  unfold single_token at h
  split_ifs at h <;> cases h <;> exact ⟨by decide, by decide⟩

theorem token_ok_head {t : Token} (h : token_ok t) :
    ∃ c cs, t.lexeme.toList = c :: cs ∧
      (t.kind ≠ .Number → isdigit c = false) ∧ (t.kind ≠ .Name → isalpha c = false) := by
  rcases h with ⟨hk, hne, hall⟩ | ⟨hk, hne, hall⟩ | ⟨c, hc, hl⟩
  · cases hl : t.lexeme.toList with
    | nil => exact absurd hl hne
    | cons c cs =>
      refine ⟨c, cs, rfl, fun h => absurd hk h, fun _ => ?_⟩
      have hd := hall c (by rw [hl]; exact List.mem_cons_self _ _)
      cases ha : isalpha c
      · rfl
      · rw [isalpha_not_isdigit ha] at hd; cases hd
  · cases hl : t.lexeme.toList with
    | nil => exact absurd hl hne
    | cons c cs =>
      refine ⟨c, cs, rfl, fun _ => ?_, fun h => absurd hk h⟩
      exact isalpha_not_isdigit (hall c (by rw [hl]; exact List.mem_cons_self _ _))
  · obtain ⟨h1, h2, _⟩ := single_token_classes hc
    exact ⟨c, [], hl, fun _ => h1, fun _ => h2⟩

/-- Lexing the source text of a sequence of well-formed, separated tokens gives
the sequence back. -/
theorem lex_loop_source_of (tokens : List Token) : ∀ (acc : List Token),
    (∀ t ∈ tokens, token_ok t) → separated tokens →
    lex_loop (source_of tokens) acc = .ok (acc ++ tokens) := by
  induction tokens with
  | nil => intro acc _ _; simp [source_of, lex_loop_nil]
  | cons t rest ih =>
    intro acc hok hsep
    have hrest : ∀ u ∈ rest, token_ok u := fun u hu => hok u (List.mem_cons_of_mem _ hu)
    have hsep1 : separated rest := by
      cases rest with
      | nil => trivial
      | cons u rest1 => exact hsep.2.2
    have hnext : ∀ c, (source_of rest).head? = some c →
        (t.kind = .Number → isdigit c = false) ∧ (t.kind = .Name → isalpha c = false) := by
      intro c hc
      cases rest with
      | nil => simp [source_of] at hc
      | cons u rest1 =>
        obtain ⟨c1, cs1, hl, hnd, hna⟩ := token_ok_head (hok u (by simp))
        simp only [source_of, hl, List.cons_append, List.head?_cons, Option.some.injEq] at hc
        subst hc
        exact ⟨fun hk => hnd (fun hu => hsep.1 ⟨hk, hu⟩),
          fun hk => hna (fun hu => hsep.2.1 ⟨hk, hu⟩)⟩
    have ht : t = ⟨t.kind, ⟨t.lexeme.toList⟩⟩ := rfl
    simp only [source_of]
    rcases hok t (List.mem_cons_self _ _) with ⟨hk, hne, hall⟩ | ⟨hk, hne, hall⟩ | ⟨c, hc, hl⟩
    · rw [lex_loop_number _ _ _ hne hall (fun c hc => (hnext c hc).1 hk),
        ih _ hrest hsep1, ← hk, ← ht]
      simp
    · rw [lex_loop_name _ _ _ hne hall (fun c hc => (hnext c hc).2 hk),
        ih _ hrest hsep1, ← hk, ← ht]
      simp
    · rw [hl, List.singleton_append, lex_loop_single _ _ _ _ hc, ih _ hrest hsep1]
      simp

/-- `lex` of a string that is the source text of well-formed, separated tokens. -/
theorem lex_of_tokens (source : String) (tokens : List Token)
    (hs : source.toList = source_of tokens) (hok : ∀ t ∈ tokens, token_ok t)
    (hsep : separated tokens) : lex source = .ok tokens := by
  unfold lex
  rw [hs, lex_loop_source_of tokens [] hok hsep]
  rfl

theorem token_ok_number {s : String} (h : is_number_literal s) : token_ok ⟨.Number, s⟩ :=
  Or.inl ⟨rfl, h⟩

theorem token_ok_name {s : String} (h : is_name s) : token_ok ⟨.Name, s⟩ :=
  Or.inr (Or.inl ⟨rfl, h⟩)

/-! ## Facts about evaluation -/

theorem wrap_int_of_range {x : Int} (h : in_int_range x) : wrap_int x = x := by
  unfold in_int_range INT_MIN INT_MAX at h
  unfold wrap_int
  omega

theorem wrap_int_range (x : Int) : in_int_range (wrap_int x) := by
  unfold in_int_range INT_MIN INT_MAX wrap_int
  omega

/-- Operands that neither throw nor write to the environment can be evaluated in
either order. -/
theorem eval_operands_pure (right_first : Bool) (l r : Env → Except Exception Int × Env)
    (env : Env) (a b : Int) (hl : l env = (.ok a, env)) (hr : r env = (.ok b, env)) :
    eval_operands right_first l r env = (.ok (a, b), env) := by
  cases right_first <;> simp [eval_operands, hl, hr]

theorem eval_num (o : OperandOrder) (n : Int) (env : Env) :
    eval o (.Num n) env = (.ok n, env) := rfl

theorem parse_source_eq (source : String) (tokens : List Token)
    (r : Except Exception Expr) (hl : lex source = .ok tokens)
    (hp : parse tokens = some r) : parse_source source = some r := by
  simp only [parse_source, hl, hp]

theorem main_try_eval (o : OperandOrder) (env : Env) (source : String) (expr : Expr)
    (hp : parse_source source = some (.ok expr)) :
    main_try o env source = some (eval o expr env) := by
  simp only [main_try, hp]

theorem main_try_parse_error (o : OperandOrder) (env : Env) (source : String)
    (e : Exception) (hp : parse_source source = some (.error e)) :
    main_try o env source = some (.error e, env) := by
  simp only [main_try, hp]

/-- The value `stoi` gives a number literal that fits in an `int`. -/
theorem stoi_literal {s : String} (h : is_number_literal s)
    (hr : literal_value s ≤ INT_MAX) : stoi s = .ok (literal_value s) := by
  have := stoi_digits s.toList h.1 h.2
  unfold literal_value at hr ⊢
  rw [if_pos hr] at this
  exact this

theorem stoi_literal_big {s : String} (h : is_number_literal s)
    (hr : ¬ literal_value s ≤ INT_MAX) : stoi s = .error .out_of_range := by
  have := stoi_digits s.toList h.1 h.2
  unfold literal_value at hr
  rw [if_neg hr] at this
  exact this

/-! ## Two literals and an operator -/

theorem lex_binary (x y : String) (c : Char) (tok : Token)
    (hx : is_number_literal x) (hy : is_number_literal y)
    (hc : single_token c = some tok) (hl : tok.lexeme.toList = [c]) :
    lex (x ++ String.singleton c ++ y) = .ok [⟨.Number, x⟩, tok, ⟨.Number, y⟩] := by
  apply lex_of_tokens
  · have hd : tok.lexeme.data = [c] := hl
    simp [source_of, hd, String.singleton]
  · intro t ht
    simp only [List.mem_cons, List.mem_singleton, List.not_mem_nil, or_false] at ht
    rcases ht with rfl | rfl | rfl
    · exact token_ok_number hx
    · exact Or.inr (Or.inr ⟨c, hc, hl⟩)
    · exact token_ok_number hy
  · have := single_token_kind hc
    exact ⟨fun h => this.1 h.2, fun h => this.2 h.2, fun h => this.1 h.1,
      fun h => this.2 h.1, trivial⟩

theorem parse_sum (x y : String) (a b : Int) (ha : stoi x = .ok a) (hb : stoi y = .ok b) :
    parse [⟨.Number, x⟩, ⟨.Plus, "+"⟩, ⟨.Number, y⟩] =
      some (.ok (.Addition (.Num a) (.Num b))) := by
  apply parse_ok_of_returns
  exact expr_of (seq_of (assign_other rfl (addition_of
    (multiplication_of (term_number rfl rfl ha) (multiplication_loop_other _ rfl rfl))
    (addition_loop_plus rfl rfl
      (multiplication_of (term_number rfl rfl hb) (multiplication_loop_end _ rfl))
      (addition_loop_end _ rfl)))) (seq_loop_end _ rfl))

theorem parse_difference (x y : String) (a b : Int) (ha : stoi x = .ok a)
    (hb : stoi y = .ok b) :
    parse [⟨.Number, x⟩, ⟨.Minus, "-"⟩, ⟨.Number, y⟩] =
      some (.ok (.Subtraction (.Num a) (.Num b))) := by
  apply parse_ok_of_returns
  exact expr_of (seq_of (assign_other rfl (addition_of
    (multiplication_of (term_number rfl rfl ha) (multiplication_loop_other _ rfl rfl))
    (addition_loop_minus rfl rfl
      (multiplication_of (term_number rfl rfl hb) (multiplication_loop_end _ rfl))
      (addition_loop_end _ rfl)))) (seq_loop_end _ rfl))

theorem parse_product (x y : String) (a b : Int) (ha : stoi x = .ok a)
    (hb : stoi y = .ok b) :
    parse [⟨.Number, x⟩, ⟨.Mult, "*"⟩, ⟨.Number, y⟩] =
      some (.ok (.Multiplication (.Num a) (.Num b))) := by
  apply parse_ok_of_returns
  exact expr_of (seq_of (assign_other rfl (addition_of
    (multiplication_of (term_number rfl rfl ha)
      (multiplication_loop_mult rfl rfl (term_number rfl rfl hb)
        (multiplication_loop_end _ rfl)))
    (addition_loop_end _ rfl))) (seq_loop_end _ rfl))


theorem literal_of_nat (a : Nat) : is_number_literal (toString a) :=
  ⟨(toString_digits a).1, (toString_digits a).2.1⟩

theorem literal_value_of_nat (a : Nat) : literal_value (toString a) = (a : Int) := by
  unfold literal_value
  rw [(toString_digits a).2.2]

theorem stoi_of_nat (a : Nat) (ha : (a : Int) ≤ INT_MAX) : stoi (toString a) = .ok (a : Int) := by
  have h := stoi_literal (literal_of_nat a) (by rw [literal_value_of_nat]; exact ha)
  rw [literal_value_of_nat] at h
  exact h

theorem eval_sum (o : OperandOrder) (a b : Int) (env : Env) :
    eval o (.Addition (.Num a) (.Num b)) env = (.ok (wrap_int (a + b)), env) := by
  simp only [eval, eval_operands_pure _ _ _ env a b rfl rfl]

theorem eval_difference (o : OperandOrder) (a b : Int) (env : Env) :
    eval o (.Subtraction (.Num a) (.Num b)) env = (.ok (wrap_int (a - b)), env) := by
  simp only [eval, eval_operands_pure _ _ _ env a b rfl rfl]

theorem eval_product (o : OperandOrder) (a b : Int) (env : Env) :
    eval o (.Multiplication (.Num a) (.Num b)) env = (.ok (wrap_int (a * b)), env) := by
  simp only [eval, eval_operands_pure _ _ _ env a b rfl rfl]

theorem main_try_sum (o : OperandOrder) (env : Env) (a b : Nat)
    (ha : (a : Int) ≤ INT_MAX) (hb : (b : Int) ≤ INT_MAX) :
    main_try o env (toString a ++ "+" ++ toString b) =
      some (.ok (wrap_int ((a : Int) + (b : Int))), env) := by
  exact (main_try_eval o env _ _ (parse_source_eq _ _ _
    (lex_binary _ _ '+' ⟨.Plus, "+"⟩ (literal_of_nat a) (literal_of_nat b) rfl rfl)
    (parse_sum _ _ _ _ (stoi_of_nat a ha) (stoi_of_nat b hb)))).trans
    (congrArg some (eval_sum o _ _ env))

theorem main_try_difference (o : OperandOrder) (env : Env) (a b : Nat)
    (ha : (a : Int) ≤ INT_MAX) (hb : (b : Int) ≤ INT_MAX) :
    main_try o env (toString a ++ "-" ++ toString b) =
      some (.ok (wrap_int ((a : Int) - (b : Int))), env) := by
  exact (main_try_eval o env _ _ (parse_source_eq _ _ _
    (lex_binary _ _ '-' ⟨.Minus, "-"⟩ (literal_of_nat a) (literal_of_nat b) rfl rfl)
    (parse_difference _ _ _ _ (stoi_of_nat a ha) (stoi_of_nat b hb)))).trans
    (congrArg some (eval_difference o _ _ env))

theorem main_try_product (o : OperandOrder) (env : Env) (a b : Nat)
    (ha : (a : Int) ≤ INT_MAX) (hb : (b : Int) ≤ INT_MAX) :
    main_try o env (toString a ++ "*" ++ toString b) =
      some (.ok (wrap_int ((a : Int) * (b : Int))), env) := by
  exact (main_try_eval o env _ _ (parse_source_eq _ _ _
    (lex_binary _ _ '*' ⟨.Mult, "*"⟩ (literal_of_nat a) (literal_of_nat b) rfl rfl)
    (parse_product _ _ _ _ (stoi_of_nat a ha) (stoi_of_nat b hb)))).trans
    (congrArg some (eval_product o _ _ env))

/-- A number literal too large for an `int` as the first token: `parse` throws
`std::out_of_range`. -/
theorem parse_first_literal_big (x : String) (rest : List Token)
    (hx : stoi x = .error .out_of_range) :
    parse (⟨.Number, x⟩ :: rest) = some (.error .out_of_range) := by
  apply parse_error_of_returns
  have hno : assign_ahead (⟨.Number, x⟩ :: rest) 0 = false := by
    unfold assign_ahead
    cases rest <;> simp
  have h0 : (Token.mk .Number x :: rest)[0]? = some ⟨.Number, x⟩ := by simp
  exact expr_of (seq_error (assign_other hno (addition_error
    (multiplication_error (term_number_error h0 rfl hx)))))

/-- C1 (as amended): for all non-negative integers `a` and `b` not above
`INT_MAX = 2147483647` and every environment, lexing, parsing and evaluating the
decimal digits of `a`, an operator and the decimal digits of `b` yields `a + b`
for `+` when `a + b ≤ INT_MAX`, `a - b` for `-`, and `a * b` for `*` when
`a * b ≤ INT_MAX`; the environment is left as it was. -/
theorem C1_literal_arithmetic (o : OperandOrder) (env : Env) (a b : Nat)
    (ha : (a : Int) ≤ INT_MAX) (hb : (b : Int) ≤ INT_MAX) :
    ((a : Int) + b ≤ INT_MAX →
      main_try o env (toString a ++ "+" ++ toString b) = some (.ok ((a : Int) + b), env)) ∧
    main_try o env (toString a ++ "-" ++ toString b) = some (.ok ((a : Int) - b), env) ∧
    ((a : Int) * b ≤ INT_MAX →
      main_try o env (toString a ++ "*" ++ toString b) = some (.ok ((a : Int) * b), env)) := by
  have h0a : (0 : Int) ≤ a := Int.ofNat_nonneg a
  have h0b : (0 : Int) ≤ b := Int.ofNat_nonneg b
  refine ⟨fun h => ?_, ?_, fun h => ?_⟩
  · rw [main_try_sum o env a b ha hb, wrap_int_of_range]
    simp only [in_int_range, INT_MIN, INT_MAX] at *; omega
  · rw [main_try_difference o env a b ha hb, wrap_int_of_range]
    simp only [in_int_range, INT_MIN, INT_MAX] at *; omega
  · rw [main_try_product o env a b ha hb, wrap_int_of_range]
    have : (0 : Int) ≤ (a : Int) * b := Int.mul_nonneg h0a h0b
    simp only [in_int_range, INT_MIN, INT_MAX] at *; omega

/-- C1, witness: `2` and `3` give `5`, `-1` and `6`. -/
theorem C1_literal_arithmetic_witness :
    ((2 : Nat) : Int) ≤ INT_MAX ∧ ((3 : Nat) : Int) ≤ INT_MAX ∧
    main_try left_to_right [] (toString 2 ++ "+" ++ toString 3) = some (.ok 5, []) ∧
    main_try left_to_right [] (toString 2 ++ "-" ++ toString 3) = some (.ok (-1), []) ∧
    main_try left_to_right [] (toString 2 ++ "*" ++ toString 3) = some (.ok 6, []) :=
  have h := C1_literal_arithmetic left_to_right [] 2 3 (by decide) (by decide)
  ⟨by decide, by decide, h.1 (by decide), h.2.1, h.2.2 (by decide)⟩

/-- C1 as stated fails: the digits of `2147483648` are not accepted by `std::stoi`,
so `2147483648+0` is not evaluated at all, and the sum `2147483647+1` is not an
`int`, so the result of `2147483647+1` is not `2147483648`. -/
theorem C1_counterexample :
    main_try left_to_right [] (toString 2147483648 ++ "+" ++ toString 0) =
      some (.error .out_of_range, []) ∧
    main_try left_to_right [] (toString 2147483647 ++ "+" ++ toString 1) ≠
      some (.ok (2147483647 + 1), []) := by
  constructor
  · exact main_try_parse_error _ _ _ _ (parse_source_eq _ _ _
      (lex_binary _ _ '+' ⟨.Plus, "+"⟩ (literal_of_nat _) (literal_of_nat _) rfl rfl)
      (parse_first_literal_big _ _ (stoi_literal_big (literal_of_nat _)
        (by rw [literal_value_of_nat]; decide))))
  · rw [main_try_sum left_to_right [] 2147483647 1 (by decide) (by decide)]
    decide

theorem token_ok_symbol (c : Char) {t : Token} (h : single_token c = some t)
    (hl : t.lexeme.toList = [c]) : token_ok t :=
  Or.inr (Or.inr ⟨c, h, hl⟩)

/-! ## Precedence and associativity -/

theorem lex_sum_product (a b c : String) (ha : is_number_literal a)
    (hb : is_number_literal b) (hc : is_number_literal c) :
    lex (a ++ "+" ++ b ++ "*" ++ c) =
      .ok [⟨.Number, a⟩, ⟨.Plus, "+"⟩, ⟨.Number, b⟩, ⟨.Mult, "*"⟩, ⟨.Number, c⟩] := by
  refine lex_of_tokens _ _ (by simp [source_of]) ?_ (by simp [separated])
  simp only [List.mem_cons, List.mem_singleton, forall_eq_or_imp, forall_eq,
    List.not_mem_nil, false_imp_iff, implies_true, and_true]
  exact ⟨token_ok_number ha, token_ok_symbol '+' rfl rfl, token_ok_number hb,
    token_ok_symbol '*' rfl rfl, token_ok_number hc⟩

theorem lex_paren_sum_product (a b c : String) (ha : is_number_literal a)
    (hb : is_number_literal b) (hc : is_number_literal c) :
    lex ("(" ++ a ++ "+" ++ b ++ ")" ++ "*" ++ c) =
      .ok [⟨.LParen, "("⟩, ⟨.Number, a⟩, ⟨.Plus, "+"⟩, ⟨.Number, b⟩, ⟨.RParen, ")"⟩,
        ⟨.Mult, "*"⟩, ⟨.Number, c⟩] := by
  refine lex_of_tokens _ _ (by simp [source_of]) ?_ (by simp [separated])
  simp only [List.mem_cons, List.mem_singleton, forall_eq_or_imp, forall_eq,
    List.not_mem_nil, false_imp_iff, implies_true, and_true]
  exact ⟨token_ok_symbol '(' rfl rfl, token_ok_number ha, token_ok_symbol '+' rfl rfl,
    token_ok_number hb, token_ok_symbol ')' rfl rfl, token_ok_symbol '*' rfl rfl,
    token_ok_number hc⟩

theorem parse_source_sum_product (a b c : String) (ha : is_number_literal a)
    (hb : is_number_literal b) (hc : is_number_literal c)
    (hva : literal_value a ≤ INT_MAX) (hvb : literal_value b ≤ INT_MAX)
    (hvc : literal_value c ≤ INT_MAX) :
    parse_source (a ++ "+" ++ b ++ "*" ++ c) =
      some (.ok (.Addition (.Num (literal_value a))
        (.Multiplication (.Num (literal_value b)) (.Num (literal_value c))))) := by
  have sa := stoi_literal ha hva
  have sb := stoi_literal hb hvb
  have sc := stoi_literal hc hvc
  refine parse_source_eq _ _ _ (lex_sum_product a b c ha hb hc) ?_
  apply parse_ok_of_returns
  exact expr_of (seq_of (assign_other rfl (addition_of
    (multiplication_of (term_number rfl rfl sa) (multiplication_loop_other _ rfl rfl))
    (addition_loop_plus rfl rfl
      (multiplication_of (term_number rfl rfl sb)
        (multiplication_loop_mult rfl rfl (term_number rfl rfl sc)
          (multiplication_loop_end _ rfl)))
      (addition_loop_end _ rfl)))) (seq_loop_end _ rfl))

theorem parse_source_paren_sum_product (a b c : String) (ha : is_number_literal a)
    (hb : is_number_literal b) (hc : is_number_literal c)
    (hva : literal_value a ≤ INT_MAX) (hvb : literal_value b ≤ INT_MAX)
    (hvc : literal_value c ≤ INT_MAX) :
    parse_source ("(" ++ a ++ "+" ++ b ++ ")" ++ "*" ++ c) =
      some (.ok (.Multiplication
        (.Addition (.Num (literal_value a)) (.Num (literal_value b)))
        (.Num (literal_value c)))) := by
  have sa := stoi_literal ha hva
  have sb := stoi_literal hb hvb
  have sc := stoi_literal hc hvc
  refine parse_source_eq _ _ _ (lex_paren_sum_product a b c ha hb hc) ?_
  apply parse_ok_of_returns
  exact expr_of (seq_of (assign_other rfl (addition_of
    (multiplication_of
      (term_paren rfl rfl
        (expr_of (seq_of (assign_other rfl (addition_of
          (multiplication_of (term_number rfl rfl sa)
            (multiplication_loop_other _ rfl rfl))
          (addition_loop_plus rfl rfl
            (multiplication_of (term_number rfl rfl sb)
              (multiplication_loop_other _ rfl rfl))
            (addition_loop_other _ rfl rfl))))
          (seq_loop_other _ rfl rfl)))
        rfl rfl)
      (multiplication_loop_mult rfl rfl (term_number rfl rfl sc)
        (multiplication_loop_end _ rfl)))
    (addition_loop_end _ rfl))) (seq_loop_end _ rfl))

theorem literal_value_nonneg (s : String) : 0 ≤ literal_value s :=
  Int.ofNat_nonneg _

/-- An `Addition` whose operands neither throw nor write to the environment. -/
theorem eval_addition_pure (o : OperandOrder) (l r : Expr) (env : Env) (a b : Int)
    (hl : eval o l env = (.ok a, env)) (hr : eval o r env = (.ok b, env)) :
    eval o (.Addition l r) env = (.ok (wrap_int (a + b)), env) := by
  have h : eval o (.Addition l r) env =
      match eval_operands o.addition_right_first (eval o l) (eval o r) env with
      | (.error e, env1) => (.error e, env1)
      | (.ok (a, b), env1) => (.ok (wrap_int (a + b)), env1) := rfl
  rw [h, eval_operands_pure _ _ _ env a b hl hr]

/-- A `Subtraction` whose operands neither throw nor write to the environment. -/
theorem eval_subtraction_pure (o : OperandOrder) (l r : Expr) (env : Env) (a b : Int)
    (hl : eval o l env = (.ok a, env)) (hr : eval o r env = (.ok b, env)) :
    eval o (.Subtraction l r) env = (.ok (wrap_int (a - b)), env) := by
  have h : eval o (.Subtraction l r) env =
      match eval_operands o.subtraction_right_first (eval o l) (eval o r) env with
      | (.error e, env1) => (.error e, env1)
      | (.ok (a, b), env1) => (.ok (wrap_int (a - b)), env1) := rfl
  rw [h, eval_operands_pure _ _ _ env a b hl hr]

/-- A `Multiplication` whose operands neither throw nor write to the environment. -/
theorem eval_multiplication_pure (o : OperandOrder) (l r : Expr) (env : Env) (a b : Int)
    (hl : eval o l env = (.ok a, env)) (hr : eval o r env = (.ok b, env)) :
    eval o (.Multiplication l r) env = (.ok (wrap_int (a * b)), env) := by
  have h : eval o (.Multiplication l r) env =
      match eval_operands o.multiplication_right_first (eval o l) (eval o r) env with
      | (.error e, env1) => (.error e, env1)
      | (.ok (a, b), env1) => (.ok (wrap_int (a * b)), env1) := rfl
  rw [h, eval_operands_pure _ _ _ env a b hl hr]

theorem eval_sum_product (o : OperandOrder) (a b c : Int) (env : Env) :
    eval o (.Addition (.Num a) (.Multiplication (.Num b) (.Num c))) env =
      (.ok (wrap_int (a + wrap_int (b * c))), env) :=
  eval_addition_pure o _ _ env _ _ rfl (eval_multiplication_pure o _ _ env _ _ rfl rfl)

theorem eval_paren_sum_product (o : OperandOrder) (a b c : Int) (env : Env) :
    eval o (.Multiplication (.Addition (.Num a) (.Num b)) (.Num c)) env =
      (.ok (wrap_int (wrap_int (a + b) * c)), env) :=
  eval_multiplication_pure o _ _ env _ _ (eval_addition_pure o _ _ env _ _ rfl rfl) rfl

/-- C2 (as amended): multiplication binds tighter than addition unless parentheses
say otherwise. For all number literals `a`, `b`, `c` whose values are at most
`INT_MAX = 2147483647`, `parse(lex("a+b*c"))` is
`Addition(Num a, Multiplication(Num b, Num c))` and evaluates to `a+(b*c)` when
that is at most `INT_MAX`, while `parse(lex("(a+b)*c"))` is
`Multiplication(Addition(Num a, Num b), Num c)` and evaluates to `(a+b)*c` when
`a+b` and `(a+b)*c` are at most `INT_MAX`. -/
theorem C2_precedence (o : OperandOrder) (env : Env) (a b c : String)
    (ha : is_number_literal a) (hb : is_number_literal b) (hc : is_number_literal c)
    (hva : literal_value a ≤ INT_MAX) (hvb : literal_value b ≤ INT_MAX)
    (hvc : literal_value c ≤ INT_MAX) :
    parse_source (a ++ "+" ++ b ++ "*" ++ c) =
      some (.ok (.Addition (.Num (literal_value a))
        (.Multiplication (.Num (literal_value b)) (.Num (literal_value c))))) ∧
    (literal_value a + literal_value b * literal_value c ≤ INT_MAX →
      main_try o env (a ++ "+" ++ b ++ "*" ++ c) =
        some (.ok (literal_value a + literal_value b * literal_value c), env)) ∧
    parse_source ("(" ++ a ++ "+" ++ b ++ ")" ++ "*" ++ c) =
      some (.ok (.Multiplication
        (.Addition (.Num (literal_value a)) (.Num (literal_value b)))
        (.Num (literal_value c)))) ∧
    (literal_value a + literal_value b ≤ INT_MAX →
      (literal_value a + literal_value b) * literal_value c ≤ INT_MAX →
      main_try o env ("(" ++ a ++ "+" ++ b ++ ")" ++ "*" ++ c) =
        some (.ok ((literal_value a + literal_value b) * literal_value c), env)) := by
  have h1 := parse_source_sum_product a b c ha hb hc hva hvb hvc
  have h2 := parse_source_paren_sum_product a b c ha hb hc hva hvb hvc
  have na := literal_value_nonneg a
  have nb := literal_value_nonneg b
  have nc := literal_value_nonneg c
  have nbc : 0 ≤ literal_value b * literal_value c := Int.mul_nonneg nb nc
  refine ⟨h1, fun h => ?_, h2, fun hs h => ?_⟩
  · rw [main_try_eval o env _ _ h1, eval_sum_product,
      wrap_int_of_range (x := literal_value b * literal_value c), wrap_int_of_range]
    · simp only [in_int_range, INT_MIN, INT_MAX] at *; omega
    · simp only [in_int_range, INT_MIN, INT_MAX] at *; omega
  · have nabc : 0 ≤ (literal_value a + literal_value b) * literal_value c :=
      Int.mul_nonneg (by omega) nc
    rw [main_try_eval o env _ _ h2, eval_paren_sum_product,
      wrap_int_of_range (x := literal_value a + literal_value b), wrap_int_of_range]
    · simp only [in_int_range, INT_MIN, INT_MAX] at *; omega
    · simp only [in_int_range, INT_MIN, INT_MAX] at *; omega

/-- C2, witness: `2+3*4` gives 14 and `(2+3)*4` gives 20. -/
theorem C2_precedence_witness :
    is_number_literal "2" ∧ is_number_literal "3" ∧ is_number_literal "4" ∧
    main_try left_to_right [] "2+3*4" = some (.ok 14, []) ∧
    main_try left_to_right [] "(2+3)*4" = some (.ok 20, []) :=
  have h := C2_precedence left_to_right [] "2" "3" "4" (by decide) (by decide) (by decide)
    (by decide) (by decide) (by decide)
  ⟨by decide, by decide, by decide, h.2.1 (by decide), h.2.2.2 (by decide) (by decide)⟩

/-- C2 as stated fails: the literal `2147483648` is not accepted by `std::stoi`, so
`2147483648+3*4` has no tree, and `65536*65536` is not an `int`, so `0+65536*65536`
does not evaluate to `0+(65536*65536)`. -/
theorem C2_counterexample :
    parse_source "2147483648+3*4" = some (.error .out_of_range) ∧
    main_try left_to_right [] "0+65536*65536" ≠ some (.ok (0 + 65536 * 65536), []) := by
  constructor
  · exact parse_source_eq _ _ _
      (lex_sum_product "2147483648" "3" "4" (by decide) (by decide) (by decide))
      (parse_first_literal_big "2147483648" _ (stoi_literal_big (by decide) (by decide)))
  · have h := main_try_eval left_to_right [] _ _
      (parse_source_sum_product "0" "65536" "65536"
        (by decide) (by decide) (by decide) (by decide) (by decide) (by decide))
    rw [eval_sum_product] at h
    intro h1
    exact absurd (h.symm.trans h1) (by decide)

theorem lex_chain (a b c : String) (ch : Char) (tok : Token)
    (ha : is_number_literal a) (hb : is_number_literal b) (hc : is_number_literal c)
    (ht : single_token ch = some tok) (hl : tok.lexeme.toList = [ch]) :
    lex (a ++ tok.lexeme ++ b ++ tok.lexeme ++ c) =
      .ok [⟨.Number, a⟩, tok, ⟨.Number, b⟩, tok, ⟨.Number, c⟩] := by
  have hk := single_token_kind ht
  refine lex_of_tokens _ _ (by simp [source_of]) ?_ ?_
  · simp only [List.mem_cons, List.mem_singleton, forall_eq_or_imp, forall_eq,
      List.not_mem_nil, false_imp_iff, implies_true, and_true]
    exact ⟨token_ok_number ha, token_ok_symbol ch ht hl, token_ok_number hb,
      token_ok_symbol ch ht hl, token_ok_number hc⟩
  · simp [separated, hk.1, hk.2]

theorem parse_source_difference_chain (a b c : String) (ha : is_number_literal a)
    (hb : is_number_literal b) (hc : is_number_literal c)
    (hva : literal_value a ≤ INT_MAX) (hvb : literal_value b ≤ INT_MAX)
    (hvc : literal_value c ≤ INT_MAX) :
    parse_source (a ++ "-" ++ b ++ "-" ++ c) =
      some (.ok (.Subtraction
        (.Subtraction (.Num (literal_value a)) (.Num (literal_value b)))
        (.Num (literal_value c)))) := by
  have sa := stoi_literal ha hva
  have sb := stoi_literal hb hvb
  have sc := stoi_literal hc hvc
  refine parse_source_eq _ _ _ (lex_chain a b c '-' ⟨.Minus, "-"⟩ ha hb hc rfl rfl) ?_
  apply parse_ok_of_returns
  exact expr_of (seq_of (assign_other rfl (addition_of
    (multiplication_of (term_number rfl rfl sa) (multiplication_loop_other _ rfl rfl))
    (addition_loop_minus rfl rfl
      (multiplication_of (term_number rfl rfl sb) (multiplication_loop_other _ rfl rfl))
      (addition_loop_minus rfl rfl
        (multiplication_of (term_number rfl rfl sc) (multiplication_loop_end _ rfl))
        (addition_loop_end _ rfl))))) (seq_loop_end _ rfl))

theorem parse_source_quotient_chain (a b c : String) (ha : is_number_literal a)
    (hb : is_number_literal b) (hc : is_number_literal c)
    (hva : literal_value a ≤ INT_MAX) (hvb : literal_value b ≤ INT_MAX)
    (hvc : literal_value c ≤ INT_MAX) :
    parse_source (a ++ "/" ++ b ++ "/" ++ c) =
      some (.ok (.Division
        (.Division (.Num (literal_value a)) (.Num (literal_value b)))
        (.Num (literal_value c)))) := by
  have sa := stoi_literal ha hva
  have sb := stoi_literal hb hvb
  have sc := stoi_literal hc hvc
  refine parse_source_eq _ _ _ (lex_chain a b c '/' ⟨.Div, "/"⟩ ha hb hc rfl rfl) ?_
  apply parse_ok_of_returns
  exact expr_of (seq_of (assign_other rfl (addition_of
    (multiplication_of (term_number rfl rfl sa)
      (multiplication_loop_div rfl rfl (term_number rfl rfl sb)
        (multiplication_loop_div rfl rfl (term_number rfl rfl sc)
          (multiplication_loop_end _ rfl))))
    (addition_loop_end _ rfl))) (seq_loop_end _ rfl))

theorem eval_difference_chain (o : OperandOrder) (a b c : Int) (env : Env) :
    eval o (.Subtraction (.Subtraction (.Num a) (.Num b)) (.Num c)) env =
      (.ok (wrap_int (wrap_int (a - b) - c)), env) :=
  eval_subtraction_pure o _ _ env _ _ (eval_subtraction_pure o _ _ env _ _ rfl rfl) rfl

/-- C3 (as amended): binary operators are left-associative at each precedence
level. For all number literals `a`, `b`, `c` whose values are at most
`INT_MAX = 2147483647`, `parse(lex("a-b-c"))` is
`Subtraction(Subtraction(Num a, Num b), Num c)` and evaluates to `(a-b)-c` when
that is at least `INT_MIN = -2147483648`, and `parse(lex("a/b/c"))` is
`Division(Division(Num a, Num b), Num c)`. -/
theorem C3_left_associative (o : OperandOrder) (env : Env) (a b c : String)
    (ha : is_number_literal a) (hb : is_number_literal b) (hc : is_number_literal c)
    (hva : literal_value a ≤ INT_MAX) (hvb : literal_value b ≤ INT_MAX)
    (hvc : literal_value c ≤ INT_MAX) :
    parse_source (a ++ "-" ++ b ++ "-" ++ c) =
      some (.ok (.Subtraction
        (.Subtraction (.Num (literal_value a)) (.Num (literal_value b)))
        (.Num (literal_value c)))) ∧
    (INT_MIN ≤ literal_value a - literal_value b - literal_value c →
      main_try o env (a ++ "-" ++ b ++ "-" ++ c) =
        some (.ok (literal_value a - literal_value b - literal_value c), env)) ∧
    parse_source (a ++ "/" ++ b ++ "/" ++ c) =
      some (.ok (.Division
        (.Division (.Num (literal_value a)) (.Num (literal_value b)))
        (.Num (literal_value c)))) := by
  have h1 := parse_source_difference_chain a b c ha hb hc hva hvb hvc
  have na := literal_value_nonneg a
  have nb := literal_value_nonneg b
  have nc := literal_value_nonneg c
  refine ⟨h1, fun h => ?_, parse_source_quotient_chain a b c ha hb hc hva hvb hvc⟩
  rw [main_try_eval o env _ _ h1, eval_difference_chain,
    wrap_int_of_range (x := literal_value a - literal_value b), wrap_int_of_range]
  · simp only [in_int_range, INT_MIN, INT_MAX] at *; omega
  · simp only [in_int_range, INT_MIN, INT_MAX] at *; omega

/-- C3, witness: `10-3-2` gives 5, and `10/3/2` is `Division(Division(10, 3), 2)`. -/
theorem C3_left_associative_witness :
    is_number_literal "10" ∧ is_number_literal "3" ∧ is_number_literal "2" ∧
    main_try left_to_right [] "10-3-2" = some (.ok 5, []) ∧
    parse_source "10/3/2" =
      some (.ok (.Division (.Division (.Num 10) (.Num 3)) (.Num 2))) :=
  have h := C3_left_associative left_to_right [] "10" "3" "2" (by decide) (by decide)
    (by decide) (by decide) (by decide) (by decide)
  ⟨by decide, by decide, by decide, h.2.1 (by decide), h.2.2⟩

/-- C3 as stated fails: the literal `2147483648` is not accepted by `std::stoi`, so
`2147483648-3-2` has no tree, and `0-2147483647-2` is below `INT_MIN`, so the
result is not `(0-2147483647)-2`. -/
theorem C3_counterexample :
    parse_source "2147483648-3-2" = some (.error .out_of_range) ∧
    main_try left_to_right [] "0-2147483647-2" ≠ some (.ok (0 - 2147483647 - 2), []) := by
  constructor
  · exact parse_source_eq _ _ _
      (lex_chain "2147483648" "3" "2" '-' ⟨.Minus, "-"⟩ (by decide) (by decide)
        (by decide) rfl rfl)
      (parse_first_literal_big "2147483648" _ (stoi_literal_big (by decide) (by decide)))
  · have h := main_try_eval left_to_right [] _ _
      (parse_source_difference_chain "0" "2147483647" "2"
        (by decide) (by decide) (by decide) (by decide) (by decide) (by decide))
    rw [eval_difference_chain] at h
    intro h1
    exact absurd (h.symm.trans h1) (by decide)

/-! ## Division -/

/-- The quotient of an `int` by a non-zero `int` is an `int`, except for
`INT_MIN / -1`. -/
theorem tdiv_in_range {x y : Int} (hx : in_int_range x) (hy : y ≠ 0)
    (h : ¬ (x = INT_MIN ∧ y = -1)) : in_int_range (Int.tdiv x y) := by
  have hn : (Int.tdiv x y).natAbs = x.natAbs / y.natAbs := Int.natAbs_tdiv x y
  simp only [in_int_range, INT_MIN, INT_MAX] at *
  rcases Nat.lt_or_ge y.natAbs 2 with h2 | h2
  · have hy1 : y = 1 ∨ y = -1 := by omega
    rcases hy1 with rfl | rfl
    · rw [Int.tdiv_one]; exact hx
    · rw [Int.tdiv_neg, Int.tdiv_one]
      have : x ≠ -2147483648 := fun hx1 => h ⟨hx1, rfl⟩
      omega
  · have h3 : x.natAbs / y.natAbs ≤ x.natAbs / 2 := Nat.div_le_div_left h2 (by decide)
    omega

theorem eval_division (o : OperandOrder) (l r : Expr) (env env1 env2 : Env) (x y : Int)
    (hl : eval o l env = (.ok x, env1)) (hr : eval o r env1 = (.ok y, env2)) :
    eval o (.Division l r) env =
      if y = 0 then (.error DivisionByZero, env2)
      else if x = INT_MIN ∧ y = -1 then (.error .SIGFPE, env2)
      else (.ok (wrap_int (Int.tdiv x y)), env2) := by
  have h : eval o (.Division l r) env =
      match eval o l env with
      | (.error e, env1) => (.error e, env1)
      | (.ok l, env1) =>
        match eval o r env1 with
        | (.error e, env2) => (.error e, env2)
        | (.ok r, env2) =>
          if r = 0 then (.error DivisionByZero, env2)
          else if l = INT_MIN ∧ r = -1 then (.error .SIGFPE, env2)
          else (.ok (wrap_int (Int.tdiv l r)), env2) := rfl
  rw [h, hl]
  simp only [hr]

/-- What a `Division` node does once its left operand has evaluated to the `int`
`x` and its right operand to `y`: for `y = 0` it throws `DivisionByZero`; for
`x = INT_MIN` and `y = -1` the process is killed by `SIGFPE`; otherwise it returns
the quotient of `x` by `y` truncated toward zero. -/
theorem division_quotient (o : OperandOrder) (l r : Expr) (env env1 env2 : Env) (x y : Int)
    (hl : eval o l env = (.ok x, env1)) (hr : eval o r env1 = (.ok y, env2))
    (hx : in_int_range x) :
    (y = 0 → eval o (.Division l r) env = (.error DivisionByZero, env2)) ∧
    (x = INT_MIN ∧ y = -1 → eval o (.Division l r) env = (.error .SIGFPE, env2)) ∧
    (y ≠ 0 → ¬ (x = INT_MIN ∧ y = -1) →
      eval o (.Division l r) env = (.ok (Int.tdiv x y), env2)) := by
  rw [eval_division o l r env env1 env2 x y hl hr]
  refine ⟨fun h => by rw [if_pos h], fun h => ?_, fun h hm => ?_⟩
  · have hy : y ≠ 0 := by rw [h.2]; decide
    rw [if_neg hy, if_pos h]
  · rw [if_neg h, if_neg hm, wrap_int_of_range (tdiv_in_range hx h hm)]

/-- Examples of `division_quotient`: `6/2` gives 3, `1/0` fails with
`DivisionByZero` and `(0-7)/2` gives -3. -/
theorem division_quotient_examples :
    eval left_to_right (.Division (.Num 6) (.Num 2)) [] = (.ok 3, []) ∧
    eval left_to_right (.Division (.Num 1) (.Num 0)) [] = (.error DivisionByZero, []) ∧
    eval left_to_right (.Division (.Subtraction (.Num 0) (.Num 7)) (.Num 2)) [] =
      (.ok (-3), []) :=
  ⟨(division_quotient left_to_right (.Num 6) (.Num 2) [] [] [] 6 2 rfl rfl (by decide)).2.2
      (by decide) (by decide),
    (division_quotient left_to_right (.Num 1) (.Num 0) [] [] [] 1 0 rfl rfl (by decide)).1 rfl,
    (show Int.tdiv (-7) 2 = -3 by decide) ▸
      (division_quotient left_to_right (.Subtraction (.Num 0) (.Num 7)) (.Num 2) [] [] []
        (-7) 2 (by decide) rfl (by decide)).2.2 (by decide) (by decide)⟩

theorem lex_min_by_minus_one :
    lex "(0-2147483647-1)/(0-1)" = .ok [⟨.LParen, "("⟩, ⟨.Number, "0"⟩, ⟨.Minus, "-"⟩,
      ⟨.Number, "2147483647"⟩, ⟨.Minus, "-"⟩, ⟨.Number, "1"⟩, ⟨.RParen, ")"⟩, ⟨.Div, "/"⟩,
      ⟨.LParen, "("⟩, ⟨.Number, "0"⟩, ⟨.Minus, "-"⟩, ⟨.Number, "1"⟩, ⟨.RParen, ")"⟩] := by
  simp [lex, lex_loop, lex_run, isdigit, isalpha, isspace, single_token]
  decide

/-- C4: a `Division` node whose right operand evaluates to 0 fails with
`DivisionByZero` (`1/0`), and otherwise it is to return the quotient truncated
toward zero (`6/2` gives 3, `(0-7)/2` gives -3). The code misses one case:
`Division::eval` guards `r == 0` only, and in `(0-2147483647-1)/(0-1)` the left
operand evaluates to `INT_MIN`, the right one to `-1`, the division overflows and
the process is killed by `SIGFPE` instead of returning a quotient or throwing. -/
theorem C4_division_overflow :
    parse_source "(0-2147483647-1)/(0-1)" =
      some (.ok (.Division (.Subtraction (.Subtraction (.Num 0) (.Num 2147483647)) (.Num 1))
        (.Subtraction (.Num 0) (.Num 1)))) ∧
    eval left_to_right (.Subtraction (.Subtraction (.Num 0) (.Num 2147483647)) (.Num 1)) [] =
      (.ok (-2147483648), []) ∧
    eval left_to_right (.Subtraction (.Num 0) (.Num 1)) [] = (.ok (-1), []) ∧
    main_try left_to_right [] "(0-2147483647-1)/(0-1)" = some (.error .SIGFPE, []) ∧
    main_try left_to_right [] "6/2" = some (.ok 3, []) ∧
    main_try left_to_right [] "1/0" = some (.error DivisionByZero, []) ∧
    main_try left_to_right [] "(0-7)/2" = some (.ok (-3), []) := by
  have hp : parse_source "(0-2147483647-1)/(0-1)" =
      some (.ok (.Division (.Subtraction (.Subtraction (.Num 0) (.Num 2147483647)) (.Num 1))
        (.Subtraction (.Num 0) (.Num 1)))) :=
    parse_source_eq _ _ _ lex_min_by_minus_one (by decide)
  have l1 : lex "6/2" = .ok [⟨.Number, "6"⟩, ⟨.Div, "/"⟩, ⟨.Number, "2"⟩] := by
    simp [lex, lex_loop, lex_run, isdigit, isalpha, isspace, single_token]
    decide
  have l2 : lex "1/0" = .ok [⟨.Number, "1"⟩, ⟨.Div, "/"⟩, ⟨.Number, "0"⟩] := by
    simp [lex, lex_loop, lex_run, isdigit, isalpha, isspace, single_token]
    decide
  have l3 : lex "(0-7)/2" = .ok [⟨.LParen, "("⟩, ⟨.Number, "0"⟩, ⟨.Minus, "-"⟩,
      ⟨.Number, "7"⟩, ⟨.RParen, ")"⟩, ⟨.Div, "/"⟩, ⟨.Number, "2"⟩] := by
    simp [lex, lex_loop, lex_run, isdigit, isalpha, isspace, single_token]
    decide
  have p1 : parse_source "6/2" = some (.ok (.Division (.Num 6) (.Num 2))) :=
    parse_source_eq _ _ _ l1 (by decide)
  have p2 : parse_source "1/0" = some (.ok (.Division (.Num 1) (.Num 0))) :=
    parse_source_eq _ _ _ l2 (by decide)
  have p3 : parse_source "(0-7)/2" =
      some (.ok (.Division (.Subtraction (.Num 0) (.Num 7)) (.Num 2))) :=
    parse_source_eq _ _ _ l3 (by decide)
  exact ⟨hp, by decide, by decide,
    (main_try_eval _ _ _ _ hp).trans (by decide),
    (main_try_eval _ _ _ _ p1).trans (by decide),
    (main_try_eval _ _ _ _ p2).trans (by decide),
    (main_try_eval _ _ _ _ p3).trans (by decide)⟩

/-! ## Assignment and variables -/

theorem env_find_set_same (env : Env) (name : String) (v : Int) :
    env_find (env_set env name v) name = some v := by
  induction env with
  | nil => simp [env_set, env_find]
  | cons p rest ih =>
    obtain ⟨k, w⟩ := p
    by_cases hk : k = name
    · simp [env_set, env_find, hk]
    · simp [env_set, env_find, hk, ih]

theorem env_find_set_other (env : Env) (name other : String) (v : Int) (h : other ≠ name) :
    env_find (env_set env name v) other = env_find env other := by
  induction env with
  | nil => simp [env_set, env_find, Ne.symm h]
  | cons p rest ih =>
    obtain ⟨k, w⟩ := p
    by_cases hk : k = name
    · have : ¬ k = other := fun h1 => h (h1.symm.trans hk)
      simp [env_set, env_find, hk, this, Ne.symm h]
    · by_cases ho : k = other
      · subst ho
        simp [env_set, env_find, hk]
      · simp [env_set, env_find, hk, ho, ih]

theorem eval_variable (o : OperandOrder) (name : String) (env : Env) :
    eval o (.Variable name) env = (env_at env name, env) := rfl

theorem eval_variable_bound (o : OperandOrder) (name : String) (env : Env) (v : Int)
    (h : env_find env name = some v) : eval o (.Variable name) env = (.ok v, env) := by
  rw [eval_variable]; simp only [env_at, h]

theorem eval_variable_unbound (o : OperandOrder) (name : String) (env : Env)
    (h : env_find env name = none) :
    eval o (.Variable name) env = (.error .out_of_range, env) := by
  rw [eval_variable]; simp only [env_at, h]

theorem eval_assignment (o : OperandOrder) (name : String) (val : Expr) (env env1 : Env)
    (v : Int) (h : eval o val env = (.ok v, env1)) :
    eval o (.Assignment name val) env = (.ok v, env_set env1 name v) := by
  have h1 : eval o (.Assignment name val) env =
      match eval o val env with
      | (.error e, env1) => (.error e, env1)
      | (.ok v, env1) => (.ok v, env_set env1 name v) := rfl
  rw [h1, h]

theorem eval_seq (o : OperandOrder) (left right : Expr) (env env1 : Env) (v : Int)
    (h : eval o left env = (.ok v, env1)) :
    eval o (.Seq left right) env = eval o right env1 := by
  have h1 : eval o (.Seq left right) env =
      match eval o left env with
      | (.error e, env1) => (.error e, env1)
      | (.ok _, env1) => eval o right env1 := rfl
  rw [h1, h]

theorem assign_name_error {tokens : List Token} {curr : Nat} {tok tok1 : Token}
    {e : Exception} (ht : tokens[curr]? = some tok) (ht1 : tokens[curr + 1]? = some tok1)
    (hk : tok.kind = .Name) (hk1 : tok1.kind = .Assign)
    (hr : Returns (fun fuel => parse_addition fuel (curr + 2) tokens) (.error e)) :
    Returns (fun fuel => parse_assign fuel curr tokens) (.error e) := by
  obtain ⟨fuel, h1⟩ := hr
  beta_reduce at h1
  exact ⟨fuel + 1, by
    beta_reduce; rw [parse_assign_succ]; simp [ht, ht1, hk, hk1, and_then, h1]⟩

theorem lex_assign_then (n v a b : String) (hn : is_name n) (hv : is_number_literal v)
    (ha : is_number_literal a) (hb : is_number_literal b) :
    lex (n ++ "=" ++ v ++ ";" ++ "(" ++ n ++ "+" ++ a ++ ")" ++ "*" ++ b) =
      .ok [⟨.Name, n⟩, ⟨.Assign, "="⟩, ⟨.Number, v⟩, ⟨.Semicolon, ";"⟩, ⟨.LParen, "("⟩,
        ⟨.Name, n⟩, ⟨.Plus, "+"⟩, ⟨.Number, a⟩, ⟨.RParen, ")"⟩, ⟨.Mult, "*"⟩,
        ⟨.Number, b⟩] := by
  refine lex_of_tokens _ _ (by simp [source_of]) ?_ (by simp [separated])
  simp only [List.mem_cons, List.mem_singleton, forall_eq_or_imp, forall_eq,
    List.not_mem_nil, false_imp_iff, implies_true, and_true]
  exact ⟨token_ok_name hn, token_ok_symbol '=' rfl rfl, token_ok_number hv,
    token_ok_symbol ';' rfl rfl, token_ok_symbol '(' rfl rfl, token_ok_name hn,
    token_ok_symbol '+' rfl rfl, token_ok_number ha, token_ok_symbol ')' rfl rfl,
    token_ok_symbol '*' rfl rfl, token_ok_number hb⟩

theorem parse_source_assign_then (n v a b : String) (hn : is_name n)
    (hv : is_number_literal v) (ha : is_number_literal a) (hb : is_number_literal b)
    (hvv : literal_value v ≤ INT_MAX) (hva : literal_value a ≤ INT_MAX)
    (hvb : literal_value b ≤ INT_MAX) :
    parse_source (n ++ "=" ++ v ++ ";" ++ "(" ++ n ++ "+" ++ a ++ ")" ++ "*" ++ b) =
      some (.ok (.Seq (.Assignment n (.Num (literal_value v)))
        (.Multiplication (.Addition (.Variable n) (.Num (literal_value a)))
          (.Num (literal_value b))))) := by
  have sv := stoi_literal hv hvv
  have sa := stoi_literal ha hva
  have sb := stoi_literal hb hvb
  refine parse_source_eq _ _ _ (lex_assign_then n v a b hn hv ha hb) ?_
  apply parse_ok_of_returns
  exact expr_of (seq_of
    (assign_name rfl rfl rfl rfl (addition_of
      (multiplication_of (term_number rfl rfl sv) (multiplication_loop_other _ rfl rfl))
      (addition_loop_other _ rfl rfl)))
    (seq_loop_semicolon rfl rfl
      (assign_other rfl (addition_of
        (multiplication_of
          (term_paren rfl rfl
            (expr_of (seq_of (assign_other rfl (addition_of
              (multiplication_of (term_name rfl rfl) (multiplication_loop_other _ rfl rfl))
              (addition_loop_plus rfl rfl
                (multiplication_of (term_number rfl rfl sa)
                  (multiplication_loop_other _ rfl rfl))
                (addition_loop_other _ rfl rfl))))
              (seq_loop_other _ rfl rfl)))
            rfl rfl)
          (multiplication_loop_mult rfl rfl (term_number rfl rfl sb)
            (multiplication_loop_end _ rfl)))
        (addition_loop_end _ rfl)))
      (seq_loop_end _ rfl)))

theorem parse_source_name (n : String) (hn : is_name n) :
    parse_source n = some (.ok (.Variable n)) := by
  refine parse_source_eq _ [⟨.Name, n⟩] _
    (lex_of_tokens _ _ (by simp [source_of]) ?_ (by simp [separated])) ?_
  · simp only [List.mem_singleton, forall_eq]
    exact token_ok_name hn
  · apply parse_ok_of_returns
    exact expr_of (seq_of (assign_other rfl (addition_of
      (multiplication_of (term_name rfl rfl) (multiplication_loop_end _ rfl))
      (addition_loop_end _ rfl))) (seq_loop_end _ rfl))

theorem eval_assign_then (o : OperandOrder) (env : Env) (n : String) (v a b : Int) :
    eval o (.Seq (.Assignment n (.Num v))
      (.Multiplication (.Addition (.Variable n) (.Num a)) (.Num b))) env =
      (.ok (wrap_int (wrap_int (v + a) * b)), env_set env n v) := by
  rw [eval_seq o _ _ env _ v (eval_assignment o n (.Num v) env env v rfl)]
  exact eval_multiplication_pure o _ _ _ _ _
    (eval_addition_pure o _ _ _ _ _
      (eval_variable_bound o n _ v (env_find_set_same env n v)) rfl) rfl

/-- C5 (as amended): assignment persists across statements and across inputs. For
every alphabetic name `n`, number literals `v`, `a`, `b` whose values are at most
`INT_MAX = 2147483647` and every starting environment, `parse(lex("n=v;(n+a)*b"))`
is `Seq(Assignment(n, Num v), Multiplication(Addition(Variable n, Num a), Num b))`;
evaluating it yields `(v+a)*b` when `v+a` and `(v+a)*b` are at most `INT_MAX`, and
leaves `n` bound to `v`; evaluating `parse(lex("n"))` afterwards in the resulting
environment yields `v`. -/
theorem C5_assignment_persists (o : OperandOrder) (env : Env) (n v a b : String)
    (hn : is_name n) (hv : is_number_literal v) (ha : is_number_literal a)
    (hb : is_number_literal b) (hvv : literal_value v ≤ INT_MAX)
    (hva : literal_value a ≤ INT_MAX) (hvb : literal_value b ≤ INT_MAX)
    (hs : literal_value v + literal_value a ≤ INT_MAX)
    (hp : (literal_value v + literal_value a) * literal_value b ≤ INT_MAX) :
    main_try o env (n ++ "=" ++ v ++ ";" ++ "(" ++ n ++ "+" ++ a ++ ")" ++ "*" ++ b) =
      some (.ok ((literal_value v + literal_value a) * literal_value b),
        env_set env n (literal_value v)) ∧
    env_find (env_set env n (literal_value v)) n = some (literal_value v) ∧
    main_try o (env_set env n (literal_value v)) n =
      some (.ok (literal_value v), env_set env n (literal_value v)) := by
  have nv := literal_value_nonneg v
  have na := literal_value_nonneg a
  have nb := literal_value_nonneg b
  have np : 0 ≤ (literal_value v + literal_value a) * literal_value b :=
    Int.mul_nonneg (by omega) nb
  refine ⟨?_, env_find_set_same _ _ _, ?_⟩
  · rw [main_try_eval o env _ _ (parse_source_assign_then n v a b hn hv ha hb hvv hva hvb),
      eval_assign_then, wrap_int_of_range (x := literal_value v + literal_value a),
      wrap_int_of_range]
    · simp only [in_int_range, INT_MIN, INT_MAX] at *; omega
    · simp only [in_int_range, INT_MIN, INT_MAX] at *; omega
  · rw [main_try_eval o _ _ _ (parse_source_name n hn),
      eval_variable_bound o n _ _ (env_find_set_same _ _ _)]

/-- C5, witness: `x=4;(x+5)*2` gives 18 and leaves `x` bound to 4; then `x` gives 4. -/
theorem C5_assignment_persists_witness :
    is_name "x" ∧ is_number_literal "4" ∧ is_number_literal "5" ∧ is_number_literal "2" ∧
    main_try left_to_right [] "x=4;(x+5)*2" = some (.ok 18, [("x", 4)]) ∧
    main_try left_to_right [("x", 4)] "x" = some (.ok 4, [("x", 4)]) :=
  have h := C5_assignment_persists left_to_right [] "x" "4" "5" "2" (by decide) (by decide)
    (by decide) (by decide) (by decide) (by decide) (by decide) (by decide) (by decide)
  ⟨by decide, by decide, by decide, by decide, h.1, h.2.2⟩

/-- C5 as stated fails: the literal `2147483648` is not accepted by `std::stoi`, so
`x=2147483648;(x+5)*2` is not evaluated and `x` is not bound, and the sum
`2147483647+1` is not an `int`, so `x=2147483647;(x+1)*2` does not yield
`(2147483647+1)*2`. -/
theorem C5_counterexample :
    main_try left_to_right [] "x=2147483648;(x+5)*2" = some (.error .out_of_range, []) ∧
    main_try left_to_right [] "x=2147483647;(x+1)*2" ≠
      some (.ok ((2147483647 + 1) * 2), [("x", 2147483647)]) := by
  constructor
  · refine main_try_parse_error _ _ _ _ (parse_source_eq _ _ _
      (lex_assign_then "x" "2147483648" "5" "2" (by decide) (by decide) (by decide)
        (by decide)) ?_)
    apply parse_error_of_returns
    exact expr_of (seq_error (assign_name_error rfl rfl rfl rfl (addition_error
      (multiplication_error (term_number_error rfl rfl
        (stoi_literal_big (by decide) (by decide)))))))
  · have h := main_try_eval left_to_right [] _ _
      (parse_source_assign_then "x" "2147483647" "1" "2" (by decide) (by decide)
        (by decide) (by decide) (by decide) (by decide) (by decide))
    rw [eval_assign_then] at h
    intro h1
    exact absurd (h.symm.trans h1) (by decide)

/-! ## Undefined variables -/

theorem parse_source_name_plus (n a : String) (hn : is_name n) (ha : is_number_literal a)
    (hva : literal_value a ≤ INT_MAX) :
    parse_source (n ++ "+" ++ a) =
      some (.ok (.Addition (.Variable n) (.Num (literal_value a)))) := by
  have sa := stoi_literal ha hva
  refine parse_source_eq _ [⟨.Name, n⟩, ⟨.Plus, "+"⟩, ⟨.Number, a⟩] _
    (lex_of_tokens _ _ (by simp [source_of]) ?_ (by simp [separated])) ?_
  · simp only [List.mem_cons, List.mem_singleton, forall_eq_or_imp, forall_eq,
      List.not_mem_nil, false_imp_iff, implies_true, and_true]
    exact ⟨token_ok_name hn, token_ok_symbol '+' rfl rfl, token_ok_number ha⟩
  · apply parse_ok_of_returns
    exact expr_of (seq_of (assign_other rfl (addition_of
      (multiplication_of (term_name rfl rfl) (multiplication_loop_other _ rfl rfl))
      (addition_loop_plus rfl rfl
        (multiplication_of (term_number rfl rfl sa) (multiplication_loop_end _ rfl))
        (addition_loop_end _ rfl)))) (seq_loop_end _ rfl))

/-- An `Addition` of an unbound variable and a literal throws what `Env::at` throws,
whichever operand is evaluated first. -/
theorem eval_unbound_plus (o : OperandOrder) (n : String) (a : Int) (env : Env)
    (h : env_find env n = none) :
    eval o (.Addition (.Variable n) (.Num a)) env = (.error .out_of_range, env) := by
  have h1 : eval o (.Addition (.Variable n) (.Num a)) env =
      match eval_operands o.addition_right_first (eval o (.Variable n)) (eval o (.Num a))
        env with
      | (.error e, env1) => (.error e, env1)
      | (.ok (a, b), env1) => (.ok (wrap_int (a + b)), env1) := rfl
  rw [h1]
  cases o.addition_right_first <;>
    simp [eval_operands, eval_num, eval_variable_unbound o n env h]

/-- C6 (as amended): evaluating a `Variable` node whose name has no entry in the
environment fails with the `std::out_of_range` exception of `Env::at`, which does
not carry the name, and leaves the environment as it was; evaluating it when the
name is bound returns the bound value; in particular evaluating `parse(lex("y+1"))`
in an environment with no binding of `y` fails with that exception. -/
theorem C6_undefined_variable (o : OperandOrder) (name : String) (env : Env) :
    (env_find env name = none →
      eval o (.Variable name) env = (.error .out_of_range, env)) ∧
    (∀ v, env_find env name = some v → eval o (.Variable name) env = (.ok v, env)) ∧
    (env_find env "y" = none →
      main_try o env "y+1" = some (.error .out_of_range, env)) := by
  refine ⟨eval_variable_unbound o name env, fun v => eval_variable_bound o name env v,
    fun h => ?_⟩
  have hp := parse_source_name_plus "y" "1" (by decide) (by decide) (by decide)
  exact (main_try_eval o env _ _ hp).trans (congrArg some (eval_unbound_plus o "y" _ env h))

/-- C6, witness: with only `x` bound to 4, `y` and `y+1` fail and `x` gives 4. -/
theorem C6_undefined_variable_witness :
    env_find [("x", 4)] "y" = none ∧
    eval left_to_right (.Variable "y") [("x", 4)] = (.error .out_of_range, [("x", 4)]) ∧
    eval left_to_right (.Variable "x") [("x", 4)] = (.ok 4, [("x", 4)]) ∧
    main_try left_to_right [("x", 4)] "y+1" = some (.error .out_of_range, [("x", 4)]) :=
  ⟨by decide,
    (C6_undefined_variable left_to_right "y" [("x", 4)]).1 (by decide),
    (C6_undefined_variable left_to_right "x" [("x", 4)]).2.1 4 (by decide),
    (C6_undefined_variable left_to_right "y" [("x", 4)]).2.2 (by decide)⟩

/-- C6 as stated fails: the exception thrown for the unbound name `y` is the one
thrown for the unbound name `z`, so no name can be read off it. -/
theorem C6_counterexample :
    (eval left_to_right (.Variable "y") []).1 = (eval left_to_right (.Variable "z") []).1 ∧
    ¬ ∃ name_of : Exception → String, ∀ name e,
      (eval left_to_right (.Variable name) []).1 = .error e → name_of e = name := by
  refine ⟨rfl, ?_⟩
  rintro ⟨name_of, h⟩
  have hy := h "y" .out_of_range rfl
  have hz := h "z" .out_of_range rfl
  rw [hy] at hz
  exact absurd hz (by decide)

/-! ## Unknown characters -/

theorem single_token_none_iff (c : Char) :
    single_token c = none ↔ c ∉ ['+', '-', '*', '/', '(', ')', '=', ';'] := by
  unfold single_token
  split_ifs <;> simp_all

theorem recognized_false_iff (c : Char) :
    recognized c = false ↔
      isdigit c = false ∧ isalpha c = false ∧ isspace c = false ∧ single_token c = none := by
  rw [single_token_none_iff]
  simp only [recognized, Bool.or_eq_false_iff, decide_eq_false_iff_not]
  tauto

theorem find_dropWhile (p bad : Char → Bool) (hp : ∀ c, p c = true → bad c = false)
    (cs : List Char) : cs.find? bad = (cs.dropWhile p).find? bad := by
  induction cs with
  | nil => rfl
  | cons c cs ih =>
    by_cases hc : p c = true
    · simp [List.dropWhile, hc, List.find?, hp c hc, ih]
    · simp [List.dropWhile, hc]

/-- What `lex` does from any position: it throws for the first unrecognized
character of the rest of the input, and returns when there is none. -/
theorem lex_loop_spec (n : Nat) : ∀ (cs : List Char) (tokens : List Token), cs.length ≤ n →
    (cs.find? (fun c => !recognized c) = none → ∃ out, lex_loop cs tokens = .ok out) ∧
    (∀ c, cs.find? (fun c => !recognized c) = some c →
      lex_loop cs tokens = .error (unknown_character c)) := by
  induction n with
  | zero =>
    intro cs tokens hlen
    have : cs = [] := List.length_eq_zero.1 (Nat.le_zero.1 hlen)
    subst this
    exact ⟨fun _ => ⟨tokens, lex_loop_nil tokens⟩, fun c h => by simp at h⟩
  | succ n ih =>
    intro cs tokens hlen
    cases cs with
    | nil => exact ⟨fun _ => ⟨tokens, lex_loop_nil tokens⟩, fun c h => by simp at h⟩
    | cons c rest =>
      have hrest : rest.length ≤ n := Nat.le_of_succ_le_succ hlen
      by_cases hd : isdigit c = true
      · have hl : (lex_run isdigit (c :: rest) "").2.length ≤ n :=
          Nat.le_of_lt_succ (Nat.lt_of_lt_of_le (lex_run_length_lt _ _ _ _ hd) hlen)
        have hf : (c :: rest).find? (fun c => !recognized c) =
            (lex_run isdigit (c :: rest) "").2.find? (fun c => !recognized c) := by
          rw [lex_run_eq]
          exact find_dropWhile isdigit _ (fun c hc => by simp [recognized, hc]) _
        have he : lex_loop (c :: rest) tokens =
            lex_loop (lex_run isdigit (c :: rest) "").2
              (tokens ++ [⟨.Number, (lex_run isdigit (c :: rest) "").1⟩]) := by
          rw [lex_loop]; simp only [hd, dite_true]
        rw [hf, he]
        exact ih _ _ hl
      · by_cases ha : isalpha c = true
        · have hl : (lex_run isalpha (c :: rest) "").2.length ≤ n :=
            Nat.le_of_lt_succ (Nat.lt_of_lt_of_le (lex_run_length_lt _ _ _ _ ha) hlen)
          have hf : (c :: rest).find? (fun c => !recognized c) =
              (lex_run isalpha (c :: rest) "").2.find? (fun c => !recognized c) := by
            rw [lex_run_eq]
            exact find_dropWhile isalpha _ (fun c hc => by simp [recognized, hc]) _
          have he : lex_loop (c :: rest) tokens =
              lex_loop (lex_run isalpha (c :: rest) "").2
                (tokens ++ [⟨.Name, (lex_run isalpha (c :: rest) "").1⟩]) := by
            have hd1 : isdigit c = false := by simpa using hd
            rw [lex_loop]; simp [hd1, ha]
          rw [hf, he]
          exact ih _ _ hl
        · by_cases hs : isspace c = true
          · have hf : (c :: rest).find? (fun c => !recognized c) =
                rest.find? (fun c => !recognized c) := by
              simp [List.find?, recognized, hs]
            rw [hf, lex_loop_space c rest tokens hs]
            exact ih _ _ hrest
          · cases ht : single_token c with
            | some tok =>
              have hr : recognized c = true := by
                cases h : recognized c
                · rw [recognized_false_iff] at h
                  rw [h.2.2.2] at ht; cases ht
                · rfl
              have hf : (c :: rest).find? (fun c => !recognized c) =
                  rest.find? (fun c => !recognized c) := by
                simp [List.find?, hr]
              rw [hf, lex_loop_single c rest tokens tok ht]
              exact ih _ _ hrest
            | none =>
              have hd1 : isdigit c = false := by simpa using hd
              have ha1 : isalpha c = false := by simpa using ha
              have hs1 : isspace c = false := by simpa using hs
              have hr : recognized c = false :=
                (recognized_false_iff c).2 ⟨hd1, ha1, hs1, ht⟩
              have hf : (c :: rest).find? (fun c => !recognized c) = some c := by
                simp [List.find?, hr]
              rw [hf, lex_loop_unknown c rest tokens hd1 ha1 hs1 ht]
              refine ⟨fun h => ?_, fun c1 h => ?_⟩
              · cases h
              · cases h; rfl

/-- C7: `lex` fails if and only if the source contains a character that is not a
decimal digit, not alphabetic, not white space and not one of `+ - * / ( ) = ;`.
When the source has such a character, `lex` throws the `runtime_error` whose text
is `Unknown character: ` followed by the first such character `c` of the source;
every failure of `lex` is that exception; and the text identifies the character:
its last character is `c`, so two different characters give two different texts. -/
theorem C7_lex_fails_iff (source : String) :
    ((∃ e, lex source = .error e) ↔ ∃ c ∈ source.toList, recognized c = false) ∧
    (∀ c, source.toList.find? (fun c => !recognized c) = some c →
      lex source = .error (.runtime_error ("Unknown character: ".push c)) ∧
      ("Unknown character: ".push c).toList = "Unknown character: ".toList ++ [c] ∧
      ("Unknown character: ".push c).toList.getLast? = some c) ∧
    (∀ e, lex source = .error e →
      ∃ c, source.toList.find? (fun c => !recognized c) = some c ∧
        e = .runtime_error ("Unknown character: ".push c)) ∧
    (∀ c d : Char, "Unknown character: ".push c = "Unknown character: ".push d → c = d) := by
  have hspec := lex_loop_spec source.toList.length source.toList [] (Nat.le_refl _)
  have hmsg : ∀ c, source.toList.find? (fun c => !recognized c) = some c →
      lex source = .error (.runtime_error ("Unknown character: ".push c)) :=
    fun c hc => hspec.2 c hc
  refine ⟨⟨?_, ?_⟩, fun c hc => ⟨hmsg c hc, rfl, by simp [String.push]⟩, ?_, ?_⟩
  · rintro ⟨e, he⟩
    cases hf : source.toList.find? (fun c => !recognized c) with
    | none =>
      obtain ⟨out, hout⟩ := hspec.1 hf
      unfold lex at he
      rw [hout] at he; cases he
    | some c =>
      exact ⟨c, List.mem_of_find?_eq_some hf, by simpa using List.find?_some hf⟩
  · rintro ⟨c, hc, hr⟩
    cases hf : source.toList.find? (fun c => !recognized c) with
    | none =>
      have := List.find?_eq_none.1 hf c hc
      simp [hr] at this
    | some c1 => exact ⟨_, hmsg c1 hf⟩
  · intro e he
    cases hf : source.toList.find? (fun c => !recognized c) with
    | none =>
      obtain ⟨out, hout⟩ := hspec.1 hf
      unfold lex at he
      rw [hout] at he; cases he
    | some c =>
      refine ⟨c, rfl, ?_⟩
      have h1 := hmsg c hf
      rw [he] at h1
      exact Except.error.inj h1
  · intro c d h
    have h1 : ("Unknown character: ".push c).toList.getLast? =
        ("Unknown character: ".push d).toList.getLast? := by rw [h]
    simpa [String.push] using h1

/-- C7, witness: `1 & 2` fails naming `&`. -/
theorem C7_lex_fails_iff_witness :
    "1 & 2".toList.find? (fun c => !recognized c) = some '&' ∧
    lex "1 & 2" = .error (.runtime_error "Unknown character: &") :=
  ⟨by decide, ((C7_lex_fails_iff "1 & 2").2.1 '&' (by decide)).1⟩

/-! ## Parentheses -/

/-- At an opening parenthesis, when no token is a closing one, `parse_term` throws. -/
theorem term_unclosed {tokens : List Token} {curr : Nat} {tok : Token}
    (ht : tokens[curr]? = some tok) (hk : tok.kind = .LParen)
    (hno : ∀ t ∈ tokens, t.kind ≠ .RParen) :
    ∃ e, Returns (fun fuel => parse_term fuel curr tokens) (.error e) := by
  obtain ⟨r, hr⟩ := parse_expr_returns (curr + 1) tokens
  cases r with
  | error e =>
    exact ⟨e, 6 * (tokens.length - (curr + 1)) + 6 + 1, by
      beta_reduce; rw [parse_term_succ]; simp [ht, hk, hr, and_then]⟩
  | ok p =>
    obtain ⟨expr, curr1⟩ := p
    refine ⟨unclosed_parenthesis, 6 * (tokens.length - (curr + 1)) + 6 + 1, ?_⟩
    beta_reduce
    rw [parse_term_succ]
    simp only [ht, hk, hr, and_then]
    cases h1 : tokens[curr1]? with
    | none => rfl
    | some tok1 =>
      have hmem : tok1 ∈ tokens := List.getElem?_mem h1
      simp [hno tok1 hmem]

/-- C8: an opening parenthesis requires a matching closing one: `parse` fails on
every token sequence whose first token is `LParen` and which contains no `RParen`
token. -/
theorem C8_unclosed_parenthesis (tokens : List Token) (tok : Token)
    (h0 : tokens.head? = some tok) (hk : tok.kind = .LParen)
    (hno : ∀ t ∈ tokens, t.kind ≠ .RParen) :
    ∃ e, parse tokens = some (.error e) := by
  cases tokens with
  | nil => cases h0
  | cons t rest =>
    simp only [List.head?_cons, Option.some.injEq] at h0
    subst h0
    have ht : (t :: rest)[0]? = some t := by simp
    obtain ⟨e, he⟩ := term_unclosed ht hk hno
    have hahead : assign_ahead (t :: rest) 0 = false := by
      unfold assign_ahead
      cases rest <;> simp [hk]
    exact ⟨e, parse_error_of_returns (expr_of (seq_error (assign_other hahead
      (addition_error (multiplication_error he)))))⟩

/-- C8, witness: the tokens of `(1+2` fail. -/
theorem C8_unclosed_parenthesis_witness :
    lex "(1+2" = .ok [⟨.LParen, "("⟩, ⟨.Number, "1"⟩, ⟨.Plus, "+"⟩, ⟨.Number, "2"⟩] ∧
    ∃ e, parse [⟨.LParen, "("⟩, ⟨.Number, "1"⟩, ⟨.Plus, "+"⟩, ⟨.Number, "2"⟩] =
      some (.error e) :=
  ⟨by simp [lex, lex_loop, lex_run, isdigit, isalpha, isspace, single_token]; decide,
    C8_unclosed_parenthesis _ ⟨.LParen, "("⟩ rfl rfl (by decide)⟩

/-! ## A second `=` -/

theorem parse_source_assign_assign (n m v : String) (hn : is_name n) (hm : is_name m)
    (hv : is_number_literal v) :
    parse_source (n ++ "=" ++ m ++ "=" ++ v) =
      some (.ok (.Assignment n (.Variable m))) := by
  refine parse_source_eq _
    [⟨.Name, n⟩, ⟨.Assign, "="⟩, ⟨.Name, m⟩, ⟨.Assign, "="⟩, ⟨.Number, v⟩] _
    (lex_of_tokens _ _ (by simp [source_of]) ?_ (by simp [separated])) ?_
  · simp only [List.mem_cons, List.mem_singleton, forall_eq_or_imp, forall_eq,
      List.not_mem_nil, false_imp_iff, implies_true, and_true]
    exact ⟨token_ok_name hn, token_ok_symbol '=' rfl rfl, token_ok_name hm,
      token_ok_symbol '=' rfl rfl, token_ok_number hv⟩
  · apply parse_ok_of_returns
    exact expr_of (seq_of
      (assign_name rfl rfl rfl rfl (addition_of
        (multiplication_of (term_name rfl rfl) (multiplication_loop_other _ rfl rfl))
        (addition_loop_other _ rfl rfl)))
      (seq_loop_other _ rfl rfl))

/-- C9 (as amended): assignment is not chainable, but the parser does not reject
the chain either: for all names `n`, `m` and every number literal `v`,
`parse(lex("n=m=v"))` returns `Assignment(n, Variable m)`, the right-hand side
being the `Addition` that ends before the second `=`; the tokens `=` and `v` are
left unread. Evaluating that tree binds `n` to the value of `m`, or throws the
exception of `Env::at` when `m` is unbound. -/
theorem C9_chained_assignment (o : OperandOrder) (env : Env) (n m v : String)
    (hn : is_name n) (hm : is_name m) (hv : is_number_literal v) :
    parse_source (n ++ "=" ++ m ++ "=" ++ v) =
      some (.ok (.Assignment n (.Variable m))) ∧
    (env_find env m = none →
      main_try o env (n ++ "=" ++ m ++ "=" ++ v) = some (.error .out_of_range, env)) ∧
    (∀ w, env_find env m = some w →
      main_try o env (n ++ "=" ++ m ++ "=" ++ v) = some (.ok w, env_set env n w)) := by
  have hp := parse_source_assign_assign n m v hn hm hv
  refine ⟨hp, fun h => ?_, fun w h => ?_⟩
  · rw [main_try_eval o env _ _ hp]
    have h1 : eval o (.Assignment n (.Variable m)) env =
        match eval o (.Variable m) env with
        | (.error e, env1) => (.error e, env1)
        | (.ok v, env1) => (.ok v, env_set env1 n v) := rfl
    rw [h1, eval_variable_unbound o m env h]
  · rw [main_try_eval o env _ _ hp,
      eval_assignment o n _ env env w (eval_variable_bound o m env w h)]

/-- C9, witness: `x=y=1` with `y` bound to 5 binds `x` to 5; the `1` is never read. -/
theorem C9_chained_assignment_witness :
    is_name "x" ∧ is_name "y" ∧ is_number_literal "1" ∧
    main_try left_to_right [("y", 5)] "x=y=1" = some (.ok 5, [("y", 5), ("x", 5)]) :=
  ⟨by decide, by decide, by decide,
    (C9_chained_assignment left_to_right [("y", 5)] "x" "y" "1" (by decide) (by decide)
      (by decide)).2.2 5 (by decide)⟩

/-- C9 as stated fails: `parse(lex("x=y=1"))` does not fail, it returns the tree
`Assignment(x, Variable y)`. -/
theorem C9_counterexample :
    lex "x=y=1" = .ok [⟨.Name, "x"⟩, ⟨.Assign, "="⟩, ⟨.Name, "y"⟩, ⟨.Assign, "="⟩,
      ⟨.Number, "1"⟩] ∧
    parse [⟨.Name, "x"⟩, ⟨.Assign, "="⟩, ⟨.Name, "y"⟩, ⟨.Assign, "="⟩, ⟨.Number, "1"⟩] =
      some (.ok (.Assignment "x" (.Variable "y"))) ∧
    parse_source "x=y=1" = some (.ok (.Assignment "x" (.Variable "y"))) := by
  have hl : lex "x=y=1" = .ok [⟨.Name, "x"⟩, ⟨.Assign, "="⟩, ⟨.Name, "y"⟩,
      ⟨.Assign, "="⟩, ⟨.Number, "1"⟩] := by
    simp [lex, lex_loop, lex_run, isdigit, isalpha, isspace, single_token]
    decide
  have hp : parse [⟨.Name, "x"⟩, ⟨.Assign, "="⟩, ⟨.Name, "y"⟩, ⟨.Assign, "="⟩,
      ⟨.Number, "1"⟩] = some (.ok (.Assignment "x" (.Variable "y"))) := by
    decide
  exact ⟨hl, hp, parse_source_eq _ _ _ hl hp⟩

/-! ## No rollback -/

theorem eval_operands_keeps (P : Env → Prop) (right_first : Bool)
    (l r : Env → Except Exception Int × Env)
    (hl : ∀ env, P env → P (l env).2) (hr : ∀ env, P env → P (r env).2)
    (env : Env) (h : P env) : P (eval_operands right_first l r env).2 := by
  cases right_first
  · simp only [eval_operands, Bool.false_eq_true, if_false]
    have h1 := hl env h
    split
    · rename_i e env1 he; rw [he] at h1; exact h1
    · rename_i a env1 he
      rw [he] at h1
      have h2 := hr env1 h1
      split
      · rename_i e env2 he2; rw [he2] at h2; exact h2
      · rename_i b env2 he2; rw [he2] at h2; exact h2
  · simp only [eval_operands, if_true]
    have h1 := hr env h
    split
    · rename_i e env1 he; rw [he] at h1; exact h1
    · rename_i a env1 he
      rw [he] at h1
      have h2 := hl env1 h1
      split
      · rename_i e env2 he2; rw [he2] at h2; exact h2
      · rename_i b env2 he2; rw [he2] at h2; exact h2

theorem env_set_keeps_bound (env : Env) (name other : String) (v : Int)
    (h : env_find env other ≠ none) : env_find (env_set env name v) other ≠ none := by
  by_cases hn : other = name
  · subst hn; rw [env_find_set_same]; exact fun hc => by cases hc
  · rw [env_find_set_other env name other v hn]; exact h

/-- Evaluation never removes a binding, whether it returns or throws. -/
theorem eval_keeps_bound (o : OperandOrder) (name : String) (expr : Expr) :
    ∀ env, env_find env name ≠ none → env_find (eval o expr env).2 name ≠ none := by
  induction expr with
  | Num val => intro env h; exact h
  | Variable n => intro env h; exact h
  | Addition l r ihl ihr =>
    intro env h
    have hk := eval_operands_keeps (fun env => env_find env name ≠ none)
      o.addition_right_first (eval o l) (eval o r) ihl ihr env h
    simp only [eval]
    split
    · rename_i e env1 he; rw [he] at hk; exact hk
    · rename_i a b env1 he; rw [he] at hk; exact hk
  | Subtraction l r ihl ihr =>
    intro env h
    have hk := eval_operands_keeps (fun env => env_find env name ≠ none)
      o.subtraction_right_first (eval o l) (eval o r) ihl ihr env h
    simp only [eval]
    split
    · rename_i e env1 he; rw [he] at hk; exact hk
    · rename_i a b env1 he; rw [he] at hk; exact hk
  | Multiplication l r ihl ihr =>
    intro env h
    have hk := eval_operands_keeps (fun env => env_find env name ≠ none)
      o.multiplication_right_first (eval o l) (eval o r) ihl ihr env h
    simp only [eval]
    split
    · rename_i e env1 he; rw [he] at hk; exact hk
    · rename_i a b env1 he; rw [he] at hk; exact hk
  | Division l r ihl ihr =>
    intro env h
    have h1 := ihl env h
    simp only [eval]
    split
    · rename_i e env1 he; rw [he] at h1; exact h1
    · rename_i a env1 he
      rw [he] at h1
      have h2 := ihr env1 h1
      split
      · rename_i e env2 he2; rw [he2] at h2; exact h2
      · rename_i b env2 he2
        rw [he2] at h2
        split
        · exact h2
        · split
          · exact h2
          · exact h2
  | Assignment n val ih =>
    intro env h
    have h1 := ih env h
    simp only [eval]
    split
    · rename_i e env1 he; rw [he] at h1; exact h1
    · rename_i v env1 he
      rw [he] at h1
      exact env_set_keeps_bound env1 n name v h1
  | Seq l r ihl ihr =>
    intro env h
    have h1 := ihl env h
    simp only [eval]
    split
    · rename_i e env1 he; rw [he] at h1; exact h1
    · rename_i v env1 he
      rw [he] at h1
      exact ihr env1 h1

/-- C10: side effects performed before a failure are not rolled back. For every
`Seq(first, second)` and environment, if `first` evaluates successfully producing
environment `e1` and `second` then faults leaving `e2`, the whole `Seq` faults with
the same exception and leaves `e2`, the environment `e1` with the updates `second`
made before its fault; every name bound in `e1` is still bound. -/
theorem C10_no_rollback (o : OperandOrder) (first second : Expr) (env e1 e2 : Env)
    (v : Int) (x : Exception) (h1 : eval o first env = (.ok v, e1))
    (h2 : eval o second e1 = (.error x, e2)) :
    eval o (.Seq first second) env = (.error x, e2) ∧
    ∀ name, env_find e1 name ≠ none → env_find e2 name ≠ none := by
  refine ⟨by rw [eval_seq o first second env e1 v h1, h2], fun name h => ?_⟩
  have := eval_keeps_bound o name second e1 h
  rw [h2] at this
  exact this

/-- C10, witness: `a=1; a/0` in the empty environment: the assignment succeeds, the
division faults with `DivisionByZero`, and `a` stays bound to 1. -/
theorem C10_no_rollback_witness :
    eval left_to_right (.Assignment "a" (.Num 1)) [] = (.ok 1, [("a", 1)]) ∧
    eval left_to_right (.Division (.Variable "a") (.Num 0)) [("a", 1)] =
      (.error DivisionByZero, [("a", 1)]) ∧
    parse_source "a=1; a/0" = some (.ok (.Seq (.Assignment "a" (.Num 1))
      (.Division (.Variable "a") (.Num 0)))) ∧
    eval left_to_right (.Seq (.Assignment "a" (.Num 1))
      (.Division (.Variable "a") (.Num 0))) [] = (.error DivisionByZero, [("a", 1)]) ∧
    main_try left_to_right [] "a=1; a/0" = some (.error DivisionByZero, [("a", 1)]) := by
  have hl : lex "a=1; a/0" = .ok [⟨.Name, "a"⟩, ⟨.Assign, "="⟩, ⟨.Number, "1"⟩,
      ⟨.Semicolon, ";"⟩, ⟨.Name, "a"⟩, ⟨.Div, "/"⟩, ⟨.Number, "0"⟩] := by
    simp [lex, lex_loop, lex_run, isdigit, isalpha, isspace, single_token]
    decide
  have hp := parse_source_eq _ _ _ hl (by decide :
    parse [⟨.Name, "a"⟩, ⟨.Assign, "="⟩, ⟨.Number, "1"⟩, ⟨.Semicolon, ";"⟩,
      ⟨.Name, "a"⟩, ⟨.Div, "/"⟩, ⟨.Number, "0"⟩] =
      some (.ok (.Seq (.Assignment "a" (.Num 1)) (.Division (.Variable "a") (.Num 0)))))
  have he := (C10_no_rollback left_to_right (.Assignment "a" (.Num 1))
    (.Division (.Variable "a") (.Num 0)) [] [("a", 1)] [("a", 1)] 1 DivisionByZero
    (by decide) (by decide)).1
  exact ⟨by decide, by decide, hp, he, (main_try_eval _ _ _ _ hp).trans (congrArg some he)⟩

/-! ## Order of evaluation -/

/-- `Seq` and `Division` are written as two statements: the second operand always
runs in the environment the first one left, whatever the compiler chose for the
other operators. -/
theorem eval_sequenced (o : OperandOrder) (l r : Expr) (env env1 : Env) (a : Int)
    (hl : eval o l env = (.ok a, env1)) :
    eval o (.Seq l r) env = eval o r env1 ∧
    eval o (.Division l r) env =
      match eval o r env1 with
      | (.error e, env2) => (.error e, env2)
      | (.ok b, env2) =>
        if b = 0 then (.error DivisionByZero, env2)
        else if a = INT_MIN ∧ b = -1 then (.error .SIGFPE, env2)
        else (.ok (wrap_int (Int.tdiv a b)), env2) := by
  refine ⟨eval_seq o l r env env1 a hl, ?_⟩
  have h : eval o (.Division l r) env =
      match eval o l env with
      | (.error e, env1) => (.error e, env1)
      | (.ok l, env1) =>
        match eval o r env1 with
        | (.error e, env2) => (.error e, env2)
        | (.ok r, env2) =>
          if r = 0 then (.error DivisionByZero, env2)
          else if l = INT_MIN ∧ r = -1 then (.error .SIGFPE, env2)
          else (.ok (wrap_int (Int.tdiv l r)), env2) := rfl
  rw [h, hl]

/-- C12: for every `Assignment(n, e)` and environment `env`, if `e` evaluates to `v`
leaving environment `env1`, then the `Assignment` evaluates to `v` and leaves
exactly `env1` updated with `n` bound to `v`: `n` maps to `v` whether or not it was
bound before, and every other name has the binding (or absence of one) it has in
`env1`. If `e` faults leaving `env1`, the `Assignment` faults with the same
exception and leaves `env1`: `n` is not written. -/
theorem C12_assignment_frame (o : OperandOrder) (n : String) (e : Expr) (env env1 : Env) :
    (∀ v, eval o e env = (.ok v, env1) →
      eval o (.Assignment n e) env = (.ok v, env_set env1 n v) ∧
      env_find (env_set env1 n v) n = some v ∧
      ∀ other, other ≠ n → env_find (env_set env1 n v) other = env_find env1 other) ∧
    (∀ x, eval o e env = (.error x, env1) →
      eval o (.Assignment n e) env = (.error x, env1)) := by
  refine ⟨fun v h => ⟨eval_assignment o n e env env1 v h, env_find_set_same env1 n v,
    fun other ho => env_find_set_other env1 n other v ho⟩, fun x h => ?_⟩
  have h1 : eval o (.Assignment n e) env =
      match eval o e env with
      | (.error e, env1) => (.error e, env1)
      | (.ok v, env1) => (.ok v, env_set env1 n v) := rfl
  rw [h1, h]

/-- C12, witness: `x = y` with `y` bound to 5 and `x` to 1 overwrites `x` and
leaves `y`; `x = z` with `z` unbound faults and leaves `x` bound to 1. -/
theorem C12_assignment_frame_witness :
    eval left_to_right (.Assignment "x" (.Variable "y")) [("x", 1), ("y", 5)] =
      (.ok 5, [("x", 5), ("y", 5)]) ∧
    env_find [("x", 5), ("y", 5)] "y" = env_find [("x", 1), ("y", 5)] "y" ∧
    eval left_to_right (.Assignment "x" (.Variable "z")) [("x", 1), ("y", 5)] =
      (.error .out_of_range, [("x", 1), ("y", 5)]) :=
  have h := C12_assignment_frame left_to_right "x" (.Variable "y")
    [("x", 1), ("y", 5)] [("x", 1), ("y", 5)]
  have hz := C12_assignment_frame left_to_right "x" (.Variable "z")
    [("x", 1), ("y", 5)] [("x", 1), ("y", 5)]
  ⟨(h.1 5 (by decide)).1, (h.1 5 (by decide)).2.2 "y" (by decide),
    hz.2 .out_of_range (by decide)⟩

/-! ## Division by zero after both operands -/

/-- C16: the division-by-zero check happens only after both operands of a
`Division` node have been evaluated: for every `Division(l, r)` and environment
where `l` evaluates successfully leaving `env1` and `r` then evaluates to 0
leaving `env2`, evaluation fails with `DivisionByZero` and leaves `env2`, which
holds the updates made by `l` and then by `r`; every name bound in `env1` is
bound in `env2`. -/
theorem C16_division_by_zero_late (o : OperandOrder) (l r : Expr) (env env1 env2 : Env)
    (x : Int) (hl : eval o l env = (.ok x, env1)) (hr : eval o r env1 = (.ok 0, env2)) :
    eval o (.Division l r) env = (.error DivisionByZero, env2) ∧
    ∀ name, env_find env1 name ≠ none → env_find env2 name ≠ none := by
  refine ⟨?_, fun name h => ?_⟩
  · rw [eval_division o l r env env1 env2 x 0 hl hr, if_pos rfl]
  · have := eval_keeps_bound o name r env1 h
    rw [hr] at this
    exact this

theorem lex_division_of_assignments :
    lex "(x=1)/(y=0)" = .ok [⟨.LParen, "("⟩, ⟨.Name, "x"⟩, ⟨.Assign, "="⟩, ⟨.Number, "1"⟩,
      ⟨.RParen, ")"⟩, ⟨.Div, "/"⟩, ⟨.LParen, "("⟩, ⟨.Name, "y"⟩, ⟨.Assign, "="⟩,
      ⟨.Number, "0"⟩, ⟨.RParen, ")"⟩] := by
  simp [lex, lex_loop, lex_run, isdigit, isalpha, isspace, single_token]
  decide

/-- C16, witness: `(x=1)/(y=0)` in the empty environment fails with
`DivisionByZero` and leaves `x` bound to 1 and `y` bound to 0. -/
theorem C16_division_by_zero_late_witness :
    parse_source "(x=1)/(y=0)" = some (.ok (.Division (.Assignment "x" (.Num 1))
      (.Assignment "y" (.Num 0)))) ∧
    eval left_to_right (.Division (.Assignment "x" (.Num 1)) (.Assignment "y" (.Num 0))) [] =
      (.error DivisionByZero, [("x", 1), ("y", 0)]) ∧
    main_try left_to_right [] "(x=1)/(y=0)" =
      some (.error DivisionByZero, [("x", 1), ("y", 0)]) := by
  have hp : parse_source "(x=1)/(y=0)" = some (.ok (.Division (.Assignment "x" (.Num 1))
      (.Assignment "y" (.Num 0)))) :=
    parse_source_eq _ _ _ lex_division_of_assignments (by decide)
  have he := (C16_division_by_zero_late left_to_right (.Assignment "x" (.Num 1))
    (.Assignment "y" (.Num 0)) [] [("x", 1)] [("x", 1), ("y", 0)] 1
    (by decide) (by decide)).1
  exact ⟨hp, he, (main_try_eval _ _ _ _ hp).trans (congrArg some he)⟩

/-! ## What evaluation can change -/

/-- A property of the environment that writing any target of an `Assignment` node
of the tree keeps is kept by evaluating the tree, whether it returns or throws. -/
theorem eval_preserves (P : Env → Prop) (o : OperandOrder) (expr : Expr) :
    (∀ env n v, n ∈ assigned_names expr → P env → P (env_set env n v)) →
    ∀ env, P env → P (eval o expr env).2 := by
  induction expr with
  | Num val => intro _ env h; exact h
  | Variable n => intro _ env h; exact h
  | Addition l r ihl ihr =>
    intro hset env h
    have hk := eval_operands_keeps P o.addition_right_first (eval o l) (eval o r)
      (ihl fun env n v hn => hset env n v (List.mem_append_left _ hn))
      (ihr fun env n v hn => hset env n v (List.mem_append_right _ hn)) env h
    simp only [eval]
    split
    · rename_i e env1 he; rw [he] at hk; exact hk
    · rename_i a b env1 he; rw [he] at hk; exact hk
  | Subtraction l r ihl ihr =>
    intro hset env h
    have hk := eval_operands_keeps P o.subtraction_right_first (eval o l) (eval o r)
      (ihl fun env n v hn => hset env n v (List.mem_append_left _ hn))
      (ihr fun env n v hn => hset env n v (List.mem_append_right _ hn)) env h
    simp only [eval]
    split
    · rename_i e env1 he; rw [he] at hk; exact hk
    · rename_i a b env1 he; rw [he] at hk; exact hk
  | Multiplication l r ihl ihr =>
    intro hset env h
    have hk := eval_operands_keeps P o.multiplication_right_first (eval o l) (eval o r)
      (ihl fun env n v hn => hset env n v (List.mem_append_left _ hn))
      (ihr fun env n v hn => hset env n v (List.mem_append_right _ hn)) env h
    simp only [eval]
    split
    · rename_i e env1 he; rw [he] at hk; exact hk
    · rename_i a b env1 he; rw [he] at hk; exact hk
  | Division l r ihl ihr =>
    intro hset env h
    have h1 := ihl (fun env n v hn => hset env n v (List.mem_append_left _ hn)) env h
    simp only [eval]
    split
    · rename_i e env1 he; rw [he] at h1; exact h1
    · rename_i a env1 he
      rw [he] at h1
      have h2 := ihr (fun env n v hn => hset env n v (List.mem_append_right _ hn)) env1 h1
      split
      · rename_i e env2 he2; rw [he2] at h2; exact h2
      · rename_i b env2 he2
        rw [he2] at h2
        split
        · exact h2
        · split
          · exact h2
          · exact h2
  | Assignment n val ih =>
    intro hset env h
    have h1 := ih (fun env m v hm => hset env m v (List.mem_cons_of_mem _ hm)) env h
    simp only [eval]
    split
    · rename_i e env1 he; rw [he] at h1; exact h1
    · rename_i v env1 he
      rw [he] at h1
      exact hset env1 n v (List.mem_cons_self _ _) h1
  | Seq l r ihl ihr =>
    intro hset env h
    have h1 := ihl (fun env n v hn => hset env n v (List.mem_append_left _ hn)) env h
    simp only [eval]
    split
    · rename_i e env1 he; rw [he] at h1; exact h1
    · rename_i v env1 he
      rw [he] at h1
      exact ihr (fun env n v hn => hset env n v (List.mem_append_right _ hn)) env1 h1

/-- C14: the environment is mutated only by `Assignment` nodes and never loses a
binding: for every expression and environment, after evaluation (whether it
succeeds or faults) every name bound before is still bound, and every name that
is not the target of some `Assignment` node in the tree has exactly the binding
(or absence of one) it had before; evaluating an expression containing no
`Assignment` node leaves the environment unchanged. -/
theorem C14_only_assignment_writes (o : OperandOrder) (expr : Expr) (env : Env) :
    (∀ name, env_find env name ≠ none → env_find (eval o expr env).2 name ≠ none) ∧
    (∀ name, name ∉ assigned_names expr →
      env_find (eval o expr env).2 name = env_find env name) ∧
    (assigned_names expr = [] → (eval o expr env).2 = env) := by
  refine ⟨fun name h => eval_keeps_bound o name expr env h, fun name hn => ?_, fun h0 => ?_⟩
  · refine eval_preserves (fun e1 => env_find e1 name = env_find env name) o expr
      (fun e1 n v hmem h1 => ?_) env rfl
    have hne : name ≠ n := fun hc => hn (hc ▸ hmem)
    show env_find (env_set e1 n v) name = env_find env name
    rw [env_find_set_other e1 n name v hne]
    exact h1
  · refine eval_preserves (fun e1 => e1 = env) o expr (fun e1 n v hmem _ => ?_) env rfl
    rw [h0] at hmem
    cases hmem

/-- C14, witness: in `x = 4; y / 0` with `y` bound to 1 the fault leaves `y` as
it was and `x` written; `(y + 1) * z` with `z` unbound leaves the environment
unchanged. -/
theorem C14_only_assignment_writes_witness :
    eval left_to_right (.Seq (.Assignment "x" (.Num 4)) (.Division (.Variable "y") (.Num 0)))
      [("y", 1)] = (.error DivisionByZero, [("y", 1), ("x", 4)]) ∧
    env_find [("y", 1), ("x", 4)] "y" = env_find [("y", 1)] "y" ∧
    (eval left_to_right (.Multiplication (.Addition (.Variable "y") (.Num 1)) (.Variable "z"))
      [("y", 1)]).2 = [("y", 1)] :=
  ⟨by decide,
    (by decide : (eval left_to_right (.Seq (.Assignment "x" (.Num 4))
        (.Division (.Variable "y") (.Num 0))) [("y", 1)]).2 = [("y", 1), ("x", 4)]) ▸
      (C14_only_assignment_writes left_to_right (.Seq (.Assignment "x" (.Num 4))
        (.Division (.Variable "y") (.Num 0))) [("y", 1)]).2.1 "y" (by decide),
    (C14_only_assignment_writes left_to_right
      (.Multiplication (.Addition (.Variable "y") (.Num 1)) (.Variable "z"))
      [("y", 1)]).2.2 (by decide)⟩

/-! ## One step of the lexer -/

theorem takeWhile_all (p : Char → Bool) (cs : List Char) : ∀ c ∈ cs.takeWhile p, p c = true := by
  induction cs with
  | nil => intro c hc; cases hc
  | cons d cs ih =>
    intro c hc
    by_cases hd : p d = true
    · simp only [List.takeWhile, hd, List.mem_cons] at hc
      rcases hc with rfl | hc
      · exact hd
      · exact ih c hc
    · simp [List.takeWhile, hd] at hc

theorem takeWhile_dropWhile (p : Char → Bool) (cs : List Char) :
    cs = cs.takeWhile p ++ cs.dropWhile p := by
  induction cs with
  | nil => rfl
  | cons d cs ih =>
    by_cases hd : p d = true
    · simp only [List.takeWhile, List.dropWhile, hd, List.cons_append]
      rw [← ih]
    · simp [List.takeWhile, List.dropWhile, hd]

/-- What one pass of the outer loop of `lex` does at a character: it pushes one
well-formed token whose lexeme is a prefix of the input and goes on after it, or
it skips a white space character, or it throws. -/
theorem lex_loop_cases (c : Char) (rest : List Char) :
    (∃ tok rest1, c :: rest = tok.lexeme.toList ++ rest1 ∧ token_ok tok ∧
      ((tok.kind = .Number → ∀ d, rest1.head? = some d → isdigit d = false) ∧
        (tok.kind = .Name → ∀ d, rest1.head? = some d → isalpha d = false)) ∧
      ∀ acc, lex_loop (c :: rest) acc = lex_loop rest1 (acc ++ [tok])) ∨
    (isspace c = true ∧ ∀ acc, lex_loop (c :: rest) acc = lex_loop rest acc) ∨
    (recognized c = false ∧ ∀ acc, lex_loop (c :: rest) acc = .error (unknown_character c)) := by
  have hrun : ∀ p : Char → Bool, p c = true →
      (c :: rest).takeWhile p ≠ [] ∧ (∀ d, ((c :: rest).dropWhile p).head? = some d → p d = false) := by
    intro p hp
    refine ⟨by simp [List.takeWhile, hp], fun d hd => ?_⟩
    cases hq : p d
    · rfl
    · have := List.head?_dropWhile_not p (c :: rest)
      rw [hd] at this
      simp [hq] at this
  by_cases hd : isdigit c = true
  · refine Or.inl ⟨⟨.Number, ⟨(c :: rest).takeWhile isdigit⟩⟩, (c :: rest).dropWhile isdigit,
      takeWhile_dropWhile isdigit (c :: rest),
      Or.inl ⟨rfl, (hrun isdigit hd).1, takeWhile_all isdigit _⟩,
      ⟨fun _ => (hrun isdigit hd).2, fun h => Kind.noConfusion h⟩, fun acc => ?_⟩
    rw [lex_loop]
    simp only [hd, dite_true, lex_run_eq]
    rfl
  · have hd1 : isdigit c = false := by simpa using hd
    by_cases ha : isalpha c = true
    · refine Or.inl ⟨⟨.Name, ⟨(c :: rest).takeWhile isalpha⟩⟩, (c :: rest).dropWhile isalpha,
        takeWhile_dropWhile isalpha (c :: rest),
        Or.inr (Or.inl ⟨rfl, (hrun isalpha ha).1, takeWhile_all isalpha _⟩),
        ⟨fun h => Kind.noConfusion h, fun _ => (hrun isalpha ha).2⟩, fun acc => ?_⟩
      rw [lex_loop]
      simp only [hd1, ha, dite_true, lex_run_eq, Bool.false_eq_true, dite_false]
      rfl
    · have ha1 : isalpha c = false := by simpa using ha
      by_cases hs : isspace c = true
      · exact Or.inr (Or.inl ⟨hs, fun acc => lex_loop_space c rest acc hs⟩)
      · have hs1 : isspace c = false := by simpa using hs
        cases ht : single_token c with
        | some tok =>
          have hl : tok.lexeme.toList = [c] := by
            unfold single_token at ht
            split_ifs at ht <;> cases ht <;> subst_vars <;> rfl
          have hk := single_token_kind ht
          refine Or.inl ⟨tok, rest, by rw [hl]; rfl, token_ok_symbol c ht hl,
            ⟨fun h => absurd h hk.1, fun h => absurd h hk.2⟩,
            fun acc => lex_loop_single c rest acc tok ht⟩
        | none =>
          exact Or.inr (Or.inr ⟨(recognized_false_iff c).2 ⟨hd1, ha1, hs1, ht⟩,
            fun acc => lex_loop_unknown c rest acc hd1 ha1 hs1 ht⟩)

theorem token_ok_nonempty {t : Token} (h : token_ok t) : t.lexeme.toList ≠ [] := by
  obtain ⟨c, cs, hl, _⟩ := token_ok_head h
  rw [hl]
  exact List.cons_ne_nil _ _

theorem token_ok_no_space {t : Token} (h : token_ok t) :
    ∀ c ∈ t.lexeme.toList, isspace c = false := by
  intro c hc
  cases hs : isspace c with
  | false => rfl
  | true =>
    rcases h with ⟨_, _, hall⟩ | ⟨_, _, hall⟩ | ⟨d, hd, hl⟩
    · have h1 := hall c hc
      rw [isspace_not_isdigit hs] at h1
      cases h1
    · have h1 := hall c hc
      rw [isspace_not_isalpha hs] at h1
      cases h1
    · rw [hl, List.mem_singleton] at hc
      subst hc
      rw [(single_token_classes hd).2.2] at hs
      cases hs

/-- The tokens pushed before a position do not influence what `lex` does after it. -/
theorem lex_loop_acc (n : Nat) : ∀ (cs : List Char) (acc : List Token), cs.length ≤ n →
    lex_loop cs acc =
      match lex_loop cs [] with
      | .ok out => .ok (acc ++ out)
      | .error e => .error e := by
  induction n with
  | zero =>
    intro cs acc hlen
    have : cs = [] := List.length_eq_zero.1 (Nat.le_zero.1 hlen)
    subst this
    simp [lex_loop_nil]
  | succ n ih =>
    intro cs acc hlen
    cases cs with
    | nil => simp [lex_loop_nil]
    | cons c rest =>
      rcases lex_loop_cases c rest with ⟨tok, rest1, heq, hok, _, hstep⟩ | ⟨_, hstep⟩ | ⟨_, hstep⟩
      · have hl : rest1.length ≤ n := by
          have h1 := congrArg List.length heq
          have h2 : 0 < tok.lexeme.toList.length :=
            List.length_pos.2 (token_ok_nonempty hok)
          simp only [List.length_cons, List.length_append] at h1 hlen
          omega
        rw [hstep acc, hstep [], ih rest1 (acc ++ [tok]) hl, ih rest1 ([] ++ [tok]) hl]
        cases lex_loop rest1 [] <;> simp
      · have hl : rest.length ≤ n := Nat.le_of_succ_le_succ hlen
        rw [hstep acc, hstep [], ih rest acc hl]
      · rw [hstep acc, hstep []]

/-- C15: a maximal run of digits or of letters becomes exactly one token. For
every non-empty string `d` of decimal digits and every string `s` that is empty
or starts with a non-digit character, `lex(d ++ s)` is the token `Number` with
lexeme `d` followed by the tokens of `lex(s)`, and fails, with the same
exception, exactly when `lex(s)` fails; likewise for every non-empty alphabetic
string `w` and every `s` that is empty or starts with a non-alphabetic character,
`lex(w ++ s)` is `Name` with lexeme `w` followed by `lex(s)`. -/
theorem C15_maximal_run (run s : String) :
    (is_number_literal run → (∀ c, s.toList.head? = some c → isdigit c = false) →
      lex (run ++ s) =
        match lex s with
        | .ok tokens => .ok (⟨.Number, run⟩ :: tokens)
        | .error e => .error e) ∧
    (is_name run → (∀ c, s.toList.head? = some c → isalpha c = false) →
      lex (run ++ s) =
        match lex s with
        | .ok tokens => .ok (⟨.Name, run⟩ :: tokens)
        | .error e => .error e) := by
  have hsplit : (run ++ s).toList = run.toList ++ s.toList := by
    simp [String.toList]
  refine ⟨fun hr hs => ?_, fun hr hs => ?_⟩
  · unfold lex
    rw [hsplit, lex_loop_number _ _ _ hr.1 hr.2 hs, lex_loop_acc _ _ _ (Nat.le_refl _)]
    cases lex_loop s.toList [] <;> rfl
  · unfold lex
    rw [hsplit, lex_loop_name _ _ _ hr.1 hr.2 hs, lex_loop_acc _ _ _ (Nat.le_refl _)]
    cases lex_loop s.toList [] <;> rfl

/-- C15, witness: `12+x` is `Number 12` followed by the tokens of `+x`, and `ab1`
is `Name ab` followed by the tokens of `1`. -/
theorem C15_maximal_run_witness :
    is_number_literal "12" ∧ is_name "ab" ∧
    lex "12+x" = .ok [⟨.Number, "12"⟩, ⟨.Plus, "+"⟩, ⟨.Name, "x"⟩] ∧
    lex "ab1" = .ok [⟨.Name, "ab"⟩, ⟨.Number, "1"⟩] := by
  have h1 := (C15_maximal_run "12" "+x").1 (by decide) (by decide)
  have h2 := (C15_maximal_run "ab" "1").2 (by decide) (by decide)
  have l1 : lex "+x" = .ok [⟨.Plus, "+"⟩, ⟨.Name, "x"⟩] := by
    simp [lex, lex_loop, lex_run, isdigit, isalpha, isspace, single_token]
    decide
  have l2 : lex "1" = .ok [⟨.Number, "1"⟩] := by
    simp [lex, lex_loop, lex_run, isdigit, isalpha, isspace, single_token]
    decide
  rw [l1] at h1
  rw [l2] at h2
  exact ⟨by decide, by decide, h1, h2⟩

/-! ## The lexemes of the tokens -/

/-- The tokens `lex` pushes from a position on are well formed, and their lexemes,
one after the other, are the rest of the input without its white space. -/
theorem lex_loop_lexemes (n : Nat) : ∀ (cs : List Char) (acc out : List Token),
    cs.length ≤ n → lex_loop cs acc = .ok out →
    ∃ pushed, out = acc ++ pushed ∧
      source_of pushed = cs.filter (fun c => !isspace c) ∧ ∀ t ∈ pushed, token_ok t := by
  induction n with
  | zero =>
    intro cs acc out hlen h
    have : cs = [] := List.length_eq_zero.1 (Nat.le_zero.1 hlen)
    subst this
    rw [lex_loop_nil] at h
    cases h
    exact ⟨[], by simp, rfl, fun t ht => by cases ht⟩
  | succ n ih =>
    intro cs acc out hlen h
    cases cs with
    | nil =>
      rw [lex_loop_nil] at h
      cases h
      exact ⟨[], by simp, rfl, fun t ht => by cases ht⟩
    | cons c rest =>
      rcases lex_loop_cases c rest with ⟨tok, rest1, heq, hok, _, hstep⟩ | ⟨hs, hstep⟩ | ⟨_, hstep⟩
      · have hl : rest1.length ≤ n := by
          have h1 := congrArg List.length heq
          have h2 : 0 < tok.lexeme.toList.length :=
            List.length_pos.2 (token_ok_nonempty hok)
          simp only [List.length_cons, List.length_append] at h1 hlen
          omega
        rw [hstep acc] at h
        obtain ⟨pushed, hout, hsrc, hall⟩ := ih rest1 (acc ++ [tok]) out hl h
        refine ⟨tok :: pushed, by rw [hout]; simp, ?_, ?_⟩
        · have hns : tok.lexeme.toList.filter (fun c => !isspace c) = tok.lexeme.toList :=
            List.filter_eq_self.2 (fun c hc => by simp [token_ok_no_space hok c hc])
          rw [heq, List.filter_append, hns]
          simp only [source_of, hsrc]
        · intro t ht
          rcases List.mem_cons.1 ht with rfl | ht
          · exact hok
          · exact hall t ht
      · have hl : rest.length ≤ n := Nat.le_of_succ_le_succ hlen
        rw [hstep acc] at h
        obtain ⟨pushed, hout, hsrc, hall⟩ := ih rest acc out hl h
        refine ⟨pushed, hout, ?_, hall⟩
        rw [hsrc]
        simp [List.filter, hs]
      · rw [hstep acc] at h
        cases h

/-- C18: whenever `lex(source)` succeeds, concatenating the lexemes of the returned
tokens in order gives exactly the source with its white space characters removed,
and every token's kind agrees with its lexeme: `Number` lexemes are non-empty digit
strings, `Name` lexemes are non-empty alphabetic strings, and each other kind has
its own single character. -/
theorem C18_lexemes_are_the_source (source : String) (tokens : List Token)
    (h : lex source = .ok tokens) :
    source_of tokens = source.toList.filter (fun c => !isspace c) ∧
    ∀ t ∈ tokens, token_ok t := by
  obtain ⟨pushed, hout, hsrc, hall⟩ :=
    lex_loop_lexemes source.toList.length source.toList [] tokens (Nat.le_refl _) h
  rw [List.nil_append] at hout
  subst hout
  exact ⟨hsrc, hall⟩

theorem lex_spaced_sum :
    lex " 12 +\tab " = .ok [⟨.Number, "12"⟩, ⟨.Plus, "+"⟩, ⟨.Name, "ab"⟩] := by
  simp [lex, lex_loop, lex_run, isdigit, isalpha, isspace, single_token]
  decide

/-- C18, witness: the lexemes of the tokens of ` 12 +<tab>ab ` make `12+ab`. -/
theorem C18_lexemes_are_the_source_witness :
    lex " 12 +\tab " = .ok [⟨.Number, "12"⟩, ⟨.Plus, "+"⟩, ⟨.Name, "ab"⟩] ∧
    source_of [⟨.Number, "12"⟩, ⟨.Plus, "+"⟩, ⟨.Name, "ab"⟩] = "12+ab".toList ∧
    ∀ t ∈ [(⟨.Number, "12"⟩ : Token), ⟨.Plus, "+"⟩, ⟨.Name, "ab"⟩], token_ok t :=
  have h := C18_lexemes_are_the_source " 12 +\tab " _ lex_spaced_sum
  ⟨lex_spaced_sum, h.1.trans (by decide), h.2⟩

/-! ## Conversion of number lexemes -/

theorem parse_single_number (d : String) (n : Int) (hs : stoi d = .ok n) :
    parse [⟨.Number, d⟩] = some (.ok (.Num n)) := by
  apply parse_ok_of_returns
  exact expr_of (seq_of (assign_other rfl (addition_of
    (multiplication_of (term_number rfl rfl hs) (multiplication_loop_end _ rfl))
    (addition_loop_end _ rfl))) (seq_loop_end _ rfl))

/-- C20: number lexemes are converted to a 32-bit signed `int` at parse time: for
every non-empty digit string `d`, `parse` of the single token `Number(d)` returns
`Num` with the decimal value of `d` (leading zeros ignored) when that value is at
most 2147483647, and fails, with the `std::out_of_range` of `std::stoi`, when the
value exceeds 2147483647. -/
theorem C20_number_conversion (d : String) (hd : is_number_literal d) :
    (literal_value d ≤ INT_MAX →
      parse [⟨.Number, d⟩] = some (.ok (.Num (literal_value d)))) ∧
    (INT_MAX < literal_value d → parse [⟨.Number, d⟩] = some (.error .out_of_range)) :=
  ⟨fun h => parse_single_number d _ (stoi_literal hd h),
    fun h => parse_first_literal_big d [] (stoi_literal_big hd (not_le.2 h))⟩

/-- C20, witness: `007` gives 7, `2147483647` is the largest literal accepted,
`2147483648` and `99999999999` fail. -/
theorem C20_number_conversion_witness :
    is_number_literal "007" ∧
    parse [⟨.Number, "007"⟩] = some (.ok (.Num 7)) ∧
    parse [⟨.Number, "2147483647"⟩] = some (.ok (.Num 2147483647)) ∧
    parse [⟨.Number, "2147483648"⟩] = some (.error .out_of_range) ∧
    parse [⟨.Number, "99999999999"⟩] = some (.error .out_of_range) :=
  ⟨by decide,
    (C20_number_conversion "007" (by decide)).1 (by decide),
    (C20_number_conversion "2147483647" (by decide)).1 (by decide),
    (C20_number_conversion "2147483648" (by decide)).2 (by decide),
    (C20_number_conversion "99999999999" (by decide)).2 (by decide)⟩

/-! ## Tokens left unread -/

/-- C19: `parse` does not require the whole token sequence to be consumed: for
every token sequence whose first token is a `Number` whose lexeme `std::stoi`
converts to the `int` `n` (for a lexeme of digits: its value, when that is at most
2147483647) and whose second token has kind `Number`, `Name`, `LParen`, `RParen`
or `Assign`, `parse` succeeds and returns `Num n` whatever tokens follow. -/
theorem C19_trailing_tokens_unread (tokens : List Token) (first second : Token) (n : Int)
    (h0 : tokens[0]? = some first) (hk0 : first.kind = .Number)
    (hs : stoi first.lexeme = .ok n) (h1 : tokens[1]? = some second)
    (hk1 : second.kind = .Number ∨ second.kind = .Name ∨ second.kind = .LParen ∨
      second.kind = .RParen ∨ second.kind = .Assign) :
    parse tokens = some (.ok (.Num n)) := by
  have h1a : tokens[0 + 1]? = some second := h1
  have hahead : assign_ahead tokens 0 = false := by
    unfold assign_ahead
    simp [h0, h1a, hk0]
  have hm : decide (second.kind = .Mult ∨ second.kind = .Div) = false := by
    rcases hk1 with h | h | h | h | h <;> rw [h] <;> rfl
  have ha : decide (second.kind = .Plus ∨ second.kind = .Minus) = false := by
    rcases hk1 with h | h | h | h | h <;> rw [h] <;> rfl
  have hq : decide (second.kind = .Semicolon) = false := by
    rcases hk1 with h | h | h | h | h <;> rw [h] <;> rfl
  apply parse_ok_of_returns
  exact expr_of (seq_of (assign_other hahead (addition_of
    (multiplication_of (term_number h0 hk0 hs) (multiplication_loop_other _ h1a hm))
    (addition_loop_other _ h1a ha))) (seq_loop_other _ h1a hq))

theorem lex_one_two : lex "1 2" = .ok [⟨.Number, "1"⟩, ⟨.Number, "2"⟩] := by
  simp [lex, lex_loop, lex_run, isdigit, isalpha, isspace, single_token]
  decide

theorem lex_one_paren : lex "1)" = .ok [⟨.Number, "1"⟩, ⟨.RParen, ")"⟩] := by
  simp [lex, lex_loop, lex_run, isdigit, isalpha, isspace, single_token]
  decide

theorem lex_one_assign_two_plus :
    lex "1 = 2 +" = .ok [⟨.Number, "1"⟩, ⟨.Assign, "="⟩, ⟨.Number, "2"⟩, ⟨.Plus, "+"⟩] := by
  simp [lex, lex_loop, lex_run, isdigit, isalpha, isspace, single_token]
  decide

/-- C19, witness: the tokens of `1 2`, `1)` and `1 = 2 +` all parse to `Num 1`. -/
theorem C19_trailing_tokens_unread_witness :
    parse_source "1 2" = some (.ok (.Num 1)) ∧
    parse_source "1)" = some (.ok (.Num 1)) ∧
    parse_source "1 = 2 +" = some (.ok (.Num 1)) :=
  ⟨parse_source_eq _ _ _ lex_one_two
      (C19_trailing_tokens_unread _ ⟨.Number, "1"⟩ ⟨.Number, "2"⟩ 1 rfl rfl (by decide) rfl
        (Or.inl rfl)),
    parse_source_eq _ _ _ lex_one_paren
      (C19_trailing_tokens_unread _ ⟨.Number, "1"⟩ ⟨.RParen, ")"⟩ 1 rfl rfl (by decide) rfl
        (Or.inr (Or.inr (Or.inr (Or.inl rfl))))),
    parse_source_eq _ _ _ lex_one_assign_two_plus
      (C19_trailing_tokens_unread _ ⟨.Number, "1"⟩ ⟨.Assign, "="⟩ 1 rfl rfl (by decide) rfl
        (Or.inr (Or.inr (Or.inr (Or.inr rfl)))))⟩

/-! ## Incomplete constructs -/

theorem term_end {tokens : List Token} {curr : Nat} (ht : tokens[curr]? = none) :
    Returns (fun fuel => parse_term fuel curr tokens) (.error expected_term) :=
  ⟨1, by beta_reduce; rw [parse_term_succ]; simp only [ht]⟩

theorem multiplication_loop_error {tokens : List Token} {curr : Nat} {tok : Token}
    {left : Expr} {e : Exception} (ht : tokens[curr]? = some tok)
    (hk : tok.kind = .Mult ∨ tok.kind = .Div)
    (hr : Returns (fun fuel => parse_term fuel (curr + 1) tokens) (.error e)) :
    Returns (fun fuel => parse_multiplication_loop fuel left curr tokens) (.error e) := by
  obtain ⟨fuel, h1⟩ := hr
  beta_reduce at h1
  exact ⟨fuel + 1, by
    beta_reduce; rw [parse_multiplication_loop_succ]; simp [ht, hk, and_then, h1]⟩

theorem addition_loop_error {tokens : List Token} {curr : Nat} {tok : Token}
    {left : Expr} {e : Exception} (ht : tokens[curr]? = some tok)
    (hk : tok.kind = .Plus ∨ tok.kind = .Minus)
    (hr : Returns (fun fuel => parse_multiplication fuel (curr + 1) tokens) (.error e)) :
    Returns (fun fuel => parse_addition_loop fuel left curr tokens) (.error e) := by
  obtain ⟨fuel, h1⟩ := hr
  beta_reduce at h1
  exact ⟨fuel + 1, by
    beta_reduce; rw [parse_addition_loop_succ]; simp [ht, hk, and_then, h1]⟩

theorem seq_loop_error {tokens : List Token} {curr : Nat} {tok : Token}
    {left : Expr} {e : Exception} (ht : tokens[curr]? = some tok)
    (hk : tok.kind = .Semicolon)
    (hr : Returns (fun fuel => parse_assign fuel (curr + 1) tokens) (.error e)) :
    Returns (fun fuel => parse_seq_loop fuel left curr tokens) (.error e) := by
  obtain ⟨fuel, h1⟩ := hr
  beta_reduce at h1
  exact ⟨fuel + 1, by
    beta_reduce; rw [parse_seq_loop_succ]; simp [ht, hk, and_then, h1]⟩

theorem lex_number_symbol (a : String) (c : Char) (tok : Token) (ha : is_number_literal a)
    (ht : single_token c = some tok) (hl : tok.lexeme.toList = [c]) :
    lex (a ++ tok.lexeme) = .ok [⟨.Number, a⟩, tok] := by
  refine lex_of_tokens _ _ (by simp [source_of]) ?_ ?_
  · simp only [List.mem_cons, List.mem_singleton, forall_eq_or_imp, forall_eq,
      List.not_mem_nil, false_imp_iff, implies_true, and_true]
    exact ⟨token_ok_number ha, token_ok_symbol c ht hl⟩
  · have hk := single_token_kind ht
    simp [separated, hk.1, hk.2]

/-- A number, then `+` or `-`, then the end of the input. -/
theorem parse_number_then_additive (a : String) (tok : Token)
    (hk : tok.kind = .Plus ∨ tok.kind = .Minus) :
    ∃ e, parse [⟨.Number, a⟩, tok] = some (.error e) := by
  have hm : decide (tok.kind = .Mult ∨ tok.kind = .Div) = false := by
    rcases hk with h | h <;> rw [h] <;> rfl
  cases hs : stoi a with
  | error e =>
    exact ⟨e, parse_error_of_returns (expr_of (seq_error (assign_other rfl (addition_error
      (multiplication_error (term_number_error rfl rfl hs))))))⟩
  | ok n =>
    exact ⟨expected_term, parse_error_of_returns (expr_of (seq_error (assign_other rfl
      (addition_of
        (multiplication_of (term_number rfl rfl hs) (multiplication_loop_other _ rfl hm))
        (addition_loop_error rfl hk (multiplication_error (term_end rfl)))))))⟩

/-- A number, then `*` or `/`, then the end of the input. -/
theorem parse_number_then_multiplicative (a : String) (tok : Token)
    (hk : tok.kind = .Mult ∨ tok.kind = .Div) :
    ∃ e, parse [⟨.Number, a⟩, tok] = some (.error e) := by
  cases hs : stoi a with
  | error e =>
    exact ⟨e, parse_error_of_returns (expr_of (seq_error (assign_other rfl (addition_error
      (multiplication_error (term_number_error rfl rfl hs))))))⟩
  | ok n =>
    exact ⟨expected_term, parse_error_of_returns (expr_of (seq_error (assign_other rfl
      (addition_error
        (multiplication_of (term_number rfl rfl hs)
          (multiplication_loop_error rfl hk (term_end rfl)))))))⟩

/-- A number, then `;`, then the end of the input. -/
theorem parse_number_then_semicolon (a : String) :
    ∃ e, parse [⟨.Number, a⟩, ⟨.Semicolon, ";"⟩] = some (.error e) := by
  cases hs : stoi a with
  | error e =>
    exact ⟨e, parse_error_of_returns (expr_of (seq_error (assign_other rfl (addition_error
      (multiplication_error (term_number_error rfl rfl hs))))))⟩
  | ok n =>
    exact ⟨expected_term, parse_error_of_returns (expr_of (seq_of
      (assign_other rfl (addition_of
        (multiplication_of (term_number rfl rfl hs) (multiplication_loop_other _ rfl rfl))
        (addition_loop_other _ rfl rfl)))
      (seq_loop_error rfl rfl (assign_other rfl (addition_error
        (multiplication_error (term_end rfl)))))))⟩

/-- A name, then `=`, then the end of the input. -/
theorem parse_name_then_assign (n : String) :
    parse [⟨.Name, n⟩, ⟨.Assign, "="⟩] = some (.error expected_term) :=
  parse_error_of_returns (expr_of (seq_error (assign_name_error rfl rfl rfl rfl
    (addition_error (multiplication_error (term_end rfl))))))

/-- C13 (as amended): an incomplete construct is a parse error: for every number
literal `a` and alphabetic name `n`, `parse` fails on the token sequences of `a+`,
`a-`, `a*`, `a/`, `a;` and `n=` (an operator, `;` or `=` followed by the end of the
input), whereas on the token sequence of `a` alone `parse` succeeds when the value
of `a` is at most 2147483647 (and fails otherwise). -/
theorem C13_incomplete_construct (a n : String) (ha : is_number_literal a)
    (hn : is_name n) :
    lexes_but_fails_to_parse (a ++ "+") [⟨.Number, a⟩, ⟨.Plus, "+"⟩] ∧
    lexes_but_fails_to_parse (a ++ "-") [⟨.Number, a⟩, ⟨.Minus, "-"⟩] ∧
    lexes_but_fails_to_parse (a ++ "*") [⟨.Number, a⟩, ⟨.Mult, "*"⟩] ∧
    lexes_but_fails_to_parse (a ++ "/") [⟨.Number, a⟩, ⟨.Div, "/"⟩] ∧
    lexes_but_fails_to_parse (a ++ ";") [⟨.Number, a⟩, ⟨.Semicolon, ";"⟩] ∧
    lexes_but_fails_to_parse (n ++ "=") [⟨.Name, n⟩, ⟨.Assign, "="⟩] ∧
    lex a = .ok [⟨.Number, a⟩] ∧
    (literal_value a ≤ INT_MAX →
      parse [⟨.Number, a⟩] = some (.ok (.Num (literal_value a)))) ∧
    (INT_MAX < literal_value a → parse [⟨.Number, a⟩] = some (.error .out_of_range)) := by
  refine ⟨⟨lex_number_symbol a '+' ⟨.Plus, "+"⟩ ha rfl rfl,
      parse_number_then_additive a _ (Or.inl rfl)⟩,
    ⟨lex_number_symbol a '-' ⟨.Minus, "-"⟩ ha rfl rfl,
      parse_number_then_additive a _ (Or.inr rfl)⟩,
    ⟨lex_number_symbol a '*' ⟨.Mult, "*"⟩ ha rfl rfl,
      parse_number_then_multiplicative a _ (Or.inl rfl)⟩,
    ⟨lex_number_symbol a '/' ⟨.Div, "/"⟩ ha rfl rfl,
      parse_number_then_multiplicative a _ (Or.inr rfl)⟩,
    ⟨lex_number_symbol a ';' ⟨.Semicolon, ";"⟩ ha rfl rfl, parse_number_then_semicolon a⟩,
    ⟨?_, _, parse_name_then_assign n⟩, ?_,
    fun h => parse_single_number a _ (stoi_literal ha h),
    fun h => parse_first_literal_big a [] (stoi_literal_big ha (not_le.2 h))⟩
  · refine lex_of_tokens _ _ (by simp [source_of]) ?_ (by simp [separated])
    simp only [List.mem_cons, List.mem_singleton, forall_eq_or_imp, forall_eq,
      List.not_mem_nil, false_imp_iff, implies_true, and_true]
    exact ⟨token_ok_name hn, token_ok_symbol '=' rfl rfl⟩
  · refine lex_of_tokens _ _ (by simp [source_of]) ?_ (by simp [separated])
    simp only [List.mem_singleton, forall_eq]
    exact token_ok_number ha

/-- C13, witness: `1+`, `1-`, `1*`, `1/`, `1;` and `x=` fail, `1` parses to `Num 1`. -/
theorem C13_incomplete_construct_witness :
    is_number_literal "1" ∧ is_name "x" ∧
    lexes_but_fails_to_parse "1+" [⟨.Number, "1"⟩, ⟨.Plus, "+"⟩] ∧
    lexes_but_fails_to_parse "1-" [⟨.Number, "1"⟩, ⟨.Minus, "-"⟩] ∧
    lexes_but_fails_to_parse "1*" [⟨.Number, "1"⟩, ⟨.Mult, "*"⟩] ∧
    lexes_but_fails_to_parse "1/" [⟨.Number, "1"⟩, ⟨.Div, "/"⟩] ∧
    lexes_but_fails_to_parse "1;" [⟨.Number, "1"⟩, ⟨.Semicolon, ";"⟩] ∧
    lexes_but_fails_to_parse "x=" [⟨.Name, "x"⟩, ⟨.Assign, "="⟩] ∧
    parse [⟨.Number, "1"⟩] = some (.ok (.Num 1)) :=
  have h := C13_incomplete_construct "1" "x" (by decide) (by decide)
  ⟨by decide, by decide, h.1, h.2.1, h.2.2.1, h.2.2.2.1, h.2.2.2.2.1, h.2.2.2.2.2.1,
    h.2.2.2.2.2.2.2.1 (by decide)⟩

/-- C13 as stated fails: `parse` does not succeed on the token sequence of the
number literal `2147483648` alone. -/
theorem C13_counterexample :
    is_number_literal "2147483648" ∧
    lex "2147483648" = .ok [⟨.Number, "2147483648"⟩] ∧
    parse [⟨.Number, "2147483648"⟩] = some (.error .out_of_range) := by
  refine ⟨by decide, ?_, parse_first_literal_big _ [] (stoi_literal_big (by decide) (by decide))⟩
  simp [lex, lex_loop, lex_run, isdigit, isalpha, isspace, single_token]
  decide

/-! ## A sequence inside parentheses -/

/-- Lexing the source text of well-formed, separated tokens followed by more
input, when that input does not start with a digit or a letter. -/
theorem lex_loop_source_append (tokens : List Token) : ∀ (acc : List Token) (rest : List Char),
    (∀ t ∈ tokens, token_ok t) → separated tokens →
    (∀ c, rest.head? = some c → isdigit c = false ∧ isalpha c = false) →
    lex_loop (source_of tokens ++ rest) acc = lex_loop rest (acc ++ tokens) := by
  induction tokens with
  | nil => intro acc rest _ _ _; simp [source_of]
  | cons t more ih =>
    intro acc rest hok hsep hrest
    have hmore : ∀ u ∈ more, token_ok u := fun u hu => hok u (List.mem_cons_of_mem _ hu)
    have hsep1 : separated more := by
      cases more with
      | nil => trivial
      | cons u more1 => exact hsep.2.2
    have hnext : ∀ c, (source_of more ++ rest).head? = some c →
        (t.kind = .Number → isdigit c = false) ∧ (t.kind = .Name → isalpha c = false) := by
      intro c hc
      cases more with
      | nil =>
        simp only [source_of, List.nil_append] at hc
        exact ⟨fun _ => (hrest c hc).1, fun _ => (hrest c hc).2⟩
      | cons u more1 =>
        obtain ⟨c1, cs1, hl, hnd, hna⟩ := token_ok_head (hok u (by simp))
        simp only [source_of, hl, List.cons_append, List.head?_cons, Option.some.injEq] at hc
        subst hc
        exact ⟨fun hk => hnd (fun hu => hsep.1 ⟨hk, hu⟩),
          fun hk => hna (fun hu => hsep.2.1 ⟨hk, hu⟩)⟩
    have ht : t = ⟨t.kind, ⟨t.lexeme.toList⟩⟩ := rfl
    simp only [source_of, List.append_assoc]
    rcases hok t (List.mem_cons_self _ _) with ⟨hk, hne, hall⟩ | ⟨hk, hne, hall⟩ | ⟨c, hc, hl⟩
    · rw [lex_loop_number _ _ _ hne hall (fun c hc => (hnext c hc).1 hk),
        ih _ _ hmore hsep1 hrest, ← hk, ← ht]
      simp
    · rw [lex_loop_name _ _ _ hne hall (fun c hc => (hnext c hc).2 hk),
        ih _ _ hmore hsep1 hrest, ← hk, ← ht]
      simp
    · rw [hl, List.singleton_append, lex_loop_single _ _ _ _ hc, ih _ _ hmore hsep1 hrest]
      simp

/-- `lex` of two runs of tokens written with one space between them. -/
theorem lex_of_tokens_spaced (source : String) (before after : List Token)
    (hs : source.toList = source_of before ++ ' ' :: source_of after)
    (hb : ∀ t ∈ before, token_ok t) (hbs : separated before)
    (ha : ∀ t ∈ after, token_ok t) (has : separated after) :
    lex source = .ok (before ++ after) := by
  unfold lex
  rw [hs, lex_loop_source_append before [] _ hb hbs (fun c hc => by
      simp only [List.head?_cons, Option.some.injEq] at hc
      subst hc
      exact ⟨by decide, by decide⟩),
    lex_loop_space _ _ _ (by decide), lex_loop_source_of after _ ha has, List.nil_append]

theorem term_paren_error {tokens : List Token} {curr : Nat} {tok : Token}
    {e : Exception} (ht : tokens[curr]? = some tok) (hk : tok.kind = .LParen)
    (he : Returns (fun fuel => parse_expr fuel (curr + 1) tokens) (.error e)) :
    Returns (fun fuel => parse_term fuel curr tokens) (.error e) := by
  obtain ⟨fuel, he⟩ := he
  beta_reduce at he
  exact ⟨fuel + 1, by beta_reduce; rw [parse_term_succ]; simp [ht, hk, he, and_then]⟩

theorem lex_paren_seq_times (n a b c : String) (hn : is_name n)
    (ha : is_number_literal a) (hb : is_number_literal b) (hc : is_number_literal c) :
    lex ("(" ++ n ++ "=" ++ a ++ "; " ++ n ++ "+" ++ b ++ ")" ++ "*" ++ c) =
      .ok [⟨.LParen, "("⟩, ⟨.Name, n⟩, ⟨.Assign, "="⟩, ⟨.Number, a⟩, ⟨.Semicolon, ";"⟩,
        ⟨.Name, n⟩, ⟨.Plus, "+"⟩, ⟨.Number, b⟩, ⟨.RParen, ")"⟩, ⟨.Mult, "*"⟩,
        ⟨.Number, c⟩] := by
  refine lex_of_tokens_spaced _
    [⟨.LParen, "("⟩, ⟨.Name, n⟩, ⟨.Assign, "="⟩, ⟨.Number, a⟩, ⟨.Semicolon, ";"⟩]
    [⟨.Name, n⟩, ⟨.Plus, "+"⟩, ⟨.Number, b⟩, ⟨.RParen, ")"⟩, ⟨.Mult, "*"⟩, ⟨.Number, c⟩]
    (by simp [source_of]) ?_ (by simp [separated]) ?_ (by simp [separated])
  · simp only [List.mem_cons, List.mem_singleton, forall_eq_or_imp, forall_eq,
      List.not_mem_nil, false_imp_iff, implies_true, and_true]
    exact ⟨token_ok_symbol '(' rfl rfl, token_ok_name hn, token_ok_symbol '=' rfl rfl,
      token_ok_number ha, token_ok_symbol ';' rfl rfl⟩
  · simp only [List.mem_cons, List.mem_singleton, forall_eq_or_imp, forall_eq,
      List.not_mem_nil, false_imp_iff, implies_true, and_true]
    exact ⟨token_ok_name hn, token_ok_symbol '+' rfl rfl, token_ok_number hb,
      token_ok_symbol ')' rfl rfl, token_ok_symbol '*' rfl rfl, token_ok_number hc⟩

theorem parse_source_paren_seq_times (n a b c : String) (hn : is_name n)
    (ha : is_number_literal a) (hb : is_number_literal b) (hc : is_number_literal c)
    (hva : literal_value a ≤ INT_MAX) (hvb : literal_value b ≤ INT_MAX)
    (hvc : literal_value c ≤ INT_MAX) :
    parse_source ("(" ++ n ++ "=" ++ a ++ "; " ++ n ++ "+" ++ b ++ ")" ++ "*" ++ c) =
      some (.ok (.Multiplication
        (.Seq (.Assignment n (.Num (literal_value a)))
          (.Addition (.Variable n) (.Num (literal_value b))))
        (.Num (literal_value c)))) := by
  have sa := stoi_literal ha hva
  have sb := stoi_literal hb hvb
  have sc := stoi_literal hc hvc
  refine parse_source_eq _ _ _ (lex_paren_seq_times n a b c hn ha hb hc) ?_
  apply parse_ok_of_returns
  exact expr_of (seq_of (assign_other rfl (addition_of
    (multiplication_of
      (term_paren rfl rfl
        (expr_of (seq_of
          (assign_name rfl rfl rfl rfl (addition_of
            (multiplication_of (term_number rfl rfl sa)
              (multiplication_loop_other _ rfl rfl))
            (addition_loop_other _ rfl rfl)))
          (seq_loop_semicolon rfl rfl
            (assign_other rfl (addition_of
              (multiplication_of (term_name rfl rfl) (multiplication_loop_other _ rfl rfl))
              (addition_loop_plus rfl rfl
                (multiplication_of (term_number rfl rfl sb)
                  (multiplication_loop_other _ rfl rfl))
                (addition_loop_other _ rfl rfl))))
            (seq_loop_other _ rfl rfl))))
        rfl rfl)
      (multiplication_loop_mult rfl rfl (term_number rfl rfl sc)
        (multiplication_loop_end _ rfl)))
    (addition_loop_end _ rfl))) (seq_loop_end _ rfl))

/-- When the right operand is a literal, the order of the operands does not
matter: the left operand decides what happens. -/
theorem eval_operands_right_literal (right_first : Bool)
    (l : Env → Except Exception Int × Env) (o : OperandOrder) (c : Int) (env env1 : Env)
    (a : Int) (hl : l env = (.ok a, env1)) :
    eval_operands right_first l (eval o (.Num c)) env = (.ok (a, c), env1) := by
  cases right_first <;> simp [eval_operands, eval_num, hl]

theorem eval_paren_seq_times (o : OperandOrder) (env : Env) (n : String) (a b c : Int) :
    eval o (.Multiplication (.Seq (.Assignment n (.Num a)) (.Addition (.Variable n) (.Num b)))
      (.Num c)) env = (.ok (wrap_int (wrap_int (a + b) * c)), env_set env n a) := by
  have hseq : eval o (.Seq (.Assignment n (.Num a)) (.Addition (.Variable n) (.Num b))) env =
      (.ok (wrap_int (a + b)), env_set env n a) := by
    rw [eval_seq o _ _ env _ a (eval_assignment o n (.Num a) env env a rfl)]
    exact eval_addition_pure o _ _ _ _ _
      (eval_variable_bound o n _ a (env_find_set_same env n a)) rfl
  have h : eval o (.Multiplication
      (.Seq (.Assignment n (.Num a)) (.Addition (.Variable n) (.Num b))) (.Num c)) env =
      match eval_operands o.multiplication_right_first
        (eval o (.Seq (.Assignment n (.Num a)) (.Addition (.Variable n) (.Num b))))
        (eval o (.Num c)) env with
      | (.error e, env1) => (.error e, env1)
      | (.ok (a, b), env1) => (.ok (wrap_int (a * b)), env1) := rfl
  rw [h, eval_operands_right_literal _ _ o c env _ _ hseq]

/-- C17 (as amended): a parenthesised subexpression may hold a full sequence with
assignments. For every alphabetic name `n` and number literals `a`, `b`, `c` whose
values are at most 2147483647, `parse(lex("(n=a; n+b)*c"))` succeeds with the tree
`Multiplication(Seq(Assignment(n, Num a), Addition(Variable n, Num b)), Num c)`,
and evaluating it in any environment yields `(a+b)*c`, when `a+b` and `(a+b)*c` are
at most 2147483647, and leaves `n` bound to `a`. -/
theorem C17_sequence_in_parentheses (o : OperandOrder) (env : Env) (n a b c : String)
    (hn : is_name n) (ha : is_number_literal a) (hb : is_number_literal b)
    (hc : is_number_literal c) (hva : literal_value a ≤ INT_MAX)
    (hvb : literal_value b ≤ INT_MAX) (hvc : literal_value c ≤ INT_MAX) :
    parse_source ("(" ++ n ++ "=" ++ a ++ "; " ++ n ++ "+" ++ b ++ ")" ++ "*" ++ c) =
      some (.ok (.Multiplication
        (.Seq (.Assignment n (.Num (literal_value a)))
          (.Addition (.Variable n) (.Num (literal_value b))))
        (.Num (literal_value c)))) ∧
    (literal_value a + literal_value b ≤ INT_MAX →
      (literal_value a + literal_value b) * literal_value c ≤ INT_MAX →
      main_try o env ("(" ++ n ++ "=" ++ a ++ "; " ++ n ++ "+" ++ b ++ ")" ++ "*" ++ c) =
        some (.ok ((literal_value a + literal_value b) * literal_value c),
          env_set env n (literal_value a)) ∧
      env_find (env_set env n (literal_value a)) n = some (literal_value a)) := by
  have hp := parse_source_paren_seq_times n a b c hn ha hb hc hva hvb hvc
  have na := literal_value_nonneg a
  have nb := literal_value_nonneg b
  have nc := literal_value_nonneg c
  refine ⟨hp, fun hs hm => ⟨?_, env_find_set_same _ _ _⟩⟩
  have np : 0 ≤ (literal_value a + literal_value b) * literal_value c :=
    Int.mul_nonneg (by omega) nc
  rw [main_try_eval o env _ _ hp, eval_paren_seq_times,
    wrap_int_of_range (x := literal_value a + literal_value b), wrap_int_of_range]
  · simp only [in_int_range, INT_MIN, INT_MAX] at *; omega
  · simp only [in_int_range, INT_MIN, INT_MAX] at *; omega

/-- C17, witness: `(a=1; a+2)*3` gives 9 and leaves `a` bound to 1. -/
theorem C17_sequence_in_parentheses_witness :
    is_name "a" ∧ is_number_literal "1" ∧ is_number_literal "2" ∧ is_number_literal "3" ∧
    parse_source "(a=1; a+2)*3" = some (.ok (.Multiplication
      (.Seq (.Assignment "a" (.Num 1)) (.Addition (.Variable "a") (.Num 2))) (.Num 3))) ∧
    main_try left_to_right [] "(a=1; a+2)*3" = some (.ok 9, [("a", 1)]) :=
  have h := C17_sequence_in_parentheses left_to_right [] "a" "1" "2" "3" (by decide)
    (by decide) (by decide) (by decide) (by decide) (by decide) (by decide)
  ⟨by decide, by decide, by decide, by decide, h.1, (h.2 (by decide) (by decide)).1⟩

/-- C17 as stated fails: the literal `2147483648` is not accepted by `std::stoi`, so
`(x=2147483648; x+1)*2` has no tree, and the sum `2147483647+1` is not an `int`,
so `(x=2147483647; x+1)*2` does not yield `(2147483647+1)*2`. -/
theorem C17_counterexample :
    parse_source "(x=2147483648; x+1)*2" = some (.error .out_of_range) ∧
    main_try left_to_right [] "(x=2147483647; x+1)*2" ≠
      some (.ok ((2147483647 + 1) * 2), [("x", 2147483647)]) := by
  constructor
  · refine parse_source_eq _ _ _
      (lex_paren_seq_times "x" "2147483648" "1" "2" (by decide) (by decide) (by decide)
        (by decide)) ?_
    apply parse_error_of_returns
    exact expr_of (seq_error (assign_other rfl (addition_error (multiplication_error
      (term_paren_error rfl rfl (expr_of (seq_error (assign_name_error rfl rfl rfl rfl
        (addition_error (multiplication_error (term_number_error rfl rfl
          (stoi_literal_big (by decide) (by decide)))))))))))))
  · have h := main_try_eval left_to_right [] _ _
      (parse_source_paren_seq_times "x" "2147483647" "1" "2" (by decide) (by decide)
        (by decide) (by decide) (by decide) (by decide) (by decide))
    rw [eval_paren_seq_times] at h
    intro h1
    exact absurd (h.symm.trans h1) (by decide)

end Calc
